import Mathlib

/-!
Verification of the htkl template-language core (lexer, parser, evaluator,
runtime scope, standard library) against its natural-language specification.

The Go sources are shallowly embedded: source text is modelled as a list of
characters (the Go code indexes bytes; all inputs considered here are
byte-valued), Go maps are modelled as association lists, `float64` numbers are
modelled as rationals (no claim below depends on floating-point rounding), and
mutable state (scopes, collectors) is threaded explicitly.  Loops and the
mutually recursive parser/evaluator take an explicit fuel argument so that all
definitions are structurally recursive and computable; fuel exhaustion yields a
distinguished error that the Go code never produces.
-/

set_option maxHeartbeats 1000000
set_option maxRecDepth 20000

namespace Htkl

/-- Go slice expression s[a:b] on a character list. -/
def listSlice (xs : List Char) (a b : Nat) : List Char :=
  (xs.take b).drop a

/-- unicode.IsDigit for byte-range input: the only Latin-1 decimal digits are
the ASCII ones. -/
def goIsDigit (c : Char) : Bool :=
  48 ≤ c.toNat && c.toNat ≤ 57

/-- unicode.IsLetter restricted to the Latin-1 byte range (the lexer feeds it
single bytes cast to runes). -/
def goIsLetter (c : Char) : Bool :=
  let n := c.toNat
  (65 ≤ n && n ≤ 90) || (97 ≤ n && n ≤ 122) ||
  n == 0xAA || n == 0xB5 || n == 0xBA ||
  (0xC0 ≤ n && n ≤ 0xD6) || (0xD8 ≤ n && n ≤ 0xF6) || (0xF8 ≤ n && n ≤ 0xFF)

/-- The NUL byte used by the lexer as the escaped-dollar marker. -/
def nulChar : Char := Char.ofNat 0

inductive TokenType where
  | eof | ident | string | number
  | colon | comma | lbrace | rbrace | lbracket | rbracket | lparen | rparen
  | comment | newline
  | kif | kelse | kfor | kin | kwith | kas | kdo | kend
  | kbreak | kcontinue | klet | kdefine | kinclude | kspread
  | ktrue | kfalse | knull
  | dot | assign | plus | minus | mul | div | pipe
  | land | lor | eq | neq | bang | lt | lte | gt | gte
  deriving Repr, DecidableEq

/-- TokenType.String() from the source. -/
def tokenTypeString : TokenType → String
  | .eof => "EOF"
  | .ident => "identifier"
  | .string => "string"
  | .number => "number"
  | .colon => "\x27:\x27"
  | .comma => "\x27,\x27"
  | .lbrace => "\x27\x7b\x27"
  | .rbrace => "\x27\x7d\x27"
  | .lbracket => "\x27[\x27"
  | .rbracket => "\x27]\x27"
  | .lparen => "\x27(\x27"
  | .rparen => "\x27)\x27"
  | .comment => "comment"
  | .newline => "newline"
  | .kif => "\x27if\x27"
  | .kelse => "\x27else\x27"
  | .kfor => "\x27for\x27"
  | .kin => "\x27in\x27"
  | .kwith => "\x27with\x27"
  | .kas => "\x27as\x27"
  | .kdo => "\x27do\x27"
  | .kend => "\x27end\x27"
  | .kbreak => "\x27break\x27"
  | .kcontinue => "\x27continue\x27"
  | .klet => "\x27let\x27"
  | .kdefine => "\x27define\x27"
  | .kinclude => "\x27include\x27"
  | .kspread => "\x27spread\x27"
  | .ktrue => "\x27true\x27"
  | .kfalse => "\x27false\x27"
  | .knull => "\x27null\x27"
  | .dot => "\x27.\x27"
  | .assign => "\x27=\x27"
  | .plus => "\x27+\x27"
  | .minus => "\x27-\x27"
  | .mul => "\x27*\x27"
  | .div => "\x27/\x27"
  | .pipe => "\x27|\x27"
  | .land => "\x27&&\x27"
  | .lor => "\x27||\x27"
  | .eq => "\x27==\x27"
  | .neq => "\x27!=\x27"
  | .bang => "\x27!\x27"
  | .lt => "\x27<\x27"
  | .lte => "\x27<=\x27"
  | .gt => "\x27>\x27"
  | .gte => "\x27>=\x27"

structure Token where
  type : TokenType
  value : List Char
  line : Nat
  col : Nat
  deriving Repr, DecidableEq

/-- The zero value of the Go Token struct (TokenType zero value is TokenEOF). -/
def zeroToken : Token := ⟨.eof, [], 0, 0⟩

structure Lexer where
  input : List Char
  pos : Nat
  line : Nat
  col : Nat
  deriving Repr, DecidableEq

def newLexer (input : List Char) : Lexer := ⟨input, 0, 1, 1⟩

/-- Lexer.current: the byte at the cursor, 0 at end of input. -/
def Lexer.currentC (l : Lexer) : Char := l.input.getD l.pos nulChar

/-- Lexer.peek. -/
def Lexer.peekC (l : Lexer) : Char := l.input.getD (l.pos + 1) nulChar

/-- Lexer.peekN. -/
def Lexer.peekNC (l : Lexer) (n : Nat) : Char := l.input.getD (l.pos + n) nulChar

/-- Lexer.advance. -/
def Lexer.advance (l : Lexer) : Lexer :=
  if l.pos < l.input.length then
    if l.currentC = '\n' then
      { l with pos := l.pos + 1, line := l.line + 1, col := 1 }
    else
      { l with pos := l.pos + 1, col := l.col + 1 }
  else l

/-- Loop body of Lexer.skipWhitespace, with fuel (each iteration advances the
cursor, so fuel input.length + 1 is always enough). -/
def skipWhitespaceGo : Nat → Lexer → Lexer
  | 0, l => l
  | n + 1, l =>
    if l.pos < l.input.length then
      let ch := l.currentC
      if ch = ' ' ∨ ch = '\t' ∨ ch = '\r' then skipWhitespaceGo n l.advance else l
    else l

def Lexer.skipWhitespace (l : Lexer) : Lexer :=
  skipWhitespaceGo (l.input.length + 1) l

/-- Loop of Lexer.readComment: advance while not at a newline. -/
def readCommentLoop : Nat → Lexer → Lexer
  | 0, l => l
  | n + 1, l =>
    if l.pos < l.input.length ∧ l.currentC ≠ '\n' then
      readCommentLoop n l.advance
    else l

/-- Lexer.readComment. -/
def Lexer.readComment (l : Lexer) : Token × Lexer :=
  let start := l.pos
  let startCol := l.col
  let l1 := l.advance
  let l2 := readCommentLoop (l1.input.length + 1) l1
  (⟨.comment, listSlice l2.input start l2.pos, l2.line, startCol⟩, l2)

/-- Escape processing of unescapeString (the inner loop; the backslash of an
unknown escape is kept and the following byte is reprocessed). -/
def unescapeGo : List Char → List Char
  | [] => []
  | '\\' :: c :: rest =>
    if c = 'n' then '\n' :: unescapeGo rest
    else if c = 't' then '\t' :: unescapeGo rest
    else if c = 'r' then '\r' :: unescapeGo rest
    else if c = '"' then '"' :: unescapeGo rest
    else if c = '\\' then '\\' :: unescapeGo rest
    else if c = '$' then nulChar :: '$' :: unescapeGo rest
    else '\\' :: unescapeGo (c :: rest)
  | ['\\'] => ['\\']
  | c :: rest => c :: unescapeGo rest

/-- unescapeString from the source (including its early-out when the string
holds no backslash). -/
def unescapeString (s : List Char) : List Char :=
  if s.contains '\\' then unescapeGo s else s

/-- Loop of Lexer.readString: advance (skipping one extra byte after a
backslash) until the closing quote. -/
def readStringLoop : Nat → Lexer → Lexer
  | 0, l => l
  | n + 1, l =>
    if l.pos < l.input.length ∧ l.currentC ≠ '"' then
      if l.currentC = '\\' then readStringLoop n l.advance.advance
      else readStringLoop n l.advance
    else l

/-- Lexer.readString.  (On the degenerate input consisting of a lone quote the
Go code panics on the slice s[1:0]; listSlice returns [] there instead.  No
theorem below touches that input.) -/
def Lexer.readString (l : Lexer) : Token × Lexer :=
  let start := l.pos
  let startCol := l.col
  let l1 := l.advance
  let l2 := readStringLoop (l1.input.length + 1) l1
  let l3 := if l2.pos < l2.input.length then l2.advance else l2
  let value := unescapeString (listSlice l3.input (start + 1) (l3.pos - 1))
  (⟨.string, value, l3.line, startCol⟩, l3)

/-- Loop of Lexer.readMultilineString: scan for the closing triple quote;
returns the lexer at the closing quote together with whether it was found. -/
def readMultilineLoop : Nat → Lexer → Lexer × Bool
  | 0, l => (l, false)
  | n + 1, l =>
    if l.pos < l.input.length then
      if l.currentC = '"' ∧ l.peekC = '"' ∧ l.peekNC 2 = '"' then (l, true)
      else readMultilineLoop n l.advance
    else (l, false)

/-- Lexer.readMultilineString. -/
def Lexer.readMultilineString (l : Lexer) : Token × Lexer :=
  let start := l.pos
  let startCol := l.col
  let startLine := l.line
  let l1 := l.advance.advance.advance
  match readMultilineLoop (l1.input.length + 1) l1 with
  | (l2, true) =>
    let value := unescapeString (listSlice l2.input (start + 3) l2.pos)
    (⟨.string, value, startLine, startCol⟩, l2.advance.advance.advance)
  | (l2, false) =>
    let value := unescapeString (l2.input.drop (start + 3))
    (⟨.string, value, startLine, startCol⟩, l2)

/-- Loop of Lexer.readNumber: digits and dots are consumed greedily. -/
def readNumberLoop : Nat → Lexer → Lexer
  | 0, l => l
  | n + 1, l =>
    if l.pos < l.input.length ∧ (goIsDigit l.currentC ∨ l.currentC = '.') then
      readNumberLoop n l.advance
    else l

/-- Lexer.readNumber. -/
def Lexer.readNumber (l : Lexer) : Token × Lexer :=
  let start := l.pos
  let startCol := l.col
  let l1 := if l.currentC = '-' then l.advance else l
  let l2 := readNumberLoop (l1.input.length + 1) l1
  (⟨.number, listSlice l2.input start l2.pos, l2.line, startCol⟩, l2)

/-- Loop of Lexer.readIdentifier. -/
def readIdentifierLoop : Nat → Lexer → Lexer
  | 0, l => l
  | n + 1, l =>
    if l.pos < l.input.length ∧
        (goIsLetter l.currentC ∨ goIsDigit l.currentC ∨ l.currentC = '_') then
      readIdentifierLoop n l.advance
    else l

/-- The reserved-word table at the end of readIdentifier. -/
def keywordType (value : List Char) : TokenType :=
  if value = "if".toList then .kif
  else if value = "else".toList then .kelse
  else if value = "for".toList then .kfor
  else if value = "in".toList then .kin
  else if value = "with".toList then .kwith
  else if value = "as".toList then .kas
  else if value = "do".toList then .kdo
  else if value = "end".toList then .kend
  else if value = "break".toList then .kbreak
  else if value = "continue".toList then .kcontinue
  else if value = "let".toList then .klet
  else if value = "define".toList then .kdefine
  else if value = "include".toList then .kinclude
  else if value = "spread".toList then .kspread
  else if value = "true".toList then .ktrue
  else if value = "false".toList then .kfalse
  else if value = "null".toList then .knull
  else .ident

/-- Lexer.readIdentifier. -/
def Lexer.readIdentifier (l : Lexer) : Token × Lexer :=
  let start := l.pos
  let startCol := l.col
  let l1 := readIdentifierLoop (l.input.length + 1) l
  let value := listSlice l1.input start l1.pos
  (⟨keywordType value, value, l1.line, startCol⟩, l1)

/-- A one-byte token from the operator switch. -/
def oneCharTok (t : TokenType) (c : Char) (l : Lexer) : Token × Lexer :=
  (⟨t, [c], l.line, l.col⟩, l.advance)

/-- A two-byte operator token. -/
def twoCharTok (t : TokenType) (cs : List Char) (l : Lexer) : Token × Lexer :=
  (⟨t, cs, l.line, l.col⟩, l.advance.advance)

/-- Lexer.NextToken.  The final switch of the Go code is rendered as a chain of
character tests; its default branch (and the lone ampersand) return a token of
type TokenEOF carrying the offending byte. -/
def Lexer.nextToken (l0 : Lexer) : Token × Lexer :=
  let l := l0.skipWhitespace
  if l.pos ≥ l.input.length then (⟨.eof, [], l.line, l.col⟩, l)
  else
    let ch := l.currentC
    if ch = '\n' then (⟨.newline, ['\n'], l.line, l.col⟩, l.advance)
    else if ch = '#' then l.readComment
    else if ch = '"' then
      if l.peekC = '"' ∧ l.peekNC 2 = '"' then l.readMultilineString
      else l.readString
    else if goIsDigit ch ∨ (ch = '-' ∧ l.peekC ≠ nulChar ∧ goIsDigit l.peekC) then
      l.readNumber
    else if goIsLetter ch ∨ ch = '_' then l.readIdentifier
    else if ch = ':' then oneCharTok .colon ch l
    else if ch = ',' then oneCharTok .comma ch l
    else if ch = Char.ofNat 123 then oneCharTok .lbrace ch l
    else if ch = Char.ofNat 125 then oneCharTok .rbrace ch l
    else if ch = '[' then oneCharTok .lbracket ch l
    else if ch = ']' then oneCharTok .rbracket ch l
    else if ch = '(' then oneCharTok .lparen ch l
    else if ch = ')' then oneCharTok .rparen ch l
    else if ch = '.' then oneCharTok .dot ch l
    else if ch = '&' then
      if l.peekC = '&' then twoCharTok .land ['&', '&'] l
      else (⟨.eof, [ch], l.line, l.col⟩, l.advance)
    else if ch = '|' then
      if l.peekC = '|' then twoCharTok .lor ['|', '|'] l
      else oneCharTok .pipe ch l
    else if ch = '=' then
      if l.peekC = '=' then twoCharTok .eq ['=', '='] l
      else oneCharTok .assign ch l
    else if ch = '!' then
      if l.peekC = '=' then twoCharTok .neq ['!', '='] l
      else oneCharTok .bang ch l
    else if ch = '<' then
      if l.peekC = '=' then twoCharTok .lte ['<', '='] l
      else oneCharTok .lt ch l
    else if ch = '>' then
      if l.peekC = '=' then twoCharTok .gte ['>', '='] l
      else oneCharTok .gt ch l
    else if ch = '+' then oneCharTok .plus ch l
    else if ch = '-' then oneCharTok .minus ch l
    else if ch = '*' then oneCharTok .mul ch l
    else if ch = '/' then oneCharTok .div ch l
    else (⟨.eof, [ch], l.line, l.col⟩, l.advance)

/-! ### AST (parser/ast.go) -/

structure Pos where
  filename : String
  line : Nat
  col : Nat
  deriving Repr, DecidableEq

/-- All AST node kinds of parser/ast.go in one inductive.  The Go code uses
interfaces (Node / Statement / ValueStatement / Expression); membership of a
node kind in an interface is recorded by the predicates below.  The extra
constructor nilN stands for a nil Go interface value (parseStatement and
parseValueStatement return nil for comments and end-of-input). -/
inductive PNode where
  | stringLit (value : String) (pos : Pos)
  | interpString (parts : List PNode) (pos : Pos)
  | numberLit (value : ℚ) (pos : Pos)
  | boolLit (value : Bool) (pos : Pos)
  | nullLit (pos : Pos)
  | currentCtx (pos : Pos)
  | identE (name : String) (pos : Pos)
  | memberE (obj : PNode) (name : String) (pos : Pos)
  | indexE (obj idx : PNode) (pos : Pos)
  | binaryE (left : PNode) (op : String) (right : PNode) (pos : Pos)
  | unaryE (op : String) (operand : PNode) (pos : Pos)
  | objectLit (body : List PNode) (pos : Pos)
  | arrayLit (body : List PNode) (pos : Pos)
  | spreadS (operand : PNode) (pos : Pos)
  | ifS (cond : PNode) (body els : List PNode) (pos : Pos)
  | forS (keyVar valueVar : String) (iterable : PNode) (body : List PNode) (pos : Pos)
  | withS (ctx : PNode) (varName : String) (body : List PNode) (pos : Pos)
  | breakS (pos : Pos)
  | continueS (pos : Pos)
  | letS (name : String) (value : PNode) (pos : Pos)
  | assignS (name : String) (value : PNode) (pos : Pos)
  | keyValue (key : String) (value : PNode) (pos : Pos)
  | includeE (name : String) (ctx : Option PNode) (pos : Pos)
  | callE (fn : PNode) (args : List PNode) (pos : Pos)
  | nilN

/-- Node.GetPos(). -/
def PNode.getPos : PNode → Pos
  | .stringLit _ p => p
  | .interpString _ p => p
  | .numberLit _ p => p
  | .boolLit _ p => p
  | .nullLit p => p
  | .currentCtx p => p
  | .identE _ p => p
  | .memberE _ _ p => p
  | .indexE _ _ p => p
  | .binaryE _ _ _ p => p
  | .unaryE _ _ p => p
  | .objectLit _ p => p
  | .arrayLit _ p => p
  | .spreadS _ p => p
  | .ifS _ _ _ p => p
  | .forS _ _ _ _ p => p
  | .withS _ _ _ p => p
  | .breakS p => p
  | .continueS p => p
  | .letS _ _ p => p
  | .assignS _ _ p => p
  | .keyValue _ _ p => p
  | .includeE _ _ p => p
  | .callE _ _ p => p
  | .nilN => ⟨"", 0, 0⟩

/-- The string Go fmt prints for %T of the node value. -/
def goTypeName : PNode → String
  | .stringLit _ _ => "*parser.StringLiteral"
  | .interpString _ _ => "*parser.InterpolatedString"
  | .numberLit _ _ => "*parser.NumberLiteral"
  | .boolLit _ _ => "*parser.BooleanLiteral"
  | .nullLit _ => "*parser.NullLiteral"
  | .currentCtx _ => "*parser.CurrentContext"
  | .identE _ _ => "*parser.Identifier"
  | .memberE _ _ _ => "*parser.MemberExpression"
  | .indexE _ _ _ => "*parser.IndexExpression"
  | .binaryE _ _ _ _ => "*parser.BinaryOp"
  | .unaryE _ _ _ => "*parser.UnaryOp"
  | .objectLit _ _ => "*parser.Object"
  | .arrayLit _ _ => "*parser.Array"
  | .spreadS _ _ => "*parser.SpreadStatement"
  | .ifS _ _ _ _ => "*parser.IfStatement"
  | .forS _ _ _ _ _ => "*parser.ForStatement"
  | .withS _ _ _ _ => "*parser.WithStatement"
  | .breakS _ => "*parser.BreakStatement"
  | .continueS _ => "*parser.ContinueStatement"
  | .letS _ _ _ => "*parser.LetStatement"
  | .assignS _ _ _ => "*parser.AssignmentStatement"
  | .keyValue _ _ _ => "*parser.KeyValueStatement"
  | .includeE _ _ _ => "*parser.IncludeExpression"
  | .callE _ _ _ => "*parser.CallExpression"
  | .nilN => "<nil>"

/-- The nil check of Parse on the value returned by parseStatement. -/
def PNode.isNil : PNode → Bool
  | .nilN => true
  | _ => false

/-- Which node kinds implement the parser.Expression interface. -/
def PNode.isExpr : PNode → Bool
  | .stringLit _ _ | .interpString _ _ | .numberLit _ _ | .boolLit _ _
  | .nullLit _ | .currentCtx _ | .identE _ _ | .memberE _ _ _ | .indexE _ _ _
  | .binaryE _ _ _ _ | .unaryE _ _ _ | .objectLit _ _ | .arrayLit _ _
  | .includeE _ _ _ | .callE _ _ _ => true
  | _ => false

/-- Which node kinds implement the parser.Statement interface (every AST node
except Comment, Definition and Document). -/
def PNode.isStmt : PNode → Bool
  | .nilN => false
  | _ => true

structure Definition where
  name : String
  body : List PNode
  pos : Pos

structure Document where
  body : List PNode
  definitions : List Definition

/-! ### Parse errors (ParseError and plain fmt.Errorf errors) -/

/-- Either a *parser.ParseError or a plain error built with fmt.Errorf; the
fuel constructor marks exhaustion of the explicit recursion fuel and is never
produced by the modelled Go code. -/
inductive PErr where
  | perr (message : String) (line col offset : Nat) (source : List Char)
  | plain (message : String)
  | fuel
  deriving Repr, DecidableEq

/-- Renders a natural number in the %4d format of the context printer. -/
def goPad4 (n : Nat) : String :=
  if n < 10 then "   " ++ toString n
  else if n < 100 then "  " ++ toString n
  else if n < 1000 then " " ++ toString n
  else toString n

/-- Splits source text at newlines, like strings.Split(source, "\n"). -/
def splitLinesGo (s : List Char) : List (List Char) :=
  go s []
where
  go : List Char → List Char → List (List Char)
    | [], acc => [acc.reverse]
    | '\n' :: rest, acc => acc.reverse :: go rest []
    | c :: rest, acc => go rest (c :: acc)

/-- ParseError.FormatWithContext. -/
def formatWithContext (message : String) (line col : Nat) (source : List Char) : String :=
  let base := "Parse error at line " ++ toString line ++ ", column " ++ toString col ++
    ": " ++ message ++ "\n"
  if source = [] then base
  else
    let lines := splitLinesGo source
    if 0 < line ∧ line ≤ lines.length then
      let render := fun (ln : Nat) =>
        goPad4 ln ++ " | " ++ String.mk (lines.getD (ln - 1) []) ++ "\n"
      let before := (List.range 3).reverse.foldl
        (fun acc i => if line > i + 1 then acc ++ render (line - (i + 1)) else acc) ""
      let errLine := render line
      let pointer := String.mk (List.replicate (7 + col - 1) ' ') ++ "^" ++ "\n"
      let after := (List.range 3).foldl
        (fun acc i => if line + i + 1 ≤ lines.length then acc ++ render (line + i + 1) else acc) ""
      base ++ "\n" ++ before ++ errLine ++ pointer ++ after
    else base

/-- error.Error() on the two error shapes the parser produces. -/
def pErrString : PErr → String
  | .perr m l c _ s => formatWithContext m l c s
  | .plain m => m
  | .fuel => "out of fuel"

/-- PErr.message accessor used in theorem statements. -/
def PErr.messageOf : PErr → String
  | .perr m _ _ _ _ => m
  | .plain m => m
  | .fuel => "out of fuel"

/-- Go %q quoting (the escapes relevant to the byte set appearing here). -/
def goQuoteChar (c : Char) : String :=
  if c = '"' then "\\\""
  else if c = '\\' then "\\\\"
  else if c = '\n' then "\\n"
  else if c = '\t' then "\\t"
  else if c = '\r' then "\\r"
  else if c = nulChar then "\\x00"
  else String.singleton c

def goQuote (s : String) : String :=
  "\"" ++ (s.toList.map goQuoteChar).foldl (fun a b => a ++ b) "" ++ "\""

/-! ### strconv.ParseFloat on the decimal sublanguage

The lexer only ever produces number lexemes made of an optional leading minus,
digits and dots, so the hexadecimal, infinity and NaN forms of ParseFloat are
unreachable; the decimal form (sign, mantissa with at most one dot and at least
one digit, optional exponent) is modelled exactly, with the value returned as a
rational instead of the nearest float64. -/

def digitsToNat (ds : List Char) : Nat :=
  ds.foldl (fun a c => a * 10 + (c.toNat - 48)) 0

def goParseFloat (s : List Char) : Except String ℚ :=
  let fail : Except String ℚ :=
    .error ("strconv.ParseFloat: parsing " ++ goQuote (String.mk s) ++ ": invalid syntax")
  let (neg, rest) :=
    match s with
    | '-' :: r => (true, r)
    | '+' :: r => (false, r)
    | r => (false, r)
  let intPart := rest.takeWhile goIsDigit
  let rest1 := rest.drop intPart.length
  let (fracPart, rest2) :=
    match rest1 with
    | '.' :: r =>
      let f := r.takeWhile goIsDigit
      (some f, r.drop f.length)
    | r => (none, r)
  let (expo, rest3) : Option ℤ × List Char :=
    match rest2 with
    | 'e' :: r | 'E' :: r =>
      let (eneg, r1) :=
        match r with
        | '-' :: rr => (true, rr)
        | '+' :: rr => (false, rr)
        | rr => (false, rr)
      let ed := r1.takeWhile goIsDigit
      if ed = [] then (none, rest2)
      else (some (if eneg then -(digitsToNat ed : ℤ) else (digitsToNat ed : ℤ)), r1.drop ed.length)
    | r => (none, r)
  if intPart = [] ∧ (fracPart = none ∨ fracPart = some []) then fail
  else if rest3 ≠ [] then fail
  else if rest2 ≠ [] ∧ expo = none then fail
  else
    let frac := fracPart.getD []
    let mag : ℚ := (digitsToNat intPart : ℚ) + (digitsToNat frac : ℚ) / ((10 : ℚ) ^ frac.length)
    let base : ℚ := if neg then -mag else mag
    let scaled : ℚ :=
      match expo with
      | none => base
      | some e => if 0 ≤ e then base * (10 : ℚ) ^ e.toNat else base / (10 : ℚ) ^ (-e).toNat
    .ok scaled

/-! ### Parser state and small helpers (part of parser.go) -/

structure PState where
  lexer : Lexer
  current : Token
  peek : Token
  source : List Char
  filename : String
  deriving Repr, DecidableEq

/-- Parser.nextToken. -/
def PState.nextTok (p : PState) : PState :=
  let (t, lx) := p.lexer.nextToken
  { p with current := p.peek, peek := t, lexer := lx }

/-- parser.New: a parser whose current/peek tokens start as zero values and are
then loaded by two pulls. -/
def newParser (source : List Char) (filename : String) : PState :=
  PState.nextTok (PState.nextTok ⟨newLexer source, zeroToken, zeroToken, source, filename⟩)

/-- The fresh sub-parser built inside parseStringLiteral; its source field is
left at the zero value. -/
def freshExprParser (exprStr : List Char) (filename : String) : PState :=
  PState.nextTok (PState.nextTok ⟨newLexer exprStr, zeroToken, zeroToken, [], filename⟩)

/-- Parser.pos. -/
def PState.posP (p : PState) : Pos := ⟨p.filename, p.current.line, p.current.col⟩

/-- Parser.error. -/
def PState.mkError (p : PState) (message : String) : PErr :=
  .perr message p.current.line p.current.col p.lexer.pos p.source

/-- Parser.expectCurrent. -/
def PState.expectCurrent (p : PState) (t : TokenType) : Except PErr Unit :=
  if p.current.type = t then .ok ()
  else .error (p.mkError ("expected " ++ tokenTypeString t ++ ", got " ++
    tokenTypeString p.current.type))

/-- Loop of Parser.skipNewlines; a newline token always consumes an input byte
so the fuel below is never exhausted. -/
def skipNewlinesGo : Nat → PState → PState
  | 0, p => p
  | n + 1, p => if p.current.type = .newline then skipNewlinesGo n p.nextTok else p

def PState.skipNL (p : PState) : PState :=
  skipNewlinesGo (p.lexer.input.length + 2) p

/-- Parser.tokenPrecedence (PREC_LOWEST = 0 up to PREC_PRODUCT = 7). -/
def tokenPrecedence : TokenType → Nat
  | .pipe => 1
  | .lor => 2
  | .land => 3
  | .eq | .neq => 4
  | .lt | .lte | .gt | .gte => 5
  | .plus | .minus => 6
  | .mul | .div => 7
  | _ => 0

/-- Parser.expectStatementEnd. -/
def PState.expectStatementEnd (p : PState) : Except PErr Unit :=
  match p.peek.type with
  | .newline | .comma | .rbrace | .rbracket | .kend | .kelse | .eof => .ok ()
  | t => .error (p.mkError ("unexpected token " ++ tokenTypeString t ++ " after expression"))

/-- strings.Index for a one-byte needle. -/
def indexOfChar : List Char → Char → Option Nat
  | [], _ => none
  | a :: rest, c =>
    if a = c then some 0 else (indexOfChar rest c).map (· + 1)

/-- strings.Index for the two-byte needle used by interpolation scanning. -/
def indexOfPair : List Char → Char → Char → Option Nat
  | a :: b :: rest, x, y =>
    if a = x ∧ b = y then some 0 else (indexOfPair (b :: rest) x y).map (· + 1)
  | _, _, _ => none

/-- strings.ReplaceAll(s, "\x00$", "$"): strip the escaped-dollar markers. -/
def stripNulDollar : List Char → List Char
  | [] => []
  | a :: b :: rest =>
    if a = nulChar ∧ b = '$' then '$' :: stripNulDollar rest
    else a :: stripNulDollar (b :: rest)
  | [a] => [a]

/-- The interpolation-detection scan at the top of parseStringLiteral: an
unescaped dollar-brace exists (a dollar-brace preceded by the NUL marker is
skipped; the Go loop advances one byte at a time). -/
def hasInterpScan : Option Char → List Char → Bool
  | prev, '$' :: c :: rest =>
    if c = Char.ofNat 123 ∧ prev ≠ some nulChar then true
    else hasInterpScan (some '$') (c :: rest)
  | _, a :: c :: rest => hasInterpScan (some a) (c :: rest)
  | _, _ => false

/-- The searchPos loop inside parseStringLiteral: find the next unescaped
dollar-brace at or after searchPos; result is (start, pos) with start relative
to pos, exactly the two variables the Go loop leaves behind. -/
def findInterp : Nat → List Char → Nat → Option (Nat × Nat)
  | 0, _, _ => none
  | n + 1, str, searchPos =>
    match indexOfPair (str.drop searchPos) '$' (Char.ofNat 123) with
    | none => none
    | some idx =>
      let a := searchPos + idx
      if a > 0 ∧ str.getD (a - 1) ' ' = nulChar then findInterp n str (a + 2)
      else some (idx, searchPos)

abbrev PRes (α : Type) := Except PErr (PState × α)

/-! ### The recursive parser (parser.go), with explicit fuel

Every function consumes one unit of fuel on entry, so the whole mutual block is
structurally recursive on the fuel and computes by kernel reduction.  Loop
bodies of the Go code are rendered as their own fueled functions. -/

mutual

/-- Parser.parseStatement (the dispatch switch; unmatched cases fall through to
parseExpression).  A nil result is represented by PNode.nilN. -/
def parseStatement : Nat → PState → PRes PNode
  | 0, _ => .error .fuel
  | n + 1, p =>
    if p.current.type = .kfor then parseForStatement n p
    else if p.current.type = .kwith then parseWithStatement n p
    else if p.current.type = .kbreak then .ok (p, .breakS p.posP)
    else if p.current.type = .kcontinue then .ok (p, .continueS p.posP)
    else if p.current.type = .klet then parseLetStatement n p
    else if p.current.type = .kspread then parseSpread n p
    else if p.current.type = .kif then parseIfStatement n p
    else if p.current.type = .comment then .ok (p, .nilN)
    else if p.current.type = .string ∧ p.peek.type = .colon then parseKeyValue n p
    else if p.current.type = .ident ∧ p.peek.type = .assign then parseAssignmentStatement n p
    else if p.current.type = .ident ∧ p.peek.type = .colon then parseKeyValue n p
    else if p.current.type = .eof ∨ p.current.type = .kend then .ok (p, .nilN)
    else parseExpression n p

/-- Parser.parseSpread. -/
def parseSpread : Nat → PState → PRes PNode
  | 0, _ => .error .fuel
  | n + 1, p =>
    let pos := p.posP
    let p := p.nextTok
    match parseValueStatement n p with
    | .error e => .error e
    | .ok (p, operand) => .ok (p, .spreadS operand pos)

/-- Parser.parseAssignmentStatement. -/
def parseAssignmentStatement : Nat → PState → PRes PNode
  | 0, _ => .error .fuel
  | n + 1, p =>
    let pos := p.posP
    match p.expectCurrent .ident with
    | .error e => .error e
    | .ok _ =>
      let name := String.mk p.current.value
      let p := p.nextTok
      match p.expectCurrent .assign with
      | .error e => .error e
      | .ok _ =>
        let p := p.nextTok
        match parseValueStatement n p with
        | .error e => .error e
        | .ok (p, value) => .ok (p, .assignS name value pos)

/-- Parser.parseLetStatement. -/
def parseLetStatement : Nat → PState → PRes PNode
  | 0, _ => .error .fuel
  | n + 1, p =>
    let pos := p.posP
    let p := p.nextTok
    match p.expectCurrent .ident with
    | .error e => .error e
    | .ok _ =>
      let name := String.mk p.current.value
      let p := p.nextTok
      match p.expectCurrent .assign with
      | .error e => .error e
      | .ok _ =>
        let p := p.nextTok
        match parseValueStatement n p with
        | .error e => .error e
        | .ok (p, value) => .ok (p, .letS name value pos)

/-- Parser.parseDefinition. -/
def parseDefinition : Nat → PState → Except PErr (PState × Definition)
  | 0, _ => .error .fuel
  | n + 1, p =>
    let pos := p.posP
    let p := p.nextTok
    match p.expectCurrent .lparen with
    | .error e => .error e
    | .ok _ =>
      let p := p.nextTok
      match p.expectCurrent .string with
      | .error e => .error e
      | .ok _ =>
        let name := String.mk p.current.value
        let p := p.nextTok
        match p.expectCurrent .rparen with
        | .error e => .error e
        | .ok _ =>
          let p := p.nextTok
          if p.current.type = .kdo then
            let p := p.nextTok.skipNL
            match parseStmtsUntil n false p [] with
            | .error e => .error e
            | .ok (p, body) =>
              match p.expectCurrent .kend with
              | .error e => .error e
              | .ok _ => .ok (p.nextTok, ⟨name, body, pos⟩)
          else
            match parseExpression n p with
            | .error e => .error e
            | .ok (p, value) => .ok (p.nextTok, ⟨name, [value], pos⟩)

/-- The shared shape of the statement-sequence loops inside block constructs
(definition body, if/else bodies, with body, for body): skip comments and
newlines, parse a statement, advance, skip newlines, optionally skip a comma.
alsoElse is true for an if body, whose loop additionally stops at else. -/
def parseStmtsUntil : Nat → Bool → PState → List PNode → PRes (List PNode)
  | 0, _, _, _ => .error .fuel
  | n + 1, alsoElse, p, acc =>
    if p.current.type = .kend ∨ p.current.type = .eof ∨
        (alsoElse ∧ p.current.type = .kelse) then .ok (p, acc)
    else if p.current.type = .comment ∨ p.current.type = .newline then
      parseStmtsUntil n alsoElse p.nextTok acc
    else
      match parseStatement n p with
      | .error e => .error e
      | .ok (p, stmt) =>
        let p := p.nextTok.skipNL
        let acc := acc ++ [stmt]
        if p.current.type = .comma then parseStmtsUntil n alsoElse p.nextTok.skipNL acc
        else parseStmtsUntil n alsoElse p acc

/-- Parser.parseValueStatement. -/
def parseValueStatement : Nat → PState → PRes PNode
  | 0, _ => .error .fuel
  | n + 1, p =>
    if p.current.type = .kfor then parseForStatement n p
    else if p.current.type = .kwith then parseWithStatement n p
    else if p.current.type = .kif then parseIfStatement n p
    else if p.current.type = .comment then .ok (p, .nilN)
    else if p.current.type = .eof ∨ p.current.type = .kend then .ok (p, .nilN)
    else parseExpression n p

/-- Parser.parseKeyValue. -/
def parseKeyValue : Nat → PState → PRes PNode
  | 0, _ => .error .fuel
  | n + 1, p =>
    let pos := p.posP
    let key := String.mk p.current.value
    let p := p.nextTok
    match p.expectCurrent .colon with
    | .error e => .error e
    | .ok _ =>
      let p := p.nextTok
      match parseValueStatement n p with
      | .error e => .error e
      | .ok (p, value) =>
        match p.expectStatementEnd with
        | .error e => .error e
        | .ok _ => .ok (p, .keyValue key value pos)

/-- Parser.parseExpression. -/
def parseExpression : Nat → PState → PRes PNode
  | 0, _ => .error .fuel
  | n + 1, p => parseValueWithPrecedence n 0 p

/-- Parser.parseValueWithPrecedence. -/
def parseValueWithPrecedence : Nat → Nat → PState → PRes PNode
  | 0, _, _ => .error .fuel
  | n + 1, minPrecedence, p =>
    match parsePostfixValue n p with
    | .error e => .error e
    | .ok (p, left) => climbLoop n minPrecedence p left

/-- The precedence-climbing loop of parseValueWithPrecedence. -/
def climbLoop : Nat → Nat → PState → PNode → PRes PNode
  | 0, _, _, _ => .error .fuel
  | n + 1, minPrecedence, p, left =>
    if tokenPrecedence p.peek.type > minPrecedence then
      let p := p.nextTok
      let pos := p.posP
      let operator := String.mk p.current.value
      let precedence := tokenPrecedence p.current.type
      let p := p.nextTok
      match parseValueWithPrecedence n precedence p with
      | .error e => .error e
      | .ok (p, right) => climbLoop n minPrecedence p (.binaryE left operator right pos)
    else .ok (p, left)

/-- Parser.parsePostfixValue. -/
def parsePostfixValue : Nat → PState → PRes PNode
  | 0, _ => .error .fuel
  | n + 1, p =>
    match parsePrimaryValue n p with
    | .error e => .error e
    | .ok (p, value) => postfixLoop n p value

/-- The postfix chain loop (member access, indexing, calls). -/
def postfixLoop : Nat → PState → PNode → PRes PNode
  | 0, _, _ => .error .fuel
  | n + 1, p, value =>
    if p.peek.type = .dot then
      let p := p.nextTok
      let pos := p.posP
      let p := p.nextTok
      match p.expectCurrent .ident with
      | .error e => .error e
      | .ok _ => postfixLoop n p (.memberE value (String.mk p.current.value) pos)
    else if p.peek.type = .lbracket then
      let p := p.nextTok
      let pos := p.posP
      let p := p.nextTok
      match parseExpression n p with
      | .error e => .error e
      | .ok (p, index) =>
        let p := p.nextTok
        match p.expectCurrent .rbracket with
        | .error e => .error e
        | .ok _ => postfixLoop n p (.indexE value index pos)
    else if p.peek.type = .lparen then
      let p := p.nextTok
      let pos := p.posP
      let p := p.nextTok
      match callArgsLoop n p [] with
      | .error e => .error e
      | .ok (p, args) =>
        match p.expectCurrent .rparen with
        | .error e => .error e
        | .ok _ => postfixLoop n p (.callE value args pos)
    else .ok (p, value)

/-- The argument loop inside the call case of parsePostfixValue. -/
def callArgsLoop : Nat → PState → List PNode → PRes (List PNode)
  | 0, _, _ => .error .fuel
  | n + 1, p, args =>
    if p.current.type = .rparen ∨ p.current.type = .eof then .ok (p, args)
    else
      match parseExpression n p with
      | .error e => .error e
      | .ok (p, arg) =>
        let p := p.nextTok
        let p := if p.current.type = .comma then p.nextTok else p
        callArgsLoop n p (args ++ [arg])

/-- Parser.parsePrimaryValue. -/
def parsePrimaryValue : Nat → PState → PRes PNode
  | 0, _ => .error .fuel
  | n + 1, p =>
    let pos := p.posP
    match p.current.type with
    | .string => parseStringLiteral n p
    | .ktrue => .ok (p, .boolLit true pos)
    | .kfalse => .ok (p, .boolLit false pos)
    | .knull => .ok (p, .nullLit pos)
    | .dot =>
      if p.peek.type = .ident then
        let p := p.nextTok
        .ok (p, .memberE (.currentCtx pos) (String.mk p.current.value) pos)
      else .ok (p, .currentCtx pos)
    | .lbrace => parseObject n p
    | .lbracket => parseArray n p
    | .kinclude => parseIncludeExpression n p
    | .number =>
      match goParseFloat p.current.value with
      | .error msg =>
        .error (.plain ("invalid number " ++ goQuote (String.mk p.current.value) ++ ": " ++ msg))
      | .ok num => .ok (p, .numberLit num pos)
    | .ident => .ok (p, .identE (String.mk p.current.value) pos)
    | .bang =>
      let p := p.nextTok
      match parseExpression n p with
      | .error e => .error e
      | .ok (p, operand) => .ok (p, .unaryE "!" operand pos)
    | .lparen =>
      let p := p.nextTok
      match parseExpression n p with
      | .error e => .error e
      | .ok (p, value) =>
        let p := p.nextTok
        match p.expectCurrent .rparen with
        | .error e => .error e
        | .ok _ => .ok (p, value)
    | t => .error (p.mkError ("unexpected token " ++ tokenTypeString t))

/-- Parser.parseIncludeExpression. -/
def parseIncludeExpression : Nat → PState → PRes PNode
  | 0, _ => .error .fuel
  | n + 1, p =>
    let pos := p.posP
    let p := p.nextTok
    match p.expectCurrent .lparen with
    | .error e => .error e
    | .ok _ =>
      let p := p.nextTok
      match p.expectCurrent .string with
      | .error e => .error e
      | .ok _ =>
        let name := String.mk p.current.value
        let p := p.nextTok
        let step : PRes (Option PNode) :=
          if p.current.type = .comma then
            let p := p.nextTok
            match parseExpression n p with
            | .error e => .error e
            | .ok (p, arg) => .ok (p.nextTok, some arg)
          else .ok (p, none)
        match step with
        | .error e => .error e
        | .ok (p, context) =>
          match p.expectCurrent .rparen with
          | .error e => .error e
          | .ok _ => .ok (p, .includeE name context pos)

/-- Parser.parseStringLiteral: detect unescaped interpolation; without it,
strip markers and yield a plain string literal, otherwise run the
interpolation-splitting loop. -/
def parseStringLiteral : Nat → PState → PRes PNode
  | 0, _ => .error .fuel
  | n + 1, p =>
    let stringPos := p.posP
    let str := p.current.value
    if hasInterpScan none str then stringInterpLoop n p stringPos str 0 []
    else .ok (p, .stringLit (String.mk (stripNulDollar str)) stringPos)

/-- The splitting loop of parseStringLiteral.  Each sub-expression is the
substring between the unescaped dollar-brace and the first closing brace after
it (strings.Index), re-parsed by a fresh parser; a missing closing brace is the
parse error "unclosed interpolation in string". -/
def stringInterpLoop : Nat → PState → Pos → List Char → Nat → List PNode → PRes PNode
  | 0, _, _, _, _, _ => .error .fuel
  | n + 1, p, stringPos, str, pos, parts =>
    match findInterp (str.length + 2) str pos with
    | none =>
      let parts :=
        if pos < str.length then
          parts ++ [.stringLit (String.mk (stripNulDollar (str.drop pos))) stringPos]
        else parts
      .ok (p, .interpString parts stringPos)
    | some (start, spos) =>
      let parts :=
        if start > 0 then
          parts ++ [.stringLit (String.mk (stripNulDollar (listSlice str spos (spos + start)))) stringPos]
        else parts
      let pos := spos + start + 2
      match indexOfChar (str.drop pos) (Char.ofNat 125) with
      | none => .error (p.mkError "unclosed interpolation in string")
      | some endIdx =>
        let exprStr := listSlice str pos (pos + endIdx)
        let sub := freshExprParser exprStr p.filename
        match parseExpression n sub with
        | .error err =>
          .error (.plain ("failed to parse interpolation expression " ++
            goQuote (String.mk exprStr) ++ ": " ++ pErrString err))
        | .ok (_, expr) =>
          stringInterpLoop n p stringPos str (pos + endIdx + 1) (parts ++ [expr])

/-- Parser.parseObject. -/
def parseObject : Nat → PState → PRes PNode
  | 0, _ => .error .fuel
  | n + 1, p =>
    let pos := p.posP
    let p := p.nextTok.skipNL
    match parseObjectLoop n p [] with
    | .error e => .error e
    | .ok (p, body) =>
      if p.current.type = .rbrace then .ok (p, .objectLit body pos)
      else .error (p.mkError ("expected \x27\x7d\x27, got " ++ tokenTypeString p.current.type))

/-- The member loop of parseObject (identifier or string members must be
followed by a colon). -/
def parseObjectLoop : Nat → PState → List PNode → PRes (List PNode)
  | 0, _, _ => .error .fuel
  | n + 1, p, acc =>
    if p.current.type = .rbrace ∨ p.current.type = .eof then .ok (p, acc)
    else if p.current.type = .comment ∨ p.current.type = .newline then
      parseObjectLoop n p.nextTok acc
    else if p.current.type = .ident ∧ p.peek.type ≠ .colon then
      .error (p.mkError ("expected \x27:\x27, got " ++ tokenTypeString p.peek.type))
    else if p.current.type = .string ∧ p.peek.type ≠ .colon then
      .error (p.mkError ("expected \x27:\x27, got " ++ tokenTypeString p.peek.type))
    else
      match parseStatement n p with
      | .error e => .error e
      | .ok (p, stmt) =>
        let p := p.nextTok.skipNL
        let acc := acc ++ [stmt]
        if p.current.type = .comma then parseObjectLoop n p.nextTok.skipNL acc
        else parseObjectLoop n p acc

/-- Parser.parseArray. -/
def parseArray : Nat → PState → PRes PNode
  | 0, _ => .error .fuel
  | n + 1, p =>
    let pos := p.posP
    let p := p.nextTok.skipNL
    match parseArrayLoop n p [] with
    | .error e => .error e
    | .ok (p, body) =>
      if p.current.type = .rbracket then .ok (p, .arrayLit body pos)
      else .error (p.mkError ("expected \x27]\x27, got " ++ tokenTypeString p.current.type))

/-- The element loop of parseArray. -/
def parseArrayLoop : Nat → PState → List PNode → PRes (List PNode)
  | 0, _, _ => .error .fuel
  | n + 1, p, acc =>
    if p.current.type = .rbracket ∨ p.current.type = .eof then .ok (p, acc)
    else if p.current.type = .comment ∨ p.current.type = .newline then
      parseArrayLoop n p.nextTok acc
    else
      match parseStatement n p with
      | .error e => .error e
      | .ok (p, stmt) =>
        let p := p.nextTok.skipNL
        let acc := acc ++ [stmt]
        if p.current.type = .comma then parseArrayLoop n p.nextTok.skipNL acc
        else parseArrayLoop n p acc

/-- Parser.parseIfStatement. -/
def parseIfStatement : Nat → PState → PRes PNode
  | 0, _ => .error .fuel
  | n + 1, p =>
    let pos := p.posP
    let p := p.nextTok
    match parseExpression n p with
    | .error e => .error e
    | .ok (p, condition) =>
      let p := p.nextTok
      match p.expectCurrent .kdo with
      | .error e => .error e
      | .ok _ =>
        let p := p.nextTok.skipNL
        match parseStmtsUntil n true p [] with
        | .error e => .error e
        | .ok (p, body) =>
          if p.current.type = .kelse then
            let p := p.nextTok.skipNL
            if p.current.type = .kif then
              match parseIfStatement n p with
              | .error e => .error e
              | .ok (p, ifStmt) => .ok (p, .ifS condition body [ifStmt] pos)
            else
              match parseStmtsUntil n false p [] with
              | .error e => .error e
              | .ok (p, elseBody) =>
                if p.current.type = .kend then .ok (p, .ifS condition body elseBody pos)
                else .error (.plain ("expected \x27end\x27, got " ++ tokenTypeString p.current.type))
          else
            if p.current.type = .kend then .ok (p, .ifS condition body [] pos)
            else .error (.plain ("expected \x27end\x27, got " ++ tokenTypeString p.current.type))

/-- Parser.parseWithStatement (the required as-clause is enforced by
expectCurrent right after the context expression). -/
def parseWithStatement : Nat → PState → PRes PNode
  | 0, _ => .error .fuel
  | n + 1, p =>
    let pos := p.posP
    let p := p.nextTok
    match parseExpression n p with
    | .error e => .error e
    | .ok (p, context) =>
      let p := p.nextTok
      match p.expectCurrent .kas with
      | .error e => .error e
      | .ok _ =>
        let p := p.nextTok
        match p.expectCurrent .ident with
        | .error e => .error e
        | .ok _ =>
          let varName := String.mk p.current.value
          let p := p.nextTok
          match p.expectCurrent .kdo with
          | .error e => .error e
          | .ok _ =>
            let p := p.nextTok.skipNL
            match parseStmtsUntil n false p [] with
            | .error e => .error e
            | .ok (p, body) =>
              if p.current.type = .kend then .ok (p, .withS context varName body pos)
              else .error (.plain ("expected \x27end\x27, got " ++ tokenTypeString p.current.type))

/-- Parser.parseForStatement. -/
def parseForStatement : Nat → PState → PRes PNode
  | 0, _ => .error .fuel
  | n + 1, p =>
    let pos := p.posP
    let p := p.nextTok
    match p.expectCurrent .ident with
    | .error e => .error e
    | .ok _ =>
      let keyVar := String.mk p.current.value
      let p := p.nextTok
      match p.expectCurrent .comma with
      | .error e => .error e
      | .ok _ =>
        let p := p.nextTok
        match p.expectCurrent .ident with
        | .error e => .error e
        | .ok _ =>
          let valueVar := String.mk p.current.value
          let p := p.nextTok
          match p.expectCurrent .kin with
          | .error e => .error e
          | .ok _ =>
            let p := p.nextTok
            match parseExpression n p with
            | .error e => .error e
            | .ok (p, iterable) =>
              let p := p.nextTok
              match p.expectCurrent .kdo with
              | .error e => .error e
              | .ok _ =>
                let p := p.nextTok.skipNL
                match parseStmtsUntil n false p [] with
                | .error e => .error e
                | .ok (p, body) =>
                  if p.current.type = .kend then
                    .ok (p, .forS keyVar valueVar iterable body pos)
                  else .error (.plain ("expected \x27end\x27, got " ++ tokenTypeString p.current.type))

/-- The top-level loop of Parser.Parse. -/
def parseTopLoop : Nat → PState → List PNode → List Definition → Except PErr Document
  | 0, _, _, _ => .error .fuel
  | n + 1, p, body, defs =>
    if p.current.type = .eof then .ok ⟨body, defs⟩
    else if p.current.type = .newline ∨ p.current.type = .comment then
      parseTopLoop n p.nextTok body defs
    else if p.current.type = .kdefine then
      match parseDefinition n p with
      | .error e => .error e
      | .ok (p, d) => parseTopLoop n p.skipNL body (defs ++ [d])
    else
      match parseStatement n p with
      | .error e => .error e
      | .ok (p, node) =>
        let body := if node.isNil then body else body ++ [node]
        parseTopLoop n p.nextTok.skipNL body defs

end

/-- Parser.Parse on a fresh parser (parser.New(source, filename).Parse()). -/
def htklParse (fuel : Nat) (source : List Char) (filename : String) : Except PErr Document :=
  parseTopLoop fuel (newParser source filename) [] []

/-! ### Runtime values (runtime/values.go)

Arrays and objects are heap-shared pointers in Go; this embedding uses pure
value trees and threads every mutation explicitly, which is observationally
equivalent for all the executions appearing in the theorems below (none of
them alias a container that is later mutated).  Objects (Go string-keyed maps)
become association lists with update-or-append insertion. -/

inductive Val where
  | str (s : String)
  | num (q : ℚ)
  | bool (b : Bool)
  | null
  | arr (elements : List Val)
  | obj (fields : List (String × Val))

/-- ValueType.String(). -/
def valType : Val → String
  | .str _ => "string"
  | .num _ => "number"
  | .bool _ => "bool"
  | .null => "null"
  | .arr _ => "array"
  | .obj _ => "object"

/-- IsTruthy on each value kind. -/
def truthy : Val → Bool
  | .str s => s ≠ ""
  | .num q => q ≠ 0
  | .bool b => b
  | .null => false
  | .arr es => es.length ≠ 0
  | .obj fs => fs.length ≠ 0

/-- Go map read m[k]. -/
def mGet {α : Type} (m : List (String × α)) (k : String) : Option α :=
  (m.find? (fun e => e.1 = k)).map (fun e => e.2)

/-- Go map write m[k] = v (update in place, or append a new key). -/
def mSet {α : Type} (m : List (String × α)) (k : String) (v : α) : List (String × α) :=
  if (m.find? (fun e => e.1 = k)).isSome then
    m.map (fun e => if e.1 = k then (k, v) else e)
  else m ++ [(k, v)]

/-- strconv.FormatFloat(v, 102, -1, 64) restricted to rationals with a finite
decimal expansion (all numbers appearing in the theorems below are integers);
a rational with no finite decimal expansion — unreachable from float64 inputs
— is printed as a fraction. -/
def numberToString (q : ℚ) : String :=
  let sign := if q < 0 then "-" else ""
  let a : ℚ := |q|
  if a.den = 1 then sign ++ toString a.num.toNat
  else
    match (List.range 64).find? (fun k => (a * (10 : ℚ) ^ (k + 1)).den = 1) with
    | some k =>
      let scaled := (a * (10 : ℚ) ^ (k + 1)).num.toNat
      let ip := scaled / 10 ^ (k + 1)
      let fp := scaled % 10 ^ (k + 1)
      let fpStr := toString fp
      let pad := String.mk (List.replicate (k + 1 - fpStr.length) '0')
      sign ++ toString ip ++ "." ++ pad ++ fpStr
    | none => sign ++ toString a.num ++ "/" ++ toString a.den

/-- runtime.ToString. -/
def toStringGo : Val → Except String String
  | .str s => .ok s
  | .num q => .ok (numberToString q)
  | .bool b => .ok (if b then "true" else "false")
  | .null => .ok "null"
  | v => .error ("cannot convert " ++ valType v ++ " to string")

/-- runtime.ToNumber. -/
def toNumberGo : Val → Except String ℚ
  | .num q => .ok q
  | .str s => goParseFloat s.toList
  | .bool b => .ok (if b then 1 else 0)
  | .null => .ok 0
  | v => .error ("cannot convert " ++ valType v ++ " to number")

mutual

/-- Structural value comparison.  Go compares arrays and objects by pointer
identity; the structural fallback used here agrees with it whenever the two
operands are scalars or the same reference, which covers every comparison in
the theorems below (none compare distinct structurally equal containers). -/
def valBeq : Val → Val → Bool
  | .str a, .str b => a = b
  | .num a, .num b => a = b
  | .bool a, .bool b => a = b
  | .null, .null => true
  | .arr xs, .arr ys => valListBeq xs ys
  | .obj xs, .obj ys => valFieldsBeq xs ys
  | _, _ => false

def valListBeq : List Val → List Val → Bool
  | [], [] => true
  | x :: xs, y :: ys => valBeq x y && valListBeq xs ys
  | _, _ => false

def valFieldsBeq : List (String × Val) → List (String × Val) → Bool
  | [], [] => true
  | (k, x) :: xs, (k2, y) :: ys => k = k2 && valBeq x y && valFieldsBeq xs ys
  | _, _ => false

end

/-- runtime.Equal: kinds must match, scalars compare by value, containers by
identity (see valBeq). -/
def equalGo (l r : Val) : Bool :=
  if valType l ≠ valType r then false
  else valBeq l r

/-! ### Evaluation errors (eval/errors.go rendered in part_004) -/

/-- Errors produced during evaluation: positioned EvalError values, plain
fmt.Errorf errors, and the distinguished breakSignal sentinel. -/
inductive EErr where
  | evalError (message filename : String) (line col : Nat)
  | plainE (message : String)
  | brk
  | fuelE
  deriving Repr, DecidableEq

/-- errorf from the source: position information is attached when present. -/
def errorf (pos : Pos) (msg : String) : EErr :=
  if pos.line > 0 ∧ pos.filename ≠ "" then .evalError msg pos.filename pos.line pos.col
  else if pos.filename ≠ "" then .evalError msg pos.filename 0 0
  else .plainE msg

/-- filepath.Base. -/
def goBaseName (path : String) : String :=
  if path = "" then "."
  else
    let cs := path.toList.reverse.dropWhile (fun c => c = '/')
    if cs = [] then "/"
    else String.mk (cs.takeWhile (fun c => c ≠ '/')).reverse

/-- EvalError.Error() (and the message of a plain error). -/
def eerrString : EErr → String
  | .evalError m f l c =>
    if f ≠ "" then
      if l > 0 then "[" ++ goBaseName f ++ " " ++ toString l ++ ":" ++ toString c ++ "] " ++ m
      else "[" ++ f ++ "] " ++ m
    else m
  | .plainE m => m
  | .brk => "break"
  | .fuelE => "out of fuel"

/-- wraperr is referenced by evalInterpolatedString but its definition is not
among the provided sources.  Modelled from the spec: the outer layer wraps an
inner error with its own position (spec section 7), exactly what errorf does. -/
def wraperr (pos : Pos) (msg : String) : EErr := errorf pos msg

/-! ### Scopes (runtime/scope.go), as a heap of scope cells

A Go Scope holds four map pointers (vars, globals, funcs, templates) and a
parent pointer; Link copies the globals/funcs/templates pointers from another
scope, so those registries are shared by reference.  The embedding stores the
maps in per-kind heaps and the scope cells hold indices into them. -/

structure Template where
  name : String
  body : List PNode
  filename : String

/-- The Go type runtime.Func: a host function over runtime values. -/
def FuncImpl : Type := List Val → Except String Val

structure ScopeCell where
  parent : Option Nat
  vars : Nat
  globals : Nat
  funcs : Nat
  templates : Nat
  deriving Repr, DecidableEq

structure EState where
  scopes : List ScopeCell
  varMaps : List (List (String × Val))
  funcMaps : List (List (String × FuncImpl))
  tmplMaps : List (List (String × Template))

def EState.cell (st : EState) (s : Nat) : ScopeCell :=
  st.scopes.getD s ⟨none, 0, 0, 0, 0⟩

/-- runtime.NewScope: allocate fresh empty maps, then Link to the parent when
one is given (the three registry pointers are overwritten with the parent's,
leaving the fresh registry cells unused garbage, exactly like the Go code). -/
def newScope (st : EState) (parent : Option Nat) : EState × Nat :=
  let vi := st.varMaps.length
  let cell0 : ScopeCell := ⟨parent, vi, vi + 1, st.funcMaps.length, st.tmplMaps.length⟩
  let cell :=
    match parent with
    | some pIdx =>
      let pc := st.cell pIdx
      { cell0 with globals := pc.globals, funcs := pc.funcs, templates := pc.templates }
    | none => cell0
  ({ st with
      scopes := st.scopes ++ [cell],
      varMaps := st.varMaps ++ [[], []],
      funcMaps := st.funcMaps ++ [[]],
      tmplMaps := st.tmplMaps ++ [[]] }, st.scopes.length)

/-- Scope.Link. -/
def scopeLink (st : EState) (s other : Nat) : EState :=
  let oc := st.cell other
  let c := st.cell s
  let c2 := { c with globals := oc.globals, funcs := oc.funcs, templates := oc.templates }
  { st with scopes := st.scopes.set s c2 }

/-- Scope.Set. -/
def scopeSet (st : EState) (s : Nat) (name : String) (v : Val) : EState :=
  let ci := (st.cell s).vars
  { st with varMaps := st.varMaps.set ci (mSet (st.varMaps.getD ci []) name v) }

/-- Scope.SetGlobal. -/
def scopeSetGlobal (st : EState) (s : Nat) (name : String) (v : Val) : EState :=
  let ci := (st.cell s).globals
  { st with varMaps := st.varMaps.set ci (mSet (st.varMaps.getD ci []) name v) }

/-- Scope.SetFunction. -/
def scopeSetFunction (st : EState) (s : Nat) (name : String) (f : FuncImpl) : EState :=
  let ci := (st.cell s).funcs
  { st with funcMaps := st.funcMaps.set ci (mSet (st.funcMaps.getD ci []) name f) }

/-- Scope.GetFunction (no parent walk; the funcs map is shared by Link). -/
def scopeGetFunction (st : EState) (s : Nat) (name : String) : Option FuncImpl :=
  mGet (st.funcMaps.getD (st.cell s).funcs []) name

/-- Scope.Get with fuel for the parent walk (parent chains of reachable states
are acyclic, so the fuel used by scopeGet below is never exhausted). -/
def scopeGetF : Nat → EState → Nat → String → Except String Val
  | 0, _, _, name => .error ("undefined variable: " ++ name)
  | fl + 1, st, s, name =>
    match mGet (st.varMaps.getD (st.cell s).vars []) name with
    | some v => .ok v
    | none =>
      match (st.cell s).parent with
      | some pIdx => scopeGetF fl st pIdx name
      | none =>
        match mGet (st.varMaps.getD (st.cell s).globals []) name with
        | some v => .ok v
        | none => .error ("undefined variable: " ++ name)

def scopeGet (st : EState) (s : Nat) (name : String) : Except String Val :=
  scopeGetF (st.scopes.length + 1) st s name

/-- Scope.DefineTemplate. -/
def scopeDefineTemplate (st : EState) (s : Nat) (name : String) (t : Template) : EState :=
  let ci := (st.cell s).templates
  { st with tmplMaps := st.tmplMaps.set ci (mSet (st.tmplMaps.getD ci []) name t) }

/-- Scope.GetTemplate with fuel for the parent walk. -/
def scopeGetTemplateF : Nat → EState → Nat → String → Except String Template
  | 0, _, _, name => .error ("undefined template: " ++ name)
  | fl + 1, st, s, name =>
    match mGet (st.tmplMaps.getD (st.cell s).templates []) name with
    | some t => .ok t
    | none =>
      match (st.cell s).parent with
      | some pIdx => scopeGetTemplateF fl st pIdx name
      | none => .error ("undefined template: " ++ name)

def scopeGetTemplate (st : EState) (s : Nat) (name : String) : Except String Template :=
  scopeGetTemplateF (st.scopes.length + 1) st s name

/-- The empty evaluation state together with a single root scope. -/
def initState : EState × Nat :=
  newScope ⟨[], [], [], []⟩ none

/-! ### Collectors (eval.go) -/

/-- The three collectors of the evaluator plus the single-value collector;
the Go evaluator stores them behind an untyped field and dispatches with type
switches. -/
inductive Coll where
  | doc (documents : List Val)
  | arrC (elements : List Val)
  | objC (fields : List (String × Val))
  | single (val : Option Val)

/-! ### Pure evaluation helpers (literals.go, arith.go, compare.go) -/

def evalStringLiteral (s : String) : Val := .str s
def evalNumberLiteral (q : ℚ) : Val := .num q
def evalBooleanLiteral (b : Bool) : Val := .bool b
def evalNullLiteral : Val := .null

def Val.isStr : Val → Bool
  | .str _ => true
  | _ => false

/-- evaluator.evalAdd: string concatenation when either side is a string,
numeric addition otherwise. -/
def evalAddGo (l r : Val) : Except EErr Val :=
  if l.isStr ∨ r.isStr then
    match toStringGo l with
    | .error e => .error (.plainE e)
    | .ok ls =>
      match toStringGo r with
      | .error e => .error (.plainE e)
      | .ok rs => .ok (.str (ls ++ rs))
  else
    match toNumberGo l with
    | .error _ => .error (.plainE ("cannot add " ++ valType l ++ " and " ++ valType r))
    | .ok ln =>
      match toNumberGo r with
      | .error _ => .error (.plainE ("cannot add " ++ valType l ++ " and " ++ valType r))
      | .ok rn => .ok (.num (ln + rn))

/-- evaluator.evalSub. -/
def evalSubGo (l r : Val) : Except EErr Val :=
  match toNumberGo l with
  | .error _ => .error (.plainE ("cannot subtract " ++ valType r ++ " from " ++ valType l))
  | .ok ln =>
    match toNumberGo r with
    | .error _ => .error (.plainE ("cannot subtract " ++ valType r ++ " from " ++ valType l))
    | .ok rn => .ok (.num (ln - rn))

/-- evaluator.evalMul. -/
def evalMulGo (l r : Val) : Except EErr Val :=
  match toNumberGo l with
  | .error _ => .error (.plainE ("cannot multiply " ++ valType l ++ " and " ++ valType r))
  | .ok ln =>
    match toNumberGo r with
    | .error _ => .error (.plainE ("cannot multiply " ++ valType l ++ " and " ++ valType r))
    | .ok rn => .ok (.num (ln * rn))

/-- evaluator.evalDiv (division by zero is detected after conversion). -/
def evalDivGo (l r : Val) : Except EErr Val :=
  match toNumberGo l with
  | .error _ => .error (.plainE ("cannot divide " ++ valType l ++ " by " ++ valType r))
  | .ok ln =>
    match toNumberGo r with
    | .error _ => .error (.plainE ("cannot divide " ++ valType l ++ " by " ++ valType r))
    | .ok rn =>
      if rn = 0 then .error (.plainE "division by zero")
      else .ok (.num (ln / rn))

/-- runtime.Less / LessEqual / Greater / GreaterEqual share this shape. -/
def compareNum (l r : Val) (cmp : ℚ → ℚ → Bool) : Except EErr Val :=
  match toNumberGo l with
  | .error _ => .error (.plainE ("cannot compare " ++ valType l ++ " and " ++ valType r))
  | .ok ln =>
    match toNumberGo r with
    | .error _ => .error (.plainE ("cannot compare " ++ valType l ++ " and " ++ valType r))
    | .ok rn => .ok (.bool (cmp ln rn))

/-- evaluator.evalIdentifier. -/
def evalIdentifier (st : EState) (s : Nat) (name : String) (pos : Pos) :
    Except EErr (EState × Val) :=
  match scopeGet st s name with
  | .error msg => .error (errorf pos msg)
  | .ok v => .ok (st, v)

/-- evaluator.evalCurrentContext: a fresh object holding Release, Chart and
Values copied from the scope when bound. -/
def evalCurrentContext (st : EState) (s : Nat) : Except EErr (EState × Val) :=
  let step := fun (fields : List (String × Val)) (name : String) =>
    match scopeGet st s name with
    | .ok v => mSet fields name v
    | .error _ => fields
  .ok (st, .obj (step (step (step [] "Release") "Chart") "Values"))

/-- Go int(float64) conversion: truncation toward zero. -/
def ratToInt (q : ℚ) : ℤ := if 0 ≤ q then q.floor else -((-q).floor)

/-- Pairing of a pure operator result with the threaded state. -/
def liftArith (st : EState) (r : Except EErr Val) : Except EErr (EState × Val) :=
  match r with
  | .error e => .error e
  | .ok v => .ok (st, v)

/-- callFunction: registry lookup, invocation, and wrapping of the returned
error with the call position. -/
def callFunction (st : EState) (s : Nat) (pos : Pos) (name : String)
    (args : List Val) : Except EErr (EState × Val) :=
  match scopeGetFunction st s name with
  | none => .error (errorf pos ("undefined function: " ++ name))
  | some fn =>
    match fn args with
    | .error msg => .error (errorf pos msg)
    | .ok v => .ok (st, v)

/-! ### The evaluator (eval.go), with explicit fuel

Each function burns one unit of fuel on entry; Go loop bodies are separate
fueled functions.  Real errors abort the whole evaluation in Go, so carrying
no state through the error constructor is faithful; the breakSignal sentinel
is instead consumed by evalForStatement with all state kept, so
evalForIteration returns the state paired with a break flag. -/

mutual

/-- evaluator.evalExpression (the type-switch dispatch). -/
def evalExpression : Nat → EState → Nat → PNode → Except EErr (EState × Val)
  | 0, _, _, _ => .error .fuelE
  | n + 1, st, s, node =>
    match node with
    | .stringLit v _ => .ok (st, evalStringLiteral v)
    | .numberLit q _ => .ok (st, evalNumberLiteral q)
    | .boolLit b _ => .ok (st, evalBooleanLiteral b)
    | .nullLit _ => .ok (st, evalNullLiteral)
    | .interpString parts pos => evalInterpolatedString n st s parts pos
    | .identE name pos => evalIdentifier st s name pos
    | .binaryE l op r pos => evalBinaryOp n st s l op r pos
    | .unaryE op operand pos => evalUnaryOp n st s op operand pos
    | .callE fn args pos => evalCallExpression n st s fn args pos
    | .memberE obj name pos => evalMemberExpression n st s obj name pos
    | .indexE obj idx pos => evalIndexExpression n st s obj idx pos
    | .arrayLit body _ => evalArray n st s body
    | .objectLit body _ => evalObject n st s body
    | .includeE name ctx pos =>
      -- collectSingleValue around evalIncludeStatement
      match evalIncludeStatement n st s (.single none) name ctx pos with
      | .error e => .error e
      | .ok (st, .single (some v)) => .ok (st, v)
      | .ok (_, _) => .error (errorf pos "expected value")
    | .currentCtx _ => evalCurrentContext st s
    | other => .error (errorf other.getPos ("unsupported node type: " ++ goTypeName other))

termination_by structural n _ _ _ => n

/-- evaluator.evalStatement (the type-switch dispatch; the final Expression
case appends root-level expression values as documents). -/
def evalStatement : Nat → EState → Nat → Coll → PNode → Except EErr (EState × Coll)
  | 0, _, _, _, _ => .error .fuelE
  | n + 1, st, s, coll, node =>
    match node with
    | .letS name value pos =>
      match evalLetStatement n st s name value pos with
      | .error e => .error e
      | .ok st => .ok (st, coll)
    | .assignS name value pos =>
      match evalAssignmentStatement n st s name value pos with
      | .error e => .error e
      | .ok st => .ok (st, coll)
    | .withS ctx varName body pos => evalWithStatement n st s coll ctx varName body pos
    | .forS keyVar valueVar iterable body pos =>
      evalForStatement n st s coll keyVar valueVar iterable body pos
    | .keyValue key value pos => evalKeyValue n st s coll key value pos
    | .spreadS operand pos => evalSpreadStatement n st s coll operand pos
    | .ifS cond body els _ => evalIfStatement n st s coll cond body els
    | .includeE name ctx pos => evalIncludeStatement n st s coll name ctx pos
    | node =>
      if node.isExpr then
        match evalExpression n st s node with
        | .error e => .error e
        | .ok (st, val) =>
          match coll with
          | .doc docs => .ok (st, .doc (docs ++ [val]))
          | c => .ok (st, c)
      else .error (errorf node.getPos ("unsupported statement: " ++ goTypeName node))

termination_by structural n _ _ _ _ => n

/-- evaluator.evalKeyValue: at document level an implicit trailing object
document is reused or synthesized; in an object collector the field is set;
anywhere else the key-value pair errors. -/
def evalKeyValue : Nat → EState → Nat → Coll → String → PNode → Pos →
    Except EErr (EState × Coll)
  | 0, _, _, _, _, _, _ => .error .fuelE
  | n + 1, st, s, coll, key, value, pos =>
    match coll with
    | .doc docs =>
      -- the Go code appends/reuses the object before evaluating the value;
      -- evaluation errors abort everything, so attaching afterwards is
      -- observationally the same
      match evalValueStatement n st s value with
      | .error e => .error e
      | .ok (st, val) =>
        match docs.getLast? with
        | some (.obj fs) => .ok (st, .doc (docs.dropLast ++ [.obj (mSet fs key val)]))
        | _ => .ok (st, .doc (docs ++ [.obj (mSet [] key val)]))
    | .objC fs =>
      match evalValueStatement n st s value with
      | .error e => .error e
      | .ok (st, val) => .ok (st, .objC (mSet fs key val))
    | _ => .error (errorf pos "key:value pair in non-object context")

termination_by structural n _ _ _ _ _ _ => n

/-- evaluator.evalValueStatement: if and with are captured through a
single-value collector, expressions evaluate directly. -/
def evalValueStatement : Nat → EState → Nat → PNode → Except EErr (EState × Val)
  | 0, _, _, _ => .error .fuelE
  | n + 1, st, s, node =>
    match node with
    | .ifS cond body els pos =>
      match evalIfStatement n st s (.single none) cond body els with
      | .error e => .error e
      | .ok (st, .single (some v)) => .ok (st, v)
      | .ok (_, _) => .error (errorf pos "expected value")
    | .withS ctx varName body pos =>
      match evalWithStatement n st s (.single none) ctx varName body pos with
      | .error e => .error e
      | .ok (st, .single (some v)) => .ok (st, v)
      | .ok (_, _) => .error (errorf pos "expected value")
    | node =>
      if node.isExpr then evalExpression n st s node
      else .error (errorf node.getPos ("unexpected node " ++ goTypeName node))

termination_by structural n _ _ _ => n

/-- evaluator.evalArray: a fresh array collector filled through collectNode. -/
def evalArray : Nat → EState → Nat → List PNode → Except EErr (EState × Val)
  | 0, _, _, _ => .error .fuelE
  | n + 1, st, s, body =>
    match collectNodeList n st s (.arrC []) body with
    | .error e => .error e
    | .ok (st, .arrC elems) => .ok (st, .arr elems)
    | .ok (st, _) => .ok (st, .arr [])

termination_by structural n _ _ _ => n

/-- evaluator.evalObject: every member must be a statement, evaluated against
a fresh object collector. -/
def evalObject : Nat → EState → Nat → List PNode → Except EErr (EState × Val)
  | 0, _, _, _ => .error .fuelE
  | n + 1, st, s, body =>
    match evalObjectItems n st s (.objC []) body with
    | .error e => .error e
    | .ok (st, .objC fs) => .ok (st, .obj fs)
    | .ok (st, _) => .ok (st, .obj [])
termination_by structural n _ _ _ => n


def evalObjectItems : Nat → EState → Nat → Coll → List PNode → Except EErr (EState × Coll)
  | 0, _, _, _, _ => .error .fuelE
  | _ + 1, st, _, coll, [] => .ok (st, coll)
  | n + 1, st, s, coll, item :: rest =>
    if item.isStmt then
      match evalStatement n st s coll item with
      | .error e => .error e
      | .ok (st, coll) => evalObjectItems n st s coll rest
    else .error (errorf item.getPos ("unsupported node: " ++ goTypeName item))

termination_by structural n _ _ _ _ => n

/-- evaluator.collectNode: expressions are routed into the enclosing
collector, statements are delegated to evalStatement. -/
def collectNode : Nat → EState → Nat → Coll → PNode → Except EErr (EState × Coll)
  | 0, _, _, _, _ => .error .fuelE
  | n + 1, st, s, coll, node =>
    if node.isExpr then
      match evalExpression n st s node with
      | .error e => .error e
      | .ok (st, val) =>
        match coll with
        | .arrC elems => .ok (st, .arrC (elems ++ [val]))
        | .single none => .ok (st, .single (some val))
        | .single (some _) =>
          .error (.plainE "unexpected value, expected only a single value")
        | .doc docs => .ok (st, .doc (docs ++ [val]))
        | _ => .error (errorf node.getPos "unexpected value")
    else if node.isStmt then evalStatement n st s coll node
    else .error (errorf node.getPos ("unsupported node: " ++ goTypeName node))

termination_by structural n _ _ _ _ => n

/-- A sequence of collectNode steps (the body loops of if/with/include and the
array literal all have this shape in the Go code). -/
def collectNodeList : Nat → EState → Nat → Coll → List PNode → Except EErr (EState × Coll)
  | 0, _, _, _, _ => .error .fuelE
  | _ + 1, st, _, coll, [] => .ok (st, coll)
  | n + 1, st, s, coll, node :: rest =>
    match collectNode n st s coll node with
    | .error e => .error e
    | .ok (st, coll) => collectNodeList n st s coll rest

termination_by structural n _ _ _ _ => n

/-- evaluator.evalIfStatement: pick the branch by truthiness and emit its
items into the enclosing collector. -/
def evalIfStatement : Nat → EState → Nat → Coll → PNode → List PNode → List PNode →
    Except EErr (EState × Coll)
  | 0, _, _, _, _, _, _ => .error .fuelE
  | n + 1, st, s, coll, cond, body, els =>
    match evalExpression n st s cond with
    | .error e => .error e
    | .ok (st, condVal) =>
      collectNodeList n st s coll (if truthy condVal then body else els)

termination_by structural n _ _ _ _ _ _ => n

/-- evaluator.evalWithStatement: bind the context in a child scope and emit
the body into the enclosing collector. -/
def evalWithStatement : Nat → EState → Nat → Coll → PNode → String → List PNode → Pos →
    Except EErr (EState × Coll)
  | 0, _, _, _, _, _, _, _ => .error .fuelE
  | n + 1, st, s, coll, ctx, varName, body, _ =>
    match evalExpression n st s ctx with
    | .error e => .error e
    | .ok (st, context) =>
      let (st, newS) := newScope st (some s)
      let st := scopeSet st newS varName context
      collectNodeList n st newS coll body

termination_by structural n _ _ _ _ _ _ _ => n

/-- evaluator.evalSpreadStatement: the operand kind must match the enclosing
collector kind. -/
def evalSpreadStatement : Nat → EState → Nat → Coll → PNode → Pos →
    Except EErr (EState × Coll)
  | 0, _, _, _, _, _ => .error .fuelE
  | n + 1, st, s, coll, operand, pos =>
    match evalValueStatement n st s operand with
    | .error e => .error e
    | .ok (st, val) =>
      match coll with
      | .arrC elems =>
        match val with
        | .arr xs => .ok (st, .arrC (elems ++ xs))
        | v => .error (errorf pos ("cannot spread " ++ valType v ++ " into array"))
      | .objC fs =>
        match val with
        | .obj nfs => .ok (st, .objC (nfs.foldl (fun m e => mSet m e.1 e.2) fs))
        | v => .error (errorf pos ("cannot spread " ++ valType v ++ " into object"))
      | _ => .error (errorf pos "cannot spread into this context")

termination_by structural n _ _ _ _ _ => n

/-- evaluator.evalForStatement: arrays iterate with numeric keys, objects over
their fields; the break sentinel stops the loop with all effects kept. -/
def evalForStatement : Nat → EState → Nat → Coll → String → String → PNode →
    List PNode → Pos → Except EErr (EState × Coll)
  | 0, _, _, _, _, _, _, _, _ => .error .fuelE
  | n + 1, st, s, coll, keyVar, valueVar, iterable, body, _ =>
    match evalExpression n st s iterable with
    | .error e => .error e
    | .ok (st, iterVal) =>
      match iterVal with
      | .arr elems => forArrElems n st s coll keyVar valueVar body 0 elems
      | .obj fs => forObjFields n st s coll keyVar valueVar body fs
      | v => .error (errorf iterable.getPos ("cannot iterate over " ++ valType v))
termination_by structural n _ _ _ _ _ _ _ _ => n


def forArrElems : Nat → EState → Nat → Coll → String → String → List PNode → Nat →
    List Val → Except EErr (EState × Coll)
  | 0, _, _, _, _, _, _, _, _ => .error .fuelE
  | _ + 1, st, _, coll, _, _, _, _, [] => .ok (st, coll)
  | n + 1, st, s, coll, keyVar, valueVar, body, i, elem :: rest =>
    match evalForIteration n st s coll keyVar valueVar body (.num i) elem with
    | .error e => .error e
    | .ok (st, coll, true) => .ok (st, coll)
    | .ok (st, coll, false) => forArrElems n st s coll keyVar valueVar body (i + 1) rest

termination_by structural n _ _ _ _ _ _ _ _ => n

/-- Object iteration: Go map range order is unspecified; the embedding uses
the association-list order. -/
def forObjFields : Nat → EState → Nat → Coll → String → String → List PNode →
    List (String × Val) → Except EErr (EState × Coll)
  | 0, _, _, _, _, _, _, _ => .error .fuelE
  | _ + 1, st, _, coll, _, _, _, [] => .ok (st, coll)
  | n + 1, st, s, coll, keyVar, valueVar, body, (k, v) :: rest =>
    match evalForIteration n st s coll keyVar valueVar body (.str k) v with
    | .error e => .error e
    | .ok (st, coll, true) => .ok (st, coll)
    | .ok (st, coll, false) => forObjFields n st s coll keyVar valueVar body rest

termination_by structural n _ _ _ _ _ _ _ => n

/-- evaluator.evalForIteration: child scope, loop-variable binding, body walk.
The boolean result is true when the body hit a top-level Break. -/
def evalForIteration : Nat → EState → Nat → Coll → String → String → List PNode →
    Val → Val → Except EErr (EState × Coll × Bool)
  | 0, _, _, _, _, _, _, _, _ => .error .fuelE
  | n + 1, st, s, coll, keyVar, valueVar, body, key, value =>
    let (st, loopS) := newScope st (some s)
    let st := if keyVar ≠ "" then scopeSet st loopS keyVar key else st
    let st := scopeSet st loopS valueVar value
    forBodyItems n st loopS coll body

termination_by structural n _ _ _ _ _ _ _ _ => n

/-- The body loop of evalForIteration.  The Go type switch returns the break
sentinel for a BreakStatement; its ContinueStatement case executes a bare
break statement, which in Go only leaves the type switch, so evaluation falls
through to collectNode for Continue nodes exactly as for any other node. -/
def forBodyItems : Nat → EState → Nat → Coll → List PNode →
    Except EErr (EState × Coll × Bool)
  | 0, _, _, _, _ => .error .fuelE
  | _ + 1, st, _, coll, [] => .ok (st, coll, false)
  | n + 1, st, s, coll, item :: rest =>
    match item with
    | .breakS _ => .ok (st, coll, true)
    | item =>
      match collectNode n st s coll item with
      | .error e => .error e
      | .ok (st, coll) => forBodyItems n st s coll rest

termination_by structural n _ _ _ _ => n

/-- evaluator.evalMemberExpression: null propagates, absent fields yield
null, non-objects error. -/
def evalMemberExpression : Nat → EState → Nat → PNode → String → Pos →
    Except EErr (EState × Val)
  | 0, _, _, _, _, _ => .error .fuelE
  | n + 1, st, s, objE, name, pos =>
    match evalExpression n st s objE with
    | .error e => .error e
    | .ok (st, objVal) =>
      match objVal with
      | .null => .ok (st, .null)
      | .obj fs =>
        match mGet fs name with
        | some v => .ok (st, v)
        | none => .ok (st, .null)
      | v => .error (errorf pos ("cannot access member of " ++ valType v))

termination_by structural n _ _ _ _ _ => n

/-- evaluator.evalIndexExpression: arrays demand a number index and range
check; objects convert the index with ToString and demand a present key;
other values cannot be indexed. -/
def evalIndexExpression : Nat → EState → Nat → PNode → PNode → Pos →
    Except EErr (EState × Val)
  | 0, _, _, _, _, _ => .error .fuelE
  | n + 1, st, s, objE, idxE, pos =>
    match evalExpression n st s objE with
    | .error e => .error e
    | .ok (st, objVal) =>
      match evalExpression n st s idxE with
      | .error e => .error e
      | .ok (st, indexVal) =>
        match objVal with
        | .arr elems =>
          match indexVal with
          | .num q =>
            let idx := ratToInt q
            if idx < 0 ∨ (elems.length : ℤ) ≤ idx then
              .error (errorf pos ("array index out of bounds: " ++ toString idx))
            else .ok (st, elems.getD idx.toNat .null)
          | v => .error (errorf pos ("array index must be a number, got " ++ valType v))
        | .obj fs =>
          match toStringGo indexVal with
          | .error _ => .error (errorf pos "object index must be a string")
          | .ok key =>
            match mGet fs key with
            | some v => .ok (st, v)
            | none => .error (errorf pos ("undefined field: " ++ key))
        | v => .error (errorf pos ("cannot index " ++ valType v))

termination_by structural n _ _ _ _ _ => n

/-- evaluator.evalBinaryOp: the pipe is special-cased, both operands of every
other operator are evaluated before dispatch (so the logical operators do not
short-circuit). -/
def evalBinaryOp : Nat → EState → Nat → PNode → String → PNode → Pos →
    Except EErr (EState × Val)
  | 0, _, _, _, _, _, _ => .error .fuelE
  | n + 1, st, s, l, op, r, pos =>
    if op = "|" then evalPipe n st s l r pos
    else
      match evalExpression n st s l with
      | .error e => .error e
      | .ok (st, left) =>
        match evalExpression n st s r with
        | .error e => .error e
        | .ok (st, right) =>
          if op = "+" then liftArith st (evalAddGo left right)
          else if op = "-" then liftArith st (evalSubGo left right)
          else if op = "*" then liftArith st (evalMulGo left right)
          else if op = "/" then liftArith st (evalDivGo left right)
          else if op = "==" then .ok (st, .bool (equalGo left right))
          else if op = "!=" then .ok (st, .bool (!equalGo left right))
          else if op = "<" then liftArith st (compareNum left right (fun a b => a < b))
          else if op = "<=" then liftArith st (compareNum left right (fun a b => a ≤ b))
          else if op = ">" then liftArith st (compareNum left right (fun a b => b < a))
          else if op = ">=" then liftArith st (compareNum left right (fun a b => b ≤ a))
          else if op = "&&" then .ok (st, .bool (truthy left && truthy right))
          else if op = "||" then .ok (st, .bool (truthy left || truthy right))
          else .error (errorf pos ("unknown operator: " ++ op))

termination_by structural n _ _ _ _ _ _ => n

/-- evaluator.evalPipe: the left side is evaluated first; the right side must
be an identifier or a call on an identifier, and the piped value is appended
as the last argument. -/
def evalPipe : Nat → EState → Nat → PNode → PNode → Pos →
    Except EErr (EState × Val)
  | 0, _, _, _, _, _ => .error .fuelE
  | n + 1, st, s, l, r, pos =>
    match evalExpression n st s l with
    | .error e => .error e
    | .ok (st, val) =>
      match r with
      | .identE name rpos => callFunction st s rpos name [val]
      | .callE fn args _ =>
        match fn with
        | .identE fname _ =>
          match evalExprList n st s args with
          | .error e => .error e
          | .ok (st, argVals) => callFunction st s fn.getPos fname (argVals ++ [val])
        | _ => .error (errorf pos "pipe right side must be a function name")
      | other => .error (errorf pos ("invalid pipe right side: " ++ goTypeName other))

termination_by structural n _ _ _ _ _ => n

/-- Sequential evaluation of an argument list. -/
def evalExprList : Nat → EState → Nat → List PNode → Except EErr (EState × List Val)
  | 0, _, _, _ => .error .fuelE
  | _ + 1, st, _, [] => .ok (st, [])
  | n + 1, st, s, arg :: rest =>
    match evalExpression n st s arg with
    | .error e => .error e
    | .ok (st, v) =>
      match evalExprList n st s rest with
      | .error e => .error e
      | .ok (st, vs) => .ok (st, v :: vs)

termination_by structural n _ _ _ => n

/-- evaluator.evalCallExpression: the function expression must be an
identifier, arguments are evaluated in order. -/
def evalCallExpression : Nat → EState → Nat → PNode → List PNode → Pos →
    Except EErr (EState × Val)
  | 0, _, _, _, _, _ => .error .fuelE
  | n + 1, st, s, fn, args, pos =>
    match fn with
    | .identE fname _ =>
      match evalExprList n st s args with
      | .error e => .error e
      | .ok (st, argVals) => callFunction st s pos fname argVals
    | _ => .error (errorf pos "function must be an identifier")

termination_by structural n _ _ _ _ _ => n

/-- evaluator.evalUnaryOp. -/
def evalUnaryOp : Nat → EState → Nat → String → PNode → Pos →
    Except EErr (EState × Val)
  | 0, _, _, _, _, _ => .error .fuelE
  | n + 1, st, s, op, operandE, pos =>
    match evalExpression n st s operandE with
    | .error e => .error e
    | .ok (st, operand) =>
      if op = "!" then .ok (st, .bool (!truthy operand))
      else if op = "-" then
        match toNumberGo operand with
        | .error _ => .error (errorf pos ("cannot negate " ++ valType operand))
        | .ok q => .ok (st, .num (-q))
      else .error (errorf pos ("unknown unary operator: " ++ op))

termination_by structural n _ _ _ _ _ => n

/-- evaluator.evalIncludeStatement: template lookup, a fresh parentless scope
linked to the caller, optional context copying, and the body emitted into the
caller collector with include-wrapped errors. -/
def evalIncludeStatement : Nat → EState → Nat → Coll → String → Option PNode → Pos →
    Except EErr (EState × Coll)
  | 0, _, _, _, _, _, _ => .error .fuelE
  | n + 1, st, s, coll, name, ctxOpt, pos =>
    match scopeGetTemplate st s name with
    | .error msg => .error (errorf pos msg)
    | .ok tmpl =>
      let (st, ts) := newScope st none
      let st := scopeLink st ts s
      match ctxOpt with
      | none => includeBodyLoop n st ts coll tmpl.body name pos
      | some ctxE =>
        match evalExpression n st s ctxE with
        | .error e => .error e
        | .ok (st, val) =>
          match val with
          | .obj fs =>
            includeBodyLoop n (fs.foldl (fun acc e => scopeSet acc ts e.1 e.2) st)
              ts coll tmpl.body name pos
          | _ => .error (errorf ctxE.getPos "template context must be an object")

termination_by structural n _ _ _ _ _ _ => n

/-- The template-body loop of evalIncludeStatement, wrapping any error with
the include position and template name. -/
def includeBodyLoop : Nat → EState → Nat → Coll → List PNode → String → Pos →
    Except EErr (EState × Coll)
  | 0, _, _, _, _, _, _ => .error .fuelE
  | _ + 1, st, _, coll, [], _, _ => .ok (st, coll)
  | n + 1, st, ts, coll, node :: rest, name, pos =>
    match collectNode n st ts coll node with
    | .error e =>
      .error (errorf pos ("include " ++ goQuote name ++ ": " ++ eerrString e))
    | .ok (st, coll) => includeBodyLoop n st ts coll rest name pos

termination_by structural n _ _ _ _ _ _ => n

/-- evaluator.evalAssignmentStatement (assignment writes the current scope,
like let; it does not search the chain for an existing binding). -/
def evalAssignmentStatement : Nat → EState → Nat → String → PNode → Pos →
    Except EErr EState
  | 0, _, _, _, _, _ => .error .fuelE
  | n + 1, st, s, name, value, _ =>
    match evalValueStatement n st s value with
    | .error e => .error e
    | .ok (st, val) => .ok (scopeSet st s name val)

termination_by structural n _ _ _ _ _ => n

/-- evaluator.evalLetStatement. -/
def evalLetStatement : Nat → EState → Nat → String → PNode → Pos →
    Except EErr EState
  | 0, _, _, _, _, _ => .error .fuelE
  | n + 1, st, s, name, value, _ =>
    match evalValueStatement n st s value with
    | .error e => .error e
    | .ok (st, val) => .ok (scopeSet st s name val)

termination_by structural n _ _ _ _ _ => n

/-- evaluator.evalInterpolatedString: evaluate every part, coerce to string,
concatenate. -/
def evalInterpolatedString : Nat → EState → Nat → List PNode → Pos →
    Except EErr (EState × Val)
  | 0, _, _, _, _ => .error .fuelE
  | n + 1, st, s, parts, pos => interpPartsLoop n st s parts pos ""
termination_by structural n _ _ _ _ => n


def interpPartsLoop : Nat → EState → Nat → List PNode → Pos → String →
    Except EErr (EState × Val)
  | 0, _, _, _, _, _ => .error .fuelE
  | _ + 1, st, _, [], _, acc => .ok (st, .str acc)
  | n + 1, st, s, part :: rest, pos, acc =>
    match evalExpression n st s part with
    | .error e => .error e
    | .ok (st, v) =>
      match toStringGo v with
      | .error msg => .error (wraperr pos msg)
      | .ok str => interpPartsLoop n st s rest pos (acc ++ str)

termination_by structural n _ _ _ _ _ => n

/-- The statement loop of EvalDocument. -/
def evalStmtList : Nat → EState → Nat → Coll → List PNode → Except EErr (EState × Coll)
  | 0, _, _, _, _ => .error .fuelE
  | _ + 1, st, _, coll, [] => .ok (st, coll)
  | n + 1, st, s, coll, stmt :: rest =>
    match evalStatement n st s coll stmt with
    | .error e => .error e
    | .ok (st, coll) => evalStmtList n st s coll rest

termination_by structural n _ _ _ _ => n
end

/-- eval.EvalDocument: register the definitions as templates in the root
scope, evaluate the body against a document collector, and return the array
of produced documents. -/
def evalDocument (fuel : Nat) (doc : Document) (st : EState) (root : Nat) :
    Except EErr (EState × Val) :=
  let st := doc.definitions.foldl
    (fun st d =>
      let filename := match d.body.head? with | some node => node.getPos.filename | none => ""
      scopeDefineTemplate st root d.name ⟨d.name, d.body, filename⟩) st
  match evalStmtList fuel st root (.doc []) doc.body with
  | .error e => .error e
  | .ok (st, .doc docs) => .ok (st, .arr docs)
  | .ok (st, _) => .ok (st, .arr [])

/-! ### Fixtures shared by the theorems -/

/-- Sample positions used by concrete programs. -/
def posA : Pos := ⟨"t.htkl", 1, 1⟩
def posB : Pos := ⟨"t.htkl", 1, 5⟩
def posC : Pos := ⟨"t.htkl", 1, 9⟩

/-- The evaluation state holding exactly the root scope. -/
def st0 : EState := initState.1

/-! ### C1 — loop control in for bodies -/

/-- C1: the claim says a Break body item aborts the loop (which holds: the
second conjunct shows a loop over [1, 2] whose body emits the element and then
breaks producing exactly [1]) and that a Continue body item skips the rest of
the iteration so that a body containing continue evaluates successfully.  The
code instead falls through to collectNode for a Continue node (the bare break
inside the Go type switch only leaves the switch) and evaluation fails with
an unsupported-statement error, shown by the first conjunct: this is the
failing input of the code_bug verdict. -/
theorem htkl_C1_for_loop_control :
    evalStatement 99 st0 0 (.doc [])
        (.forS "i" "v" (.arrayLit [.numberLit 1 posA] posA) [.continueS posB] posA)
      = .error (.evalError "unsupported statement: *parser.ContinueStatement" "t.htkl" 1 5)
    ∧ (evalExpression 99 st0 0
        (.arrayLit [.forS "i" "v"
          (.arrayLit [.numberLit 1 posA, .numberLit 2 posA] posA)
          [.identE "v" posA, .breakS posB] posA] posA)).map (fun r => r.2)
      = .ok (.arr [.num 1]) :=
  ⟨rfl, rfl⟩

/-! ### C2 — index expressions -/

/-- C2 counterexample: indexing an object with the number 1 is not an eval
error — the index is coerced through ToString and finds the key "1".  The
claim asserts that a non-string index such as a number errors. -/
theorem htkl_C2_counterexample :
    evalExpression 99 st0 0
        (.indexE (.objectLit [.keyValue "1" (.numberLit 42 posB) posA] posA)
          (.numberLit 1 posC) posA)
      = .ok (st0, .num 42)
    ∧ toStringGo (.num 1) = .ok "1" :=
  ⟨rfl, rfl⟩

/-- C2 (amended): for Index(obj, idx), an array requires a number index (a
non-number index errors naming the kind) with truncation toward zero and an
out-of-range index errors with "array index out of bounds"; an object coerces
the index with ToString — numbers, bools and null convert, an array or object
index errors with "object index must be a string" — and an absent key (after
coercion) errors with "undefined field"; indexing any other kind errors. -/
theorem htkl_C2_index_semantics (n : Nat) (st st1 st2 : EState) (s : Nat)
    (objE idxE : PNode) (pos : Pos) (ov iv : Val)
    (hobj : evalExpression n st s objE = .ok (st1, ov))
    (hidx : evalExpression n st1 s idxE = .ok (st2, iv)) :
    (∀ elems, ov = .arr elems →
      (∀ q, iv = .num q →
        (ratToInt q < 0 ∨ (elems.length : ℤ) ≤ ratToInt q →
          evalExpression (n + 2) st s (.indexE objE idxE pos) =
            .error (errorf pos ("array index out of bounds: " ++ toString (ratToInt q)))) ∧
        (¬(ratToInt q < 0 ∨ (elems.length : ℤ) ≤ ratToInt q) →
          evalExpression (n + 2) st s (.indexE objE idxE pos) =
            .ok (st2, elems.getD (ratToInt q).toNat .null))) ∧
      ((∀ q, iv ≠ .num q) →
        evalExpression (n + 2) st s (.indexE objE idxE pos) =
          .error (errorf pos ("array index must be a number, got " ++ valType iv)))) ∧
    (∀ fs, ov = .obj fs →
      (∀ key, toStringGo iv = .ok key →
        (∀ v, mGet fs key = some v →
          evalExpression (n + 2) st s (.indexE objE idxE pos) = .ok (st2, v)) ∧
        (mGet fs key = none →
          evalExpression (n + 2) st s (.indexE objE idxE pos) =
            .error (errorf pos ("undefined field: " ++ key)))) ∧
      (∀ e, toStringGo iv = .error e →
        evalExpression (n + 2) st s (.indexE objE idxE pos) =
          .error (errorf pos "object index must be a string")) ∧
      (∀ q, iv = .num q → (toStringGo iv).isOk) ∧
      (∀ b, iv = .bool b → (toStringGo iv).isOk) ∧
      (iv = .null → (toStringGo iv).isOk) ∧
      (∀ xs, iv = .arr xs → (toStringGo iv).isOk = false) ∧
      (∀ nfs, iv = .obj nfs → (toStringGo iv).isOk = false)) ∧
    ((∀ elems, ov ≠ .arr elems) → (∀ fs, ov ≠ .obj fs) →
      evalExpression (n + 2) st s (.indexE objE idxE pos) =
        .error (errorf pos ("cannot index " ++ valType ov))) := by
  have key : ∀ r, evalIndexExpression (n + 1) st s objE idxE pos = r →
      evalExpression (n + 2) st s (.indexE objE idxE pos) = r := fun r h => h
  refine ⟨?_, ?_, ?_⟩
  · rintro elems rfl
    refine ⟨?_, ?_⟩
    · rintro q rfl
      constructor
      · intro hrange
        exact key _ (by simp only [evalIndexExpression, hobj, hidx, if_pos hrange])
      · intro hrange
        exact key _ (by simp only [evalIndexExpression, hobj, hidx, if_neg hrange])
    · intro hnot
      cases iv with
      | num q => exact absurd rfl (hnot q)
      | str v => exact key _ (by simp only [evalIndexExpression, hobj, hidx])
      | bool v => exact key _ (by simp only [evalIndexExpression, hobj, hidx])
      | null => exact key _ (by simp only [evalIndexExpression, hobj, hidx])
      | arr v => exact key _ (by simp only [evalIndexExpression, hobj, hidx])
      | obj v => exact key _ (by simp only [evalIndexExpression, hobj, hidx])
  · rintro fs rfl
    refine ⟨?_, ?_, ?_, ?_, ?_, ?_, ?_⟩
    · intro k hkey
      constructor
      · intro v hv
        exact key _ (by simp only [evalIndexExpression, hobj, hidx, hkey, hv])
      · intro hv
        exact key _ (by simp only [evalIndexExpression, hobj, hidx, hkey, hv])
    · intro e he
      exact key _ (by simp only [evalIndexExpression, hobj, hidx, he])
    · rintro q rfl; rfl
    · rintro b rfl; rfl
    · rintro rfl; rfl
    · rintro xs rfl; rfl
    · rintro nfs rfl; rfl
  · intro hna hno
    cases ov with
    | arr v => exact absurd rfl (hna v)
    | obj v => exact absurd rfl (hno v)
    | str v => exact key _ (by simp only [evalIndexExpression, hobj, hidx])
    | num v => exact key _ (by simp only [evalIndexExpression, hobj, hidx])
    | bool v => exact key _ (by simp only [evalIndexExpression, hobj, hidx])
    | null => exact key _ (by simp only [evalIndexExpression, hobj, hidx])

/-- C2 witness: both hypotheses and each representative case discharged on
concrete inputs. -/
theorem htkl_C2_index_semantics_witness :
    evalExpression 5 st0 0 (.arrayLit [.numberLit 7 posA] posA) = .ok (st0, .arr [.num 7])
    ∧ evalExpression 5 st0 0 (.numberLit 0 posB) = .ok (st0, .num 0)
    ∧ evalExpression 7 st0 0 (.indexE (.arrayLit [.numberLit 7 posA] posA)
        (.numberLit 0 posB) posC) = .ok (st0, .num 7) := by
  refine ⟨rfl, rfl, ?_⟩
  have h := (htkl_C2_index_semantics 5 st0 st0 st0 0
    (.arrayLit [.numberLit 7 posA] posA) (.numberLit 0 posB) posC
    (.arr [.num 7]) (.num 0) rfl rfl).1 [.num 7] rfl
  have h2 := (h.1 0 rfl).2 (by decide)
  simpa using h2

/-! ### C4 — logical operators evaluate both operands -/

/-- C4: for l && r and l || r, once l evaluates, r is always evaluated as
well: an error from r propagates even when the truthiness of l already decides
the result, and when both succeed the result is the boolean
conjunction/disjunction of the two truthiness values. -/
theorem htkl_C4_no_short_circuit (n : Nat) (st st1 : EState) (s : Nat)
    (l r : PNode) (pos : Pos) (lv : Val)
    (hl : evalExpression n st s l = .ok (st1, lv)) :
    (∀ e, evalExpression n st1 s r = .error e →
      evalExpression (n + 2) st s (.binaryE l "&&" r pos) = .error e ∧
      evalExpression (n + 2) st s (.binaryE l "||" r pos) = .error e) ∧
    (∀ st2 rv, evalExpression n st1 s r = .ok (st2, rv) →
      evalExpression (n + 2) st s (.binaryE l "&&" r pos) =
        .ok (st2, .bool (truthy lv && truthy rv)) ∧
      evalExpression (n + 2) st s (.binaryE l "||" r pos) =
        .ok (st2, .bool (truthy lv || truthy rv))) := by
  have key : ∀ (op : String) r2, evalBinaryOp (n + 1) st s l op r pos = r2 →
      evalExpression (n + 2) st s (.binaryE l op r pos) = r2 := fun _ r2 h => h
  constructor
  · intro e he
    exact ⟨key "&&" _ (by simp [evalBinaryOp, hl, he]),
      key "||" _ (by simp [evalBinaryOp, hl, he])⟩
  · intro st2 rv hr
    exact ⟨key "&&" _ (by simp [evalBinaryOp, hl, hr]),
      key "||" _ (by simp [evalBinaryOp, hl, hr])⟩

/-- C4 witness: false && (undefined variable) propagates the error from the
right operand even though the left side already decides the conjunction;
true || false still evaluates both sides and yields true. -/
theorem htkl_C4_no_short_circuit_witness :
    evalExpression 5 st0 0 (.binaryE (.boolLit false posA) "&&" (.identE "nope" posB) posC)
      = .error (.evalError "undefined variable: nope" "t.htkl" 1 5)
    ∧ evalExpression 5 st0 0 (.binaryE (.boolLit true posA) "||" (.boolLit false posB) posC)
      = .ok (st0, .bool true) := by
  constructor
  · exact ((htkl_C4_no_short_circuit 3 st0 st0 0 (.boolLit false posA) (.identE "nope" posB)
      posC (.bool false) rfl).1 (.evalError "undefined variable: nope" "t.htkl" 1 5) rfl).1
  · exact ((htkl_C4_no_short_circuit 3 st0 st0 0 (.boolLit true posA) (.boolLit false posB)
      posC (.bool true) rfl).2 st0 (.bool false) rfl).2

/-! ### C6 — number lexing -/

/-- The character class consumed greedily by readNumber. -/
def digitOrDot (c : Char) : Bool := goIsDigit c || c = '.'

theorem advance_input (l : Lexer) : l.advance.input = l.input := by
  unfold Lexer.advance
  by_cases h : l.pos < l.input.length <;> simp only [h, if_true, if_false, ite_true, ite_false]
  by_cases h2 : l.currentC = '\n' <;> simp [h2]

theorem advance_pos (l : Lexer) (h : l.pos < l.input.length) :
    l.advance.pos = l.pos + 1 := by
  unfold Lexer.advance
  simp only [h, if_true, ite_true]
  by_cases h2 : l.currentC = '\n' <;> simp [h2]

theorem currentC_out (l : Lexer) (h : l.input.length ≤ l.pos) : l.currentC = nulChar := by
  unfold Lexer.currentC
  exact List.getD_eq_default _ _ h

theorem currentC_in (l : Lexer) (h : l.pos < l.input.length) :
    l.input.drop l.pos = l.currentC :: l.input.drop (l.pos + 1) := by
  rw [List.drop_eq_getElem_cons h]
  unfold Lexer.currentC
  rw [List.getD_eq_getElem _ _ h]

theorem take_takeWhile (p : Char → Bool) (l : List Char) :
    l.take (l.takeWhile p).length = l.takeWhile p := by
  induction l with
  | nil => rfl
  | cons a as ih => by_cases h : p a <;> simp [List.takeWhile_cons, h, ih]

/-- The readNumber loop consumes exactly the maximal run of digits and dots
(any number of dots), leaving the input untouched. -/
theorem readNumberLoop_spec (fuel : Nat) (l : Lexer)
    (hf : l.input.length + 1 - l.pos ≤ fuel) :
    (readNumberLoop fuel l).input = l.input ∧
    (readNumberLoop fuel l).pos =
      l.pos + ((l.input.drop l.pos).takeWhile digitOrDot).length := by
  induction fuel generalizing l with
  | zero =>
    have hge : l.input.length + 1 ≤ l.pos := by omega
    rw [List.drop_eq_nil_of_le (by omega)]
    simp [readNumberLoop]
  | succ m ih =>
    by_cases hlt : l.pos < l.input.length
    · rw [currentC_in l hlt]
      by_cases hp : goIsDigit l.currentC ∨ l.currentC = '.'
      · have hdd : digitOrDot l.currentC = true := by
          unfold digitOrDot
          rcases hp with h | h <;> simp [h]
        have hone : readNumberLoop (m + 1) l = readNumberLoop m l.advance := by
          rw [show readNumberLoop (m + 1) l =
              if l.pos < l.input.length ∧ (goIsDigit l.currentC ∨ l.currentC = '.') then
                readNumberLoop m l.advance
              else l from rfl, if_pos ⟨hlt, hp⟩]
        have hargs : l.advance.input.length + 1 - l.advance.pos ≤ m := by
          rw [advance_input, advance_pos l hlt]; omega
        obtain ⟨hi, hp2⟩ := ih l.advance hargs
        rw [advance_input] at hi hp2
        rw [advance_pos l hlt] at hp2
        rw [hone]
        refine ⟨hi, ?_⟩
        rw [hp2]
        simp [List.takeWhile_cons, hdd]
        omega
      · have hdd : digitOrDot l.currentC = false := by
          unfold digitOrDot goIsDigit at *
          push_neg at hp
          simp [hp.1, hp.2]
        have : readNumberLoop (m + 1) l = l := by
          rw [show readNumberLoop (m + 1) l =
              if l.pos < l.input.length ∧ (goIsDigit l.currentC ∨ l.currentC = '.') then
                readNumberLoop m l.advance
              else l from rfl, if_neg (by tauto)]
        rw [this, List.takeWhile_cons, hdd]
        simp
    · rw [List.drop_eq_nil_of_le (by omega)]
      have : readNumberLoop (m + 1) l = l := by
        rw [show readNumberLoop (m + 1) l =
            if l.pos < l.input.length ∧ (goIsDigit l.currentC ∨ l.currentC = '.') then
              readNumberLoop m l.advance
            else l from rfl, if_neg (by tauto)]
      simp [this]

/-- readNumber TokenValue: an optional leading minus followed by the greedy
run of digits and dots. -/
theorem readNumber_value (l : Lexer) :
    (Lexer.readNumber l).1.value =
      if l.currentC = '-' then '-' :: (l.input.drop (l.pos + 1)).takeWhile digitOrDot
      else (l.input.drop l.pos).takeWhile digitOrDot := by
  by_cases hm : l.currentC = '-'
  · have hlt : l.pos < l.input.length := by
      by_contra hge
      rw [currentC_out l (by omega)] at hm
      exact absurd hm (by decide)
    simp only [Lexer.readNumber, hm, ite_true, if_true]
    obtain ⟨hi, hp⟩ := readNumberLoop_spec (l.advance.input.length + 1) l.advance
      (Nat.sub_le _ _)
    rw [advance_input] at hi hp ⊢
    rw [advance_pos l hlt] at hp
    rw [hi, hp]
    unfold listSlice
    have harith : l.pos + 1 + ((l.input.drop (l.pos + 1)).takeWhile digitOrDot).length
        = l.pos + (((l.input.drop (l.pos + 1)).takeWhile digitOrDot).length + 1) := by omega
    rw [harith, ← List.take_drop, currentC_in l hlt, hm, List.take_succ_cons, take_takeWhile]
  · simp only [Lexer.readNumber, hm, ite_false, if_false]
    obtain ⟨hi, hp⟩ := readNumberLoop_spec (l.input.length + 1) l (Nat.sub_le _ _)
    rw [hi, hp]
    unfold listSlice
    rw [← List.take_drop]
    exact take_takeWhile _ _

theorem skipWhitespace_id (l : Lexer)
    (h : ¬(l.currentC = ' ' ∨ l.currentC = '\t' ∨ l.currentC = '\r')) :
    l.skipWhitespace = l := by
  unfold Lexer.skipWhitespace
  rw [show skipWhitespaceGo (l.input.length + 1) l =
      if l.pos < l.input.length then
        if l.currentC = ' ' ∨ l.currentC = '\t' ∨ l.currentC = '\r' then
          skipWhitespaceGo l.input.length l.advance
        else l
      else l from rfl]
  by_cases hlt : l.pos < l.input.length <;> simp [hlt, h]

/-- C6 counterexample: on the input 1.2.3 the lexer emits a single number
token whose lexeme is the whole 1.2.3, not a token 1.2 followed by further
tokens as the claim states. -/
theorem htkl_C6_counterexample :
    (Lexer.nextToken (newLexer "1.2.3".toList)).1 = ⟨.number, "1.2.3".toList, 1, 1⟩ ∧
    (Lexer.nextToken (newLexer "1.2.3".toList)).1.value ≠ "1.2".toList := by
  exact ⟨rfl, by decide⟩

/-- C6 (amended): a number token starts at a leading minus followed by a digit
or at any digit (first conjunct: at such a byte NextToken dispatches to
readNumber); readNumber consumes digits and dots greedily with no bound on the
number of dots (second conjunct characterizes the lexeme as the maximal run);
hence 1.2.3 lexes as the single number token 1.2.3 followed by end of input
(third and fourth conjuncts); conversion of the lexeme to its numeric value is
deferred to parse time, where parsePrimaryValue applies ParseFloat to the
stored lexeme (fifth conjunct), so 1.2.3 becomes an invalid-number parse error
(sixth conjunct). -/
theorem htkl_C6_number_lexing :
    (∀ l : Lexer,
      ¬(l.currentC = ' ' ∨ l.currentC = '\t' ∨ l.currentC = '\r') →
      l.currentC ≠ '\n' → l.currentC ≠ '#' → l.currentC ≠ '"' →
      l.pos < l.input.length →
      (goIsDigit l.currentC ∨ (l.currentC = '-' ∧ l.peekC ≠ nulChar ∧ goIsDigit l.peekC)) →
      Lexer.nextToken l = l.readNumber) ∧
    (∀ l : Lexer, (Lexer.readNumber l).1.value =
      if l.currentC = '-' then '-' :: (l.input.drop (l.pos + 1)).takeWhile digitOrDot
      else (l.input.drop l.pos).takeWhile digitOrDot) ∧
    (Lexer.nextToken (newLexer "1.2.3".toList)).1 = ⟨.number, "1.2.3".toList, 1, 1⟩ ∧
    (Lexer.nextToken (Lexer.nextToken (newLexer "1.2.3".toList)).2).1.type = .eof ∧
    (∀ (n : Nat) (p : PState), p.current.type = .number →
      parsePrimaryValue (n + 1) p =
        match goParseFloat p.current.value with
        | .error msg =>
          .error (.plain ("invalid number " ++ goQuote (String.mk p.current.value) ++ ": " ++ msg))
        | .ok num => .ok (p, .numberLit num p.posP)) ∧
    goParseFloat "1.2.3".toList =
      .error "strconv.ParseFloat: parsing \"1.2.3\": invalid syntax" := by
  refine ⟨?_, readNumber_value, rfl, rfl, ?_, rfl⟩
  · intro l hws hnl hcm hq hlt hnum
    unfold Lexer.nextToken
    rw [skipWhitespace_id l hws]
    rw [if_neg (by omega), if_neg hnl, if_neg hcm, if_neg hq, if_pos hnum]
  · intro n p h
    simp only [parsePrimaryValue, h]

/-- A parser state whose current token is the number lexeme 1.2.3. -/
def c6p : PState := ⟨newLexer [], ⟨.number, "1.2.3".toList, 1, 1⟩, zeroToken, [], "t"⟩

/-- C6 witness: the general conjuncts applied at the concrete input 1.2.3. -/
theorem htkl_C6_number_lexing_witness :
    Lexer.nextToken (newLexer "1.2.3".toList) = (newLexer "1.2.3".toList).readNumber ∧
    parsePrimaryValue 5 c6p =
      .error (.plain ("invalid number \"1.2.3\": " ++
        "strconv.ParseFloat: parsing \"1.2.3\": invalid syntax")) := by
  constructor
  · exact htkl_C6_number_lexing.1 (newLexer "1.2.3".toList)
      (by decide) (by decide) (by decide) (by decide) (by decide) (by decide)
  · rw [htkl_C6_number_lexing.2.2.2.2.1 4 c6p rfl]
    rfl

/-! ### C7 — with requires as -/

/-- The input of the with-without-as test. -/
def c7in : List Char := ("with Values.routes do\n  name: \"test\"\nend").toList

/-- C7 counterexample: parsing a with statement whose context is not followed
by the as clause fails with the ParseError message expected-as-got-do (which
mentions the as keyword, as the last conjunct spells out), not with the
message the claim states. -/
theorem htkl_C7_counterexample :
    htklParse 99 c7in "test.helmtk" =
      .error (.perr "expected \x27as\x27, got \x27do\x27" 1 20 22 c7in) ∧
    "expected \x27as\x27, got \x27do\x27" ≠ "with requires \x27as <name>\x27" ∧
    "expected \x27as\x27, got \x27do\x27" =
      "expected " ++ "\x27as\x27" ++ ", got \x27do\x27" := by
  exact ⟨rfl, by decide, rfl⟩

/-- C7 (amended): whenever the context expression of a with statement parses
and the token after it is not the as keyword, parseWithStatement fails with a
ParseError at that token whose message is expected-as followed by the actual
token — in particular a message that mentions the as keyword. -/
theorem htkl_C7_with_requires_as (n : Nat) (p p1 : PState) (ctx : PNode)
    (hctx : parseExpression n p.nextTok = .ok (p1, ctx))
    (has : (p1.nextTok).current.type ≠ .kas) :
    parseWithStatement (n + 1) p =
      .error ((p1.nextTok).mkError ("expected \x27as\x27, got " ++
        tokenTypeString (p1.nextTok).current.type)) := by
  simp only [parseWithStatement, hctx]
  simp [PState.expectCurrent, has]
  rfl

/-- The intermediate parser state after the context expression of the C7
input. -/
def c7mid : PState × PNode :=
  match parseExpression 50 (PState.nextTok (newParser c7in "test.helmtk")) with
  | .ok r => r
  | .error _ => (newParser c7in "test.helmtk", .nilN)

/-- C7 witness: the amended theorem applied to the concrete test input. -/
theorem htkl_C7_with_requires_as_witness :
    parseWithStatement 51 (newParser c7in "test.helmtk") =
      .error ((c7mid.1.nextTok).mkError ("expected \x27as\x27, got " ++
        tokenTypeString (c7mid.1.nextTok).current.type)) :=
  htkl_C7_with_requires_as 50 (newParser c7in "test.helmtk") c7mid.1 c7mid.2
    rfl (by decide)

/-! ### C10 — unrecognized bytes -/

/-- The bytes that begin a recognized token (or are skipped as whitespace) in
NextToken: whitespace, newline, comment marker, quote, digit, letter,
underscore, and the operator characters; a lone ampersand is not recognized
(it only forms a token when followed by a second ampersand). -/
def recognizedStart (c : Char) : Bool :=
  c = ' ' || c = '\t' || c = '\r' || c = '\n' || c = '#' || c = '"' ||
  goIsDigit c || goIsLetter c || c = '_' ||
  c = ':' || c = ',' || c = Char.ofNat 123 || c = Char.ofNat 125 ||
  c = '[' || c = ']' || c = '(' || c = ')' || c = '.' ||
  c = '|' || c = '=' || c = '!' || c = '<' || c = '>' ||
  c = '+' || c = '-' || c = '*' || c = '/'

/-- C10: a byte that does not begin a recognized token (including a lone
ampersand) makes NextToken return a token of the end-of-input type carrying
that byte as its value, with the cursor advanced past it (first conjunct,
over every byte); consequently Parse stops at such a byte as if the source
had ended: the second conjunct parses a document whose second statement sits
behind a semicolon and succeeds with only the first statement, silently
discarding the rest. -/
theorem htkl_C10_unrecognized_byte :
    (∀ b : Nat, b < 256 → recognizedStart (Char.ofNat b) = false →
      Lexer.nextToken (newLexer [Char.ofNat b]) =
        (⟨.eof, [Char.ofNat b], 1, 1⟩, ⟨[Char.ofNat b], 1, 1, 2⟩)) ∧
    htklParse 99 ("a: true\n; b: false").toList "t" =
      .ok ⟨[.keyValue "a" (.boolLit true ⟨"t", 1, 4⟩) ⟨"t", 1, 1⟩], []⟩ := by
  exact ⟨by decide, rfl⟩

/-- C10 witness: the universal conjunct applied to the semicolon byte. -/
theorem htkl_C10_unrecognized_byte_witness :
    recognizedStart (Char.ofNat 59) = false ∧
    Lexer.nextToken (newLexer [Char.ofNat 59]) =
      (⟨.eof, [Char.ofNat 59], 1, 1⟩, ⟨[Char.ofNat 59], 1, 1, 2⟩) :=
  ⟨by decide, htkl_C10_unrecognized_byte.1 59 (by decide) (by decide)⟩



/-! ### C3: string interpolation splits at the first closing brace -/

/-- A parser whose current token is a string token with the given body, as
parseStringLiteral receives it. -/
def strTokParser (body : List Char) : PState :=
  ⟨newLexer [], ⟨.string, body, 1, 1⟩, zeroToken, [], "f"⟩

/-- The body of the string literal "${ {} }": an interpolation whose expression
contains a nested brace pair. -/
def c3body : List Char :=
  ['$', Char.ofNat 123, ' ', Char.ofNat 123, Char.ofNat 125, ' ', Char.ofNat 125]

/-- The substring of c3body between the dollar-brace and its MATCHING closing
brace, which is what the claim says gets re-parsed. -/
def c3match : List Char := [' ', Char.ofNat 123, Char.ofNat 125, ' ']

/-- C3, counterexample: on the string body dollar-brace-space-brace-brace-space-brace
(an interpolation holding an empty object in nested braces), the parser cuts the
sub-expression at the FIRST closing brace, re-parses the truncated text and
fails, even though the substring up to the matching closing brace (the claim
text) parses fine as an empty object literal. -/
theorem htkl_C3_counterexample :
    parseStringLiteral 99 (strTokParser c3body) =
      .error (.plain ("failed to parse interpolation expression \" \x7b\": " ++
        "Parse error at line 1, column 3: expected \x27\x7d\x27, got EOF\n")) ∧
    Except.map (fun r => r.2) (parseExpression 99 (freshExprParser c3match "f")) =
      .ok (.objectLit [] ⟨"f", 1, 2⟩) :=
  ⟨rfl, rfl⟩

/-- findInterp finds nothing when the search position is at or past the end. -/
theorem findInterp_none_at_end (f : Nat) (str : List Char) (sp : Nat)
    (hf : 1 ≤ f) (h : str.length ≤ sp) : findInterp f str sp = none := by
  cases f with
  | zero => omega
  | succ m => simp [findInterp, List.drop_eq_nil_of_le h, indexOfPair]

/-- C3, amended: each sub-expression of an interpolated string is the substring
between the unescaped dollar-brace and the FIRST closing brace after it (not
the matching one), re-parsed by a fresh parser; a dollar-brace with no closing
brace at all is the parse error "unclosed interpolation in string"; a failing
re-parse is surfaced with the truncated substring quoted in the message. -/
theorem htkl_C3_interpolation :
    (∀ (n : Nat) (p : PState) (start spos : Nat),
      hasInterpScan none p.current.value = true →
      findInterp (p.current.value.length + 2) p.current.value 0 = some (start, spos) →
      indexOfChar (p.current.value.drop (spos + start + 2)) (Char.ofNat 125) = none →
      parseStringLiteral (n + 2) p = .error (p.mkError "unclosed interpolation in string")) ∧
    (∀ (n : Nat) (p : PState) (start spos endIdx : Nat) (st2 : PState) (e : PNode),
      hasInterpScan none p.current.value = true →
      findInterp (p.current.value.length + 2) p.current.value 0 = some (start, spos) →
      indexOfChar (p.current.value.drop (spos + start + 2)) (Char.ofNat 125) = some endIdx →
      spos + start + 2 + endIdx + 1 = p.current.value.length →
      parseExpression (n + 1) (freshExprParser
        (listSlice p.current.value (spos + start + 2) (spos + start + 2 + endIdx))
        p.filename) = .ok (st2, e) →
      parseStringLiteral (n + 3) p = .ok (p, .interpString
        ((if start > 0 then
            [.stringLit (String.mk (stripNulDollar (listSlice p.current.value spos (spos + start)))) p.posP]
          else []) ++ [e]) p.posP)) ∧
    (∀ (n : Nat) (p : PState) (start spos endIdx : Nat) (err : PErr),
      hasInterpScan none p.current.value = true →
      findInterp (p.current.value.length + 2) p.current.value 0 = some (start, spos) →
      indexOfChar (p.current.value.drop (spos + start + 2)) (Char.ofNat 125) = some endIdx →
      parseExpression (n + 1) (freshExprParser
        (listSlice p.current.value (spos + start + 2) (spos + start + 2 + endIdx))
        p.filename) = .error err →
      parseStringLiteral (n + 3) p = .error (.plain
        ("failed to parse interpolation expression " ++
          goQuote (String.mk (listSlice p.current.value (spos + start + 2) (spos + start + 2 + endIdx))) ++
          ": " ++ pErrString err))) := by
  refine ⟨?_, ?_, ?_⟩
  · intro n p start spos hscan hfind hidx
    simp only [parseStringLiteral, hscan, if_true, stringInterpLoop, hfind, hidx]
  · intro n p start spos endIdx st2 e hscan hfind hidx hend hsub
    have h2 : findInterp (p.current.value.length + 2) p.current.value
        (spos + start + 2 + endIdx + 1) = none :=
      findInterp_none_at_end _ _ _ (by omega) (by omega)
    have h3 : ¬ (spos + start + 2 + endIdx + 1 < p.current.value.length) := by omega
    simp only [parseStringLiteral, hscan, if_true, stringInterpLoop, hfind, hidx, hsub, h2, h3,
      if_false, List.nil_append, ite_true, ite_false]
  · intro n p start spos endIdx err hscan hfind hidx hsub
    simp only [parseStringLiteral, hscan, if_true, stringInterpLoop, hfind, hidx, hsub]


/-- Witness for the amended C3 theorem: its three hypotheses sets are satisfied
on concrete string bodies (an unclosed interpolation, a trailing interpolation
holding an identifier, and the nested-brace body whose truncated re-parse
fails). -/
theorem htkl_C3_interpolation_witness :
    parseStringLiteral 5 (strTokParser ['$', Char.ofNat 123, 'x']) =
      .error (.perr "unclosed interpolation in string" 1 1 0 []) ∧
    parseStringLiteral 102 (strTokParser ['a', '$', Char.ofNat 123, 'x', Char.ofNat 125]) =
      .ok (strTokParser ['a', '$', Char.ofNat 123, 'x', Char.ofNat 125],
        .interpString [.stringLit "a" ⟨"f", 1, 1⟩, .identE "x" ⟨"f", 1, 1⟩] ⟨"f", 1, 1⟩) ∧
    parseStringLiteral 99 (strTokParser c3body) =
      .error (.plain ("failed to parse interpolation expression \" \x7b\": " ++
        "Parse error at line 1, column 3: expected \x27\x7d\x27, got EOF\n")) :=
  ⟨htkl_C3_interpolation.1 3 (strTokParser ['$', Char.ofNat 123, 'x']) 0 0 rfl rfl rfl,
   htkl_C3_interpolation.2.1 99 (strTokParser ['a', '$', Char.ofNat 123, 'x', Char.ofNat 125])
     1 0 1 _ _ rfl rfl rfl rfl rfl,
   htkl_C3_interpolation.2.2 96 (strTokParser c3body) 0 0 2 _ rfl rfl rfl rfl⟩


/-! ### C9: the set and append builtins copy their input containers -/

/-- A runtime value in a heap model where containers are pointers into a
store, mirroring Go\x27s *ArrayValue and *ObjectValue. -/
inductive GVal where
  | str (s : String)
  | num (q : ℚ)
  | bool (b : Bool)
  | null
  | arrRef (i : Nat)
  | objRef (i : Nat)
  deriving Repr, DecidableEq

/-- The container heap: entry i of arrs is the Elements slice behind the
ArrayValue pointer i, entry i of objs the Fields map behind ObjectValue
pointer i. -/
structure Store where
  arrs : List (List GVal)
  objs : List (List (String × GVal))
  deriving Repr, DecidableEq

/-- Value.Type().String() for heap values. -/
def gvalType : GVal → String
  | .str _ => "string"
  | .num _ => "number"
  | .bool _ => "bool"
  | .null => "null"
  | .arrRef _ => "array"
  | .objRef _ => "object"

/-- runtime.ToString over heap values. -/
def gToString : GVal → Except String String
  | .str s => .ok s
  | .num q => .ok (numberToString q)
  | .bool b => .ok (if b then "true" else "false")
  | .null => .ok "null"
  | v => .error ("cannot convert " ++ gvalType v ++ " to string")

/-- funcs.setFunc: copy the object\x27s fields one Set at a time into a fresh
object, add the new binding, return a pointer to the fresh object. -/
def setFunc (st : Store) (args : List GVal) : Except String (Store × GVal) :=
  match args with
  | [a0, a1, a2] =>
    match a0 with
    | .objRef i =>
      match gToString a1 with
      | .error e => .error e
      | .ok key =>
        let fields := st.objs.getD i []
        let result := fields.foldl (fun acc kv => mSet acc kv.1 kv.2) []
        .ok ({ st with objs := st.objs ++ [mSet result key a2] }, .objRef st.objs.length)
    | _ => .error ("set expects first argument to be an object, got " ++ gvalType a0)
  | _ => .error ("set expects 3 arguments, got " ++ toString args.length)

/-- funcs.appendFunc: copy the array\x27s elements into a fresh slice, append
the extra arguments, return a pointer to the fresh array. -/
def appendFunc (st : Store) (args : List GVal) : Except String (Store × GVal) :=
  match args with
  | a0 :: x :: xs =>
    match a0 with
    | .arrRef i =>
      let result := st.arrs.getD i [] ++ (x :: xs)
      .ok ({ st with arrs := st.arrs ++ [result] }, .arrRef st.arrs.length)
    | _ => .error ("append expects first argument to be an array, got " ++ gvalType a0)
  | _ => .error ("append expects at least 2 arguments, got " ++ toString args.length)

/-- Setting an absent key appends it. -/
theorem mSet_append_of_not_mem {α : Type} (m : List (String × α)) (k : String) (v : α)
    (h : ∀ e ∈ m, e.1 ≠ k) : mSet m k v = m ++ [(k, v)] := by
  have hf : m.find? (fun e => e.1 = k) = none :=
    List.find?_eq_none.mpr (fun e he => by simp [h e he])
  simp [mSet, hf]

/-- The field-copy loop of setFunc rebuilds exactly the given map when the
accumulator is key-disjoint from it and its keys are distinct. -/
theorem foldl_mSet_disjoint {α : Type} (fields : List (String × α)) :
    ∀ (acc : List (String × α)),
      (fields.map Prod.fst).Nodup →
      (∀ e ∈ acc, ∀ e2 ∈ fields, e.1 ≠ e2.1) →
      fields.foldl (fun a kv => mSet a kv.1 kv.2) acc = acc ++ fields := by
  induction fields with
  | nil => intro acc _ _; simp
  | cons kv rest ih =>
    intro acc hnd hdisj
    simp only [List.foldl_cons]
    rw [mSet_append_of_not_mem acc kv.1 kv.2
      (fun e he => hdisj e he kv (List.mem_cons_self kv rest))]
    rw [ih (acc ++ [kv]) (by simp [List.nodup_cons] at hnd; exact hnd.2) ?_]
    · simp
    · intro e he e2 he2
      rcases List.mem_append.mp he with h1 | h1
      · exact hdisj e h1 e2 (List.mem_cons_of_mem _ he2)
      · have hk : e = kv := by simpa using h1
        subst hk
        simp only [List.map_cons, List.nodup_cons] at hnd
        intro hcontra
        exact hnd.1 (hcontra ▸ List.mem_map_of_mem Prod.fst he2)

/-- Field copy from an empty accumulator is the identity under distinct keys. -/
theorem foldl_mSet_copy {α : Type} (fields : List (String × α))
    (hnd : (fields.map Prod.fst).Nodup) :
    fields.foldl (fun a kv => mSet a kv.1 kv.2) [] = fields := by
  simpa using foldl_mSet_disjoint fields [] hnd (by simp)

/-- C9: set returns a pointer to a freshly allocated object holding the
input\x27s fields plus the new binding, and append returns a pointer to a
freshly allocated array holding the input\x27s elements plus the extra
arguments; every pre-existing heap cell — in particular the input container —
is unchanged in the resulting store. -/
theorem htkl_C9_builtin_copies :
    (∀ (st : Store) (i : Nat) (k : String) (v : GVal) (fields : List (String × GVal)),
      st.objs[i]? = some fields →
      (fields.map Prod.fst).Nodup →
      setFunc st [.objRef i, .str k, v] =
        .ok (⟨st.arrs, st.objs ++ [mSet fields k v]⟩, .objRef st.objs.length) ∧
      (st.objs ++ [mSet fields k v])[i]? = some fields) ∧
    (∀ (st : Store) (i : Nat) (x : GVal) (xs : List GVal) (elems : List GVal),
      st.arrs[i]? = some elems →
      appendFunc st (.arrRef i :: x :: xs) =
        .ok (⟨st.arrs ++ [elems ++ x :: xs], st.objs⟩, .arrRef st.arrs.length) ∧
      (st.arrs ++ [elems ++ x :: xs])[i]? = some elems) := by
  constructor
  · intro st i k v fields hget hnd
    have hlt : i < st.objs.length := by
      by_contra hge
      simp [List.getElem?_eq_none (by omega : st.objs.length ≤ i)] at hget
    have hD : st.objs.getD i [] = fields := by
      simp [List.getD, hget]
    constructor
    · simp only [setFunc, gToString, hD, foldl_mSet_copy fields hnd]
    · rw [List.getElem?_append, if_pos hlt]; exact hget
  · intro st i x xs elems hget
    have hlt : i < st.arrs.length := by
      by_contra hge
      simp [List.getElem?_eq_none (by omega : st.arrs.length ≤ i)] at hget
    have hD : st.arrs.getD i [] = elems := by
      simp [List.getD, hget]
    constructor
    · simp only [appendFunc, hD]
    · rw [List.getElem?_append, if_pos hlt]; exact hget

/-- Witness for C9 at a one-object, one-array heap. -/
theorem htkl_C9_builtin_copies_witness :
    setFunc ⟨[[.num 1]], [[("a", .num 1)]]⟩ [.objRef 0, .str "b", .num 2] =
      .ok (⟨[[.num 1]], [[("a", .num 1)], [("a", .num 1), ("b", .num 2)]]⟩, .objRef 1) ∧
    appendFunc ⟨[[.num 1]], [[("a", .num 1)]]⟩ [.arrRef 0, .num 2] =
      .ok (⟨[[.num 1], [.num 1, .num 2]], [[("a", .num 1)]]⟩, .arrRef 1) :=
  ⟨(htkl_C9_builtin_copies.1 ⟨[[.num 1]], [[("a", .num 1)]]⟩ 0 "b" (.num 2)
      [("a", .num 1)] rfl (by decide)).1,
   (htkl_C9_builtin_copies.2 ⟨[[.num 1]], [[("a", .num 1)]]⟩ 0 (.num 2) [] [.num 1] rfl).1⟩


/-! ### C5: pipe desugaring -/

/-- C5, counterexample: the pipe form evaluates its left side BEFORE the
call arguments while the desugared call evaluates the arguments first, so the
two expressions are observably different: with u1 and u2 both undefined,
evaluating u1 piped into f(u2) blames u1 while f(u2, u1) blames u2. -/
theorem htkl_C5_counterexample :
    evalExpression 9 st0 0
      (.binaryE (.identE "u1" posA) "|"
        (.callE (.identE "f" posB) [.identE "u2" posC] posB) posA) =
      .error (.evalError "undefined variable: u1" "t.htkl" 1 1) ∧
    evalExpression 9 st0 0
      (.callE (.identE "f" posB) [.identE "u2" posC, .identE "u1" posA] posB) =
      .error (.evalError "undefined variable: u2" "t.htkl" 1 9) ∧
    (EErr.evalError "undefined variable: u1" "t.htkl" 1 1) ≠
      (EErr.evalError "undefined variable: u2" "t.htkl" 1 9) :=
  ⟨rfl, rfl, by decide⟩

/-- C5, amended: piping into a bare identifier is exactly the one-argument
call at every fuel; piping into a call on an identifier appends the piped
value as the LAST argument, and agrees with the desugared call whenever both
operand evaluations leave the state unchanged (the two forms evaluate the
piped operand and the arguments in opposite orders, so in general they are
not equivalent); a pipe whose right side is neither an identifier nor a call,
or a call on a non-identifier, is the corresponding eval error. -/
theorem htkl_C5_pipe_desugaring :
    (∀ (n : Nat) (st : EState) (s : Nat) (x : PNode) (f : String) (p q : Pos),
      evalExpression n st s (.binaryE x "|" (.identE f p) q) =
      evalExpression n st s (.callE (.identE f p) [x] p)) ∧
    (∀ (m : Nat) (st : EState) (s : Nat) (x a : PNode) (f : String)
        (fp cp q : Pos) (xv av : Val),
      evalExpression (m + 2) st s x = .ok (st, xv) →
      evalExpression (m + 1) st s x = .ok (st, xv) →
      evalExpression (m + 2) st s a = .ok (st, av) →
      evalExpression (m + 1) st s a = .ok (st, av) →
      evalExpression (m + 5) st s
          (.binaryE x "|" (.callE (.identE f fp) [a] cp) q) =
        callFunction st s fp f [av, xv] ∧
      evalExpression (m + 5) st s (.callE (.identE f fp) [a, x] fp) =
        callFunction st s fp f [av, xv]) ∧
    (∀ (n : Nat) (st st1 : EState) (s : Nat) (x r : PNode) (v : Val) (q : Pos),
      evalExpression n st s x = .ok (st1, v) →
      (∀ nm p, r ≠ .identE nm p) →
      (∀ fn args p, r ≠ .callE fn args p) →
      evalExpression (n + 3) st s (.binaryE x "|" r q) =
        .error (errorf q ("invalid pipe right side: " ++ goTypeName r))) ∧
    (∀ (n : Nat) (st st1 : EState) (s : Nat) (x fn : PNode) (args : List PNode)
        (v : Val) (cp q : Pos),
      evalExpression n st s x = .ok (st1, v) →
      (∀ nm p, fn ≠ .identE nm p) →
      evalExpression (n + 3) st s (.binaryE x "|" (.callE fn args cp) q) =
        .error (errorf q "pipe right side must be a function name")) := by
  refine ⟨?_, ?_, ?_, ?_⟩
  · intro n st s x f p q
    match n with
    | 0 => rfl
    | 1 => rfl
    | 2 => rfl
    | 3 => rfl
    | (k + 4) =>
      have kL : ∀ r, evalPipe (k + 2) st s x (.identE f p) q = r →
          evalExpression (k + 4) st s (.binaryE x "|" (.identE f p) q) = r :=
        fun r h => h
      have kR : ∀ r, evalCallExpression (k + 3) st s (.identE f p) [x] p = r →
          evalExpression (k + 4) st s (.callE (.identE f p) [x] p) = r :=
        fun r h => h
      have main : evalPipe (k + 2) st s x (.identE f p) q =
          evalCallExpression (k + 3) st s (.identE f p) [x] p := by
        cases hx : evalExpression (k + 1) st s x with
        | error e => simp only [evalPipe, evalCallExpression, evalExprList, hx]
        | ok pr =>
          obtain ⟨st1, v⟩ := pr
          simp only [evalPipe, evalCallExpression, evalExprList, hx]
      exact (kL _ main).trans (kR _ rfl).symm
  · intro m st s x a f fp cp q xv av hx2 hx1 ha2 ha1
    constructor
    · have key : ∀ r,
          (match evalExpression (m + 2) st s x with
            | .error e => .error e
            | .ok (st1, val) =>
              match evalExprList (m + 2) st1 s [a] with
              | .error e => .error e
              | .ok (st2, argVals) => callFunction st2 s fp f (argVals ++ [val])) = r →
          evalExpression (m + 5) st s
            (.binaryE x "|" (.callE (.identE f fp) [a] cp) q) = r :=
        fun r h => h
      exact key _ (by simp only [hx2, evalExprList, ha1, List.singleton_append,
        List.cons_append, List.nil_append])
    · have key : ∀ r,
          (match evalExprList (m + 3) st s [a, x] with
            | .error e => .error e
            | .ok (st2, argVals) => callFunction st2 s fp f argVals) = r →
          evalExpression (m + 5) st s (.callE (.identE f fp) [a, x] fp) = r :=
        fun r h => h
      exact key _ (by simp only [evalExprList, ha2, hx1])
  · intro n st st1 s x r v q hx hni hnc
    have key : ∀ res, evalPipe (n + 1) st s x r q = res →
        evalExpression (n + 3) st s (.binaryE x "|" r q) = res :=
      fun res h => h
    apply key
    simp only [evalPipe, hx]
  · intro n st st1 s x fn args v cp q hx hnf
    have key : ∀ res, evalPipe (n + 1) st s x (.callE fn args cp) q = res →
        evalExpression (n + 3) st s (.binaryE x "|" (.callE fn args cp) q) = res :=
      fun res h => h
    apply key
    simp only [evalPipe, hx]

/-- Witness for the amended C5 theorem on boolean operands in the initial
scope. -/
theorem htkl_C5_pipe_desugaring_witness :
    (evalExpression 6 st0 0
        (.binaryE (.boolLit true posA) "|"
          (.callE (.identE "f" posB) [.boolLit false posC] posB) posA) =
      callFunction st0 0 posB "f" [.bool false, .bool true] ∧
    evalExpression 6 st0 0
        (.callE (.identE "f" posB) [.boolLit false posC, .boolLit true posA] posB) =
      callFunction st0 0 posB "f" [.bool false, .bool true]) ∧
    evalExpression 4 st0 0
        (.binaryE (.boolLit true posA) "|" (.nullLit posC) posB) =
      .error (.evalError "invalid pipe right side: *parser.NullLiteral" "t.htkl" 1 5) ∧
    evalExpression 4 st0 0
        (.binaryE (.boolLit true posA) "|" (.callE (.nullLit posC) [] posC) posB) =
      .error (.evalError "pipe right side must be a function name" "t.htkl" 1 5) :=
  ⟨htkl_C5_pipe_desugaring.2.1 1 st0 0 (.boolLit true posA) (.boolLit false posC)
      "f" posB posB posA (.bool true) (.bool false) rfl rfl rfl rfl,
   htkl_C5_pipe_desugaring.2.2.1 1 st0 st0 0 (.boolLit true posA) (.nullLit posC)
      (.bool true) posB rfl (fun nm p h => by cases h) (fun fn args p h => by cases h),
   htkl_C5_pipe_desugaring.2.2.2 1 st0 st0 0 (.boolLit true posA) (.nullLit posC)
      [] (.bool true) posC posB rfl (fun nm p h => by cases h)⟩


/-! ### C8: scope isolation of includes

The frame invariant: relative to a variable-map baseline b, an evaluation
step preserves every scope cell and registry cell that existed at its start
and every variable map below b, and only ever appends to the four heaps. -/

def FrameInv (b : Nat) (st st2 : EState) : Prop :=
  (∀ i, i < st.scopes.length → st2.scopes[i]? = st.scopes[i]?) ∧
  (∀ i, i < b → st2.varMaps[i]? = st.varMaps[i]?) ∧
  (∀ i, i < st.funcMaps.length → st2.funcMaps[i]? = st.funcMaps[i]?) ∧
  (∀ i, i < st.tmplMaps.length → st2.tmplMaps[i]? = st.tmplMaps[i]?) ∧
  st.scopes.length ≤ st2.scopes.length ∧
  st.varMaps.length ≤ st2.varMaps.length ∧
  st.funcMaps.length ≤ st2.funcMaps.length ∧
  st.tmplMaps.length ≤ st2.tmplMaps.length

/-- The scope argument of an evaluation is well-based: it denotes an existing
cell whose local-variable map sits at or above the baseline. -/
def WB (b : Nat) (st : EState) (cur : Nat) : Prop :=
  cur < st.scopes.length ∧ b ≤ (st.cell cur).vars ∧ b ≤ st.varMaps.length

theorem frameInv_refl (b : Nat) (st : EState) : FrameInv b st st :=
  ⟨fun _ _ => rfl, fun _ _ => rfl, fun _ _ => rfl, fun _ _ => rfl,
   le_refl _, le_refl _, le_refl _, le_refl _⟩

theorem frameInv_trans {b : Nat} {st st2 st3 : EState}
    (h1 : FrameInv b st st2) (h2 : FrameInv b st2 st3) : FrameInv b st st3 := by
  obtain ⟨a1, a2, a3, a4, a5, a6, a7, a8⟩ := h1
  obtain ⟨c1, c2, c3, c4, c5, c6, c7, c8⟩ := h2
  refine ⟨?_, ?_, ?_, ?_, le_trans a5 c5, le_trans a6 c6, le_trans a7 c7, le_trans a8 c8⟩
  · intro i hi; rw [c1 i (lt_of_lt_of_le hi a5), a1 i hi]
  · intro i hi; rw [c2 i hi, a2 i hi]
  · intro i hi; rw [c3 i (lt_of_lt_of_le hi a7), a3 i hi]
  · intro i hi; rw [c4 i (lt_of_lt_of_le hi a8), a4 i hi]

theorem cell_congr {st st2 : EState} {cur : Nat}
    (h : st2.scopes[cur]? = st.scopes[cur]?) : st2.cell cur = st.cell cur := by
  simp [EState.cell, List.getD_eq_getElem?_getD, h]

theorem wb_mono {b : Nat} {st st2 : EState} {cur : Nat}
    (hwb : WB b st cur) (hf : FrameInv b st st2) : WB b st2 cur := by
  obtain ⟨h1, h2, h3⟩ := hwb
  refine ⟨lt_of_lt_of_le h1 hf.2.2.2.2.1, ?_, le_trans h3 hf.2.2.2.2.2.1⟩
  rw [cell_congr (hf.1 cur h1)]; exact h2

theorem frameInv_scopeSet {b : Nat} {st : EState} {cur : Nat}
    (hwb : WB b st cur) (name : String) (v : Val) :
    FrameInv b st (scopeSet st cur name v) := by
  obtain ⟨h1, h2, h3⟩ := hwb
  refine ⟨fun _ _ => rfl, ?_, fun _ _ => rfl, fun _ _ => rfl,
    le_refl _, ?_, le_refl _, le_refl _⟩
  · intro i hi
    simp only [scopeSet]
    exact List.getElem?_set_ne (by omega)
  · simp [scopeSet]

/-- scopeSet leaves every scope cell and the varMaps length unchanged, so a
well-based scope stays well-based. -/
theorem wb_scopeSet {b : Nat} {st : EState} {cur2 : Nat}
    (hwb : WB b st cur2) (s : Nat) (name : String) (v : Val) :
    WB b (scopeSet st s name v) cur2 := by
  obtain ⟨h1, h2, h3⟩ := hwb
  exact ⟨by simpa [scopeSet] using h1, by simpa [scopeSet, EState.cell] using h2,
    by simpa [scopeSet] using h3⟩

theorem frameInv_newScope {b : Nat} {st : EState} (p : Option Nat)
    (hb : b ≤ st.varMaps.length) : FrameInv b st (newScope st p).1 := by
  refine ⟨?_, ?_, ?_, ?_, ?_, ?_, ?_, ?_⟩
  · intro i hi; simp [newScope, List.getElem?_append, hi]
  · intro i hi
    have hi2 : i < st.varMaps.length := by omega
    simp [newScope, List.getElem?_append, hi2]
  · intro i hi; simp [newScope, List.getElem?_append, hi]
  · intro i hi; simp [newScope, List.getElem?_append, hi]
  · simp [newScope]
  · simp [newScope]
  · simp [newScope]
  · simp [newScope]

theorem newScope_snd (st : EState) (p : Option Nat) :
    (newScope st p).2 = st.scopes.length := rfl

/-- The freshly allocated scope is well-based: its cell is the appended one
and its vars pointer is the old varMaps length. -/
theorem wb_newScope {b : Nat} {st : EState} (p : Option Nat)
    (hb : b ≤ st.varMaps.length) : WB b (newScope st p).1 (newScope st p).2 := by
  refine ⟨by simp [newScope], ?_, by simp [newScope]; omega⟩
  cases p <;>
    simp [newScope, EState.cell, List.getD_eq_getElem?_getD,
      List.getElem?_append_right, le_refl] <;> omega

/-- The include setup (fresh parentless scope, linked to the caller) is a
frame step, and the fresh scope is well-based. -/
theorem frameInv_includeSetup {b : Nat} {st : EState} (s : Nat)
    (hb : b ≤ st.varMaps.length) :
    FrameInv b st (scopeLink (newScope st none).1 (newScope st none).2 s) ∧
    WB b (scopeLink (newScope st none).1 (newScope st none).2 s)
      (newScope st none).2 := by
  constructor
  · refine ⟨?_, ?_, ?_, ?_, ?_, ?_, ?_, ?_⟩
    · intro i hi
      simp only [scopeLink, newScope_snd, newScope]
      rw [List.getElem?_set_ne (by omega)]
      simp [List.getElem?_append, hi]
    · intro i hi
      have hi2 : i < st.varMaps.length := by omega
      simp [scopeLink, newScope, List.getElem?_append, hi2]
    · intro i hi; simp [scopeLink, newScope, List.getElem?_append, hi]
    · intro i hi; simp [scopeLink, newScope, List.getElem?_append, hi]
    · simp [scopeLink, newScope]
    · simp [scopeLink, newScope]
    · simp [scopeLink, newScope]
    · simp [scopeLink, newScope]
  · refine ⟨by simp [scopeLink, newScope], ?_, by simp [scopeLink, newScope]; omega⟩
    have hlen : st.scopes.length < ((newScope st none).1).scopes.length := by
      simp [newScope]
    simp only [scopeLink, newScope_snd, EState.cell, List.getD_eq_getElem?_getD,
      List.getElem?_set_self hlen]
    simp [newScope, List.getD_eq_getElem?_getD, List.getElem?_append_right, le_refl]
    omega

/-- Seeding the fresh scope with the context fields is a frame step. -/
theorem frameInv_ctxSeed {b : Nat} :
    ∀ (fs : List (String × Val)) (st : EState) (ts : Nat), WB b st ts →
      FrameInv b st (fs.foldl (fun acc e => scopeSet acc ts e.1 e.2) st) := by
  intro fs
  induction fs with
  | nil => intro st ts _; exact frameInv_refl b st
  | cons e rest ih =>
    intro st ts h
    rw [List.foldl_cons]
    exact frameInv_trans (frameInv_scopeSet h e.1 e.2)
      (ih (scopeSet st ts e.1 e.2) ts (wb_scopeSet h ts e.1 e.2))


/-- State preservation of the non-recursive evaluation helpers. -/
theorem evalIdentifier_st {st : EState} {s : Nat} {name : String} {pos : Pos}
    {st2 : EState} {v : Val}
    (h : evalIdentifier st s name pos = .ok (st2, v)) : st2 = st := by
  unfold evalIdentifier at h
  cases hg : scopeGet st s name <;> rw [hg] at h <;> simp at h
  exact h.1.symm

theorem evalCurrentContext_st {st : EState} {s : Nat} {st2 : EState} {v : Val}
    (h : evalCurrentContext st s = .ok (st2, v)) : st2 = st := by
  simp [evalCurrentContext] at h
  exact h.1.symm

theorem callFunction_st {st : EState} {s : Nat} {pos : Pos} {name : String}
    {args : List Val} {st2 : EState} {v : Val}
    (h : callFunction st s pos name args = .ok (st2, v)) : st2 = st := by
  unfold callFunction at h
  cases hg : scopeGetFunction st s name <;> rw [hg] at h
  · simp at h
  · rename_i fn
    replace h : (match fn args with
      | Except.error msg => Except.error (errorf pos msg)
      | Except.ok v => Except.ok (st, v)) = Except.ok (st2, v) := h
    cases hr : fn args <;> rw [hr] at h <;> simp at h
    exact h.1.symm

theorem liftArith_st {st : EState} {r : Except EErr Val} {st2 : EState} {v : Val}
    (h : liftArith st r = .ok (st2, v)) : st2 = st := by
  unfold liftArith at h
  cases r <;> simp at h
  exact h.1.symm

/-- The operator dispatch chain of evalBinaryOp always returns the state it
was given. -/
theorem binChain_st {st : EState} {op : String} {left right : Val} (pos : Pos)
    {st2 : EState} {v : Val}
    (h : (if op = "+" then liftArith st (evalAddGo left right)
      else if op = "-" then liftArith st (evalSubGo left right)
      else if op = "*" then liftArith st (evalMulGo left right)
      else if op = "/" then liftArith st (evalDivGo left right)
      else if op = "==" then .ok (st, .bool (equalGo left right))
      else if op = "!=" then .ok (st, .bool (!equalGo left right))
      else if op = "<" then liftArith st (compareNum left right (fun a b => a < b))
      else if op = "<=" then liftArith st (compareNum left right (fun a b => a ≤ b))
      else if op = ">" then liftArith st (compareNum left right (fun a b => b < a))
      else if op = ">=" then liftArith st (compareNum left right (fun a b => b ≤ a))
      else if op = "&&" then .ok (st, .bool (truthy left && truthy right))
      else if op = "||" then .ok (st, .bool (truthy left || truthy right))
      else .error (errorf pos ("unknown operator: " ++ op))) = .ok (st2, v)) :
    st2 = st := by
  by_cases c1 : op = "+"
  · rw [if_pos c1] at h; exact liftArith_st h
  rw [if_neg c1] at h
  by_cases c2 : op = "-"
  · rw [if_pos c2] at h; exact liftArith_st h
  rw [if_neg c2] at h
  by_cases c3 : op = "*"
  · rw [if_pos c3] at h; exact liftArith_st h
  rw [if_neg c3] at h
  by_cases c4 : op = "/"
  · rw [if_pos c4] at h; exact liftArith_st h
  rw [if_neg c4] at h
  by_cases c5 : op = "=="
  · rw [if_pos c5] at h; simp at h; exact h.1.symm
  rw [if_neg c5] at h
  by_cases c6 : op = "!="
  · rw [if_pos c6] at h; simp at h; exact h.1.symm
  rw [if_neg c6] at h
  by_cases c7 : op = "<"
  · rw [if_pos c7] at h; exact liftArith_st h
  rw [if_neg c7] at h
  by_cases c8 : op = "<="
  · rw [if_pos c8] at h; exact liftArith_st h
  rw [if_neg c8] at h
  by_cases c9 : op = ">"
  · rw [if_pos c9] at h; exact liftArith_st h
  rw [if_neg c9] at h
  by_cases c10 : op = ">="
  · rw [if_pos c10] at h; exact liftArith_st h
  rw [if_neg c10] at h
  by_cases c11 : op = "&&"
  · rw [if_pos c11] at h; simp at h; exact h.1.symm
  rw [if_neg c11] at h
  by_cases c12 : op = "||"
  · rw [if_pos c12] at h; simp at h; exact h.1.symm
  rw [if_neg c12] at h
  simp at h

/-- The frame theorem for the whole evaluator: an evaluation step started at
a well-based scope preserves every pre-existing scope cell, every registry
cell, and every variable map below the baseline, and only appends to the
heaps. -/
theorem frame_master : ∀ n : Nat,
    (∀ b st s node st2 v, WB b st s →
      evalExpression n st s node = .ok (st2, v) → FrameInv b st st2) ∧
    (∀ b st s coll node st2 c2, WB b st s →
      evalStatement n st s coll node = .ok (st2, c2) → FrameInv b st st2) ∧
    (∀ b st s coll key value pos st2 c2, WB b st s →
      evalKeyValue n st s coll key value pos = .ok (st2, c2) → FrameInv b st st2) ∧
    (∀ b st s node st2 v, WB b st s →
      evalValueStatement n st s node = .ok (st2, v) → FrameInv b st st2) ∧
    (∀ b st s body st2 v, WB b st s →
      evalArray n st s body = .ok (st2, v) → FrameInv b st st2) ∧
    (∀ b st s body st2 v, WB b st s →
      evalObject n st s body = .ok (st2, v) → FrameInv b st st2) ∧
    (∀ b st s coll items st2 c2, WB b st s →
      evalObjectItems n st s coll items = .ok (st2, c2) → FrameInv b st st2) ∧
    (∀ b st s coll node st2 c2, WB b st s →
      collectNode n st s coll node = .ok (st2, c2) → FrameInv b st st2) ∧
    (∀ b st s coll nodes st2 c2, WB b st s →
      collectNodeList n st s coll nodes = .ok (st2, c2) → FrameInv b st st2) ∧
    (∀ b st s coll cond body els st2 c2, WB b st s →
      evalIfStatement n st s coll cond body els = .ok (st2, c2) → FrameInv b st st2) ∧
    (∀ b st s coll ctx varName body pos st2 c2, WB b st s →
      evalWithStatement n st s coll ctx varName body pos = .ok (st2, c2) →
      FrameInv b st st2) ∧
    (∀ b st s coll operand pos st2 c2, WB b st s →
      evalSpreadStatement n st s coll operand pos = .ok (st2, c2) → FrameInv b st st2) ∧
    (∀ b st s coll kv vv iter body pos st2 c2, WB b st s →
      evalForStatement n st s coll kv vv iter body pos = .ok (st2, c2) →
      FrameInv b st st2) ∧
    (∀ b st s coll kv vv body i elems st2 c2, WB b st s →
      forArrElems n st s coll kv vv body i elems = .ok (st2, c2) → FrameInv b st st2) ∧
    (∀ b st s coll kv vv body fs st2 c2, WB b st s →
      forObjFields n st s coll kv vv body fs = .ok (st2, c2) → FrameInv b st st2) ∧
    (∀ b st s coll kv vv body key value st2 c2 fl, WB b st s →
      evalForIteration n st s coll kv vv body key value = .ok (st2, c2, fl) →
      FrameInv b st st2) ∧
    (∀ b st s coll items st2 c2 fl, WB b st s →
      forBodyItems n st s coll items = .ok (st2, c2, fl) → FrameInv b st st2) ∧
    (∀ b st s objE name pos st2 v, WB b st s →
      evalMemberExpression n st s objE name pos = .ok (st2, v) → FrameInv b st st2) ∧
    (∀ b st s objE idxE pos st2 v, WB b st s →
      evalIndexExpression n st s objE idxE pos = .ok (st2, v) → FrameInv b st st2) ∧
    (∀ b st s l op r pos st2 v, WB b st s →
      evalBinaryOp n st s l op r pos = .ok (st2, v) → FrameInv b st st2) ∧
    (∀ b st s l r pos st2 v, WB b st s →
      evalPipe n st s l r pos = .ok (st2, v) → FrameInv b st st2) ∧
    (∀ b st s args st2 vs, WB b st s →
      evalExprList n st s args = .ok (st2, vs) → FrameInv b st st2) ∧
    (∀ b st s fn args pos st2 v, WB b st s →
      evalCallExpression n st s fn args pos = .ok (st2, v) → FrameInv b st st2) ∧
    (∀ b st s op operand pos st2 v, WB b st s →
      evalUnaryOp n st s op operand pos = .ok (st2, v) → FrameInv b st st2) ∧
    (∀ b st s coll name ctxOpt pos st2 c2, WB b st s →
      evalIncludeStatement n st s coll name ctxOpt pos = .ok (st2, c2) →
      FrameInv b st st2) ∧
    (∀ b st ts coll body name pos st2 c2, WB b st ts →
      includeBodyLoop n st ts coll body name pos = .ok (st2, c2) → FrameInv b st st2) ∧
    (∀ b st s name value pos st2, WB b st s →
      evalAssignmentStatement n st s name value pos = .ok st2 → FrameInv b st st2) ∧
    (∀ b st s name value pos st2, WB b st s →
      evalLetStatement n st s name value pos = .ok st2 → FrameInv b st st2) ∧
    (∀ b st s parts pos st2 v, WB b st s →
      evalInterpolatedString n st s parts pos = .ok (st2, v) → FrameInv b st st2) ∧
    (∀ b st s parts pos acc st2 v, WB b st s →
      interpPartsLoop n st s parts pos acc = .ok (st2, v) → FrameInv b st st2) ∧
    (∀ b st s coll stmts st2 c2, WB b st s →
      evalStmtList n st s coll stmts = .ok (st2, c2) → FrameInv b st st2) := by
  intro n
  induction n with
  | zero =>
    refine ⟨?_, ?_, ?_, ?_, ?_, ?_, ?_, ?_, ?_, ?_, ?_, ?_, ?_, ?_, ?_, ?_, ?_,
      ?_, ?_, ?_, ?_, ?_, ?_, ?_, ?_, ?_, ?_, ?_, ?_, ?_, ?_⟩ <;>
      · intros
        rename_i heq
        exact Except.noConfusion heq
  | succ n ih =>
    obtain ⟨ih1, ih2, ih3, ih4, ih5, ih6, ih7, ih8, ih9, ih10, ih11, ih12, ih13,
      ih14, ih15, ih16, ih17, ih18, ih19, ih20, ih21, ih22, ih23, ih24, ih25,
      ih26, ih27, ih28, ih29, ih30, ih31⟩ := ih
    -- let / assignment
    have hcLet : ∀ b st s name value pos st2, WB b st s →
        evalLetStatement (n + 1) st s name value pos = .ok st2 → FrameInv b st st2 := by
      intro b st s name value pos st2 hwb heq
      simp only [evalLetStatement] at heq
      cases h1 : evalValueStatement n st s value with
      | error e => rw [h1] at heq; simp at heq
      | ok pr =>
        obtain ⟨st1, val⟩ := pr
        rw [h1] at heq
        simp at heq
        have hf := ih4 b st s value st1 val hwb h1
        exact heq ▸ frameInv_trans hf (frameInv_scopeSet (wb_mono hwb hf) name val)
    have hcAssign : ∀ b st s name value pos st2, WB b st s →
        evalAssignmentStatement (n + 1) st s name value pos = .ok st2 →
        FrameInv b st st2 := by
      intro b st s name value pos st2 hwb heq
      simp only [evalAssignmentStatement] at heq
      cases h1 : evalValueStatement n st s value with
      | error e => rw [h1] at heq; simp at heq
      | ok pr =>
        obtain ⟨st1, val⟩ := pr
        rw [h1] at heq
        simp at heq
        have hf := ih4 b st s value st1 val hwb h1
        exact heq ▸ frameInv_trans hf (frameInv_scopeSet (wb_mono hwb hf) name val)
    -- expression list
    have hcExprList : ∀ b st s args st2 vs, WB b st s →
        evalExprList (n + 1) st s args = .ok (st2, vs) → FrameInv b st st2 := by
      intro b st s args st2 vs hwb heq
      cases args with
      | nil => simp [evalExprList] at heq; exact heq.1 ▸ frameInv_refl b st
      | cons a rest =>
        simp only [evalExprList] at heq
        cases h1 : evalExpression n st s a with
        | error e => rw [h1] at heq; simp at heq
        | ok pr =>
          obtain ⟨st1, v1⟩ := pr
          rw [h1] at heq
          simp only [Except.ok.injEq] at heq ⊢
          replace heq : (match evalExprList n st1 s rest with
            | Except.error e => Except.error e
            | Except.ok (st3, vs1) => Except.ok (st3, v1 :: vs1)) = .ok (st2, vs) := heq
          have hf := ih1 b st s a st1 v1 hwb h1
          cases h2 : evalExprList n st1 s rest with
          | error e => rw [h2] at heq; simp at heq
          | ok pr2 =>
            obtain ⟨stB, vs1⟩ := pr2
            rw [h2] at heq
            simp at heq
            have hg := ih22 b st1 s rest stB vs1 (wb_mono hwb hf) h2
            exact heq.1 ▸ frameInv_trans hf hg
    -- interpolation loop and wrapper
    have hcInterpLoop : ∀ b st s parts pos acc st2 v, WB b st s →
        interpPartsLoop (n + 1) st s parts pos acc = .ok (st2, v) →
        FrameInv b st st2 := by
      intro b st s parts pos acc st2 v hwb heq
      cases parts with
      | nil => simp [interpPartsLoop] at heq; exact heq.1 ▸ frameInv_refl b st
      | cons part rest =>
        simp only [interpPartsLoop] at heq
        cases h1 : evalExpression n st s part with
        | error e => rw [h1] at heq; simp at heq
        | ok pr =>
          obtain ⟨st1, v1⟩ := pr
          rw [h1] at heq
          replace heq : (match toStringGo v1 with
            | Except.error msg => Except.error (wraperr pos msg)
            | Except.ok str => interpPartsLoop n st1 s rest pos (acc ++ str))
              = .ok (st2, v) := heq
          have hf := ih1 b st s part st1 v1 hwb h1
          cases h2 : toStringGo v1 with
          | error msg => rw [h2] at heq; simp at heq
          | ok str =>
            rw [h2] at heq
            exact frameInv_trans hf
              (ih30 b st1 s rest pos (acc ++ str) st2 v (wb_mono hwb hf) heq)
    have hcInterp : ∀ b st s parts pos st2 v, WB b st s →
        evalInterpolatedString (n + 1) st s parts pos = .ok (st2, v) →
        FrameInv b st st2 := by
      intro b st s parts pos st2 v hwb heq
      exact ih30 b st s parts pos "" st2 v hwb heq
    -- statement list loops
    have hcStmtList : ∀ b st s coll stmts st2 c2, WB b st s →
        evalStmtList (n + 1) st s coll stmts = .ok (st2, c2) → FrameInv b st st2 := by
      intro b st s coll stmts st2 c2 hwb heq
      cases stmts with
      | nil => simp [evalStmtList] at heq; exact heq.1 ▸ frameInv_refl b st
      | cons stmt rest =>
        simp only [evalStmtList] at heq
        cases h1 : evalStatement n st s coll stmt with
        | error e => rw [h1] at heq; simp at heq
        | ok pr =>
          obtain ⟨st1, c1⟩ := pr
          rw [h1] at heq
          have hf := ih2 b st s coll stmt st1 c1 hwb h1
          exact frameInv_trans hf
            (ih31 b st1 s c1 rest st2 c2 (wb_mono hwb hf) heq)
    have hcCollectList : ∀ b st s coll nodes st2 c2, WB b st s →
        collectNodeList (n + 1) st s coll nodes = .ok (st2, c2) → FrameInv b st st2 := by
      intro b st s coll nodes st2 c2 hwb heq
      cases nodes with
      | nil => simp [collectNodeList] at heq; exact heq.1 ▸ frameInv_refl b st
      | cons node rest =>
        simp only [collectNodeList] at heq
        cases h1 : collectNode n st s coll node with
        | error e => rw [h1] at heq; simp at heq
        | ok pr =>
          obtain ⟨st1, c1⟩ := pr
          rw [h1] at heq
          have hf := ih8 b st s coll node st1 c1 hwb h1
          exact frameInv_trans hf
            (ih9 b st1 s c1 rest st2 c2 (wb_mono hwb hf) heq)
    have hcIncBody : ∀ b st ts coll body name pos st2 c2, WB b st ts →
        includeBodyLoop (n + 1) st ts coll body name pos = .ok (st2, c2) →
        FrameInv b st st2 := by
      intro b st ts coll body name pos st2 c2 hwb heq
      cases body with
      | nil => simp [includeBodyLoop] at heq; exact heq.1 ▸ frameInv_refl b st
      | cons node rest =>
        simp only [includeBodyLoop] at heq
        cases h1 : collectNode n st ts coll node with
        | error e => rw [h1] at heq; simp at heq
        | ok pr =>
          obtain ⟨st1, c1⟩ := pr
          rw [h1] at heq
          have hf := ih8 b st ts coll node st1 c1 hwb h1
          exact frameInv_trans hf
            (ih26 b st1 ts c1 rest name pos st2 c2 (wb_mono hwb hf) heq)
    have hcObjItems : ∀ b st s coll items st2 c2, WB b st s →
        evalObjectItems (n + 1) st s coll items = .ok (st2, c2) → FrameInv b st st2 := by
      intro b st s coll items st2 c2 hwb heq
      cases items with
      | nil => simp [evalObjectItems] at heq; exact heq.1 ▸ frameInv_refl b st
      | cons item rest =>
        simp only [evalObjectItems] at heq
        split at heq
        · cases h1 : evalStatement n st s coll item with
          | error e => rw [h1] at heq; simp at heq
          | ok pr =>
            obtain ⟨st1, c1⟩ := pr
            rw [h1] at heq
            have hf := ih2 b st s coll item st1 c1 hwb h1
            exact frameInv_trans hf
              (ih7 b st1 s c1 rest st2 c2 (wb_mono hwb hf) heq)
        · simp at heq
    have hcForBody : ∀ b st s coll items st2 c2 fl, WB b st s →
        forBodyItems (n + 1) st s coll items = .ok (st2, c2, fl) → FrameInv b st st2 := by
      intro b st s coll items st2 c2 fl hwb heq
      cases items with
      | nil => simp [forBodyItems] at heq; exact heq.1 ▸ frameInv_refl b st
      | cons item rest =>
        simp only [forBodyItems] at heq
        split at heq
        · simp at heq; exact heq.1 ▸ frameInv_refl b st
        · cases h1 : collectNode n st s coll item with
          | error e => rw [h1] at heq; simp at heq
          | ok pr =>
            obtain ⟨st1, c1⟩ := pr
            rw [h1] at heq
            have hf := ih8 b st s coll item st1 c1 hwb h1
            exact frameInv_trans hf
              (ih17 b st1 s c1 rest st2 c2 fl (wb_mono hwb hf) heq)
    have hcForArr : ∀ b st s coll kv vv body i elems st2 c2, WB b st s →
        forArrElems (n + 1) st s coll kv vv body i elems = .ok (st2, c2) →
        FrameInv b st st2 := by
      intro b st s coll kv vv body i elems st2 c2 hwb heq
      cases elems with
      | nil => simp [forArrElems] at heq; exact heq.1 ▸ frameInv_refl b st
      | cons e rest =>
        simp only [forArrElems] at heq
        cases h1 : evalForIteration n st s coll kv vv body (.num i) e with
        | error e2 => rw [h1] at heq; simp at heq
        | ok pr =>
          obtain ⟨st1, c1, flag⟩ := pr
          rw [h1] at heq
          have hf := ih16 b st s coll kv vv body (.num i) e st1 c1 flag hwb h1
          cases flag with
          | true =>
            have heq2 : (Except.ok (st1, c1) : Except EErr (EState × Coll)) =
                .ok (st2, c2) := heq
            simp at heq2
            exact heq2.1 ▸ hf
          | false =>
            exact frameInv_trans hf
              (ih14 b st1 s c1 kv vv body (i + 1) rest st2 c2 (wb_mono hwb hf) heq)
    have hcForObj : ∀ b st s coll kv vv body fs st2 c2, WB b st s →
        forObjFields (n + 1) st s coll kv vv body fs = .ok (st2, c2) →
        FrameInv b st st2 := by
      intro b st s coll kv vv body fs st2 c2 hwb heq
      cases fs with
      | nil => simp [forObjFields] at heq; exact heq.1 ▸ frameInv_refl b st
      | cons e rest =>
        obtain ⟨k, v⟩ := e
        simp only [forObjFields] at heq
        cases h1 : evalForIteration n st s coll kv vv body (.str k) v with
        | error e2 => rw [h1] at heq; simp at heq
        | ok pr =>
          obtain ⟨st1, c1, flag⟩ := pr
          rw [h1] at heq
          have hf := ih16 b st s coll kv vv body (.str k) v st1 c1 flag hwb h1
          cases flag with
          | true =>
            have heq2 : (Except.ok (st1, c1) : Except EErr (EState × Coll)) =
                .ok (st2, c2) := heq
            simp at heq2
            exact heq2.1 ▸ hf
          | false =>
            exact frameInv_trans hf
              (ih15 b st1 s c1 kv vv body rest st2 c2 (wb_mono hwb hf) heq)
    -- for iteration: child scope, loop bindings, body
    have hcForIter : ∀ b st s coll kv vv body key value st2 c2 fl, WB b st s →
        evalForIteration (n + 1) st s coll kv vv body key value = .ok (st2, c2, fl) →
        FrameInv b st st2 := by
      intro b st s coll kv vv body key value st2 c2 fl hwb heq
      have heq2 : forBodyItems n
          (scopeSet (if kv ≠ "" then
              scopeSet (newScope st (some s)).1 (newScope st (some s)).2 kv key
            else (newScope st (some s)).1)
            (newScope st (some s)).2 vv value)
          (newScope st (some s)).2 coll body = .ok (st2, c2, fl) := heq
      have fN := frameInv_newScope (b := b) (some s) hwb.2.2
      have wbN := wb_newScope (b := b) (some s) hwb.2.2
      by_cases hk : kv = ""
      · rw [if_neg (by simp [hk])] at heq2
        have fV := frameInv_scopeSet wbN vv value
        have wbV := wb_scopeSet wbN (newScope st (some s)).2 vv value
        exact frameInv_trans fN (frameInv_trans fV
          (ih17 b _ _ coll body st2 c2 fl wbV heq2))
      · rw [if_pos hk] at heq2
        have fK := frameInv_scopeSet wbN kv key
        have wbK := wb_scopeSet wbN (newScope st (some s)).2 kv key
        have fV := frameInv_scopeSet wbK vv value
        have wbV := wb_scopeSet wbK (newScope st (some s)).2 vv value
        exact frameInv_trans fN (frameInv_trans fK (frameInv_trans fV
          (ih17 b _ _ coll body st2 c2 fl wbV heq2)))
    -- if statement
    have hcIf : ∀ b st s coll cond body els st2 c2, WB b st s →
        evalIfStatement (n + 1) st s coll cond body els = .ok (st2, c2) →
        FrameInv b st st2 := by
      intro b st s coll cond body els st2 c2 hwb heq
      simp only [evalIfStatement] at heq
      cases h1 : evalExpression n st s cond with
      | error e => rw [h1] at heq; simp at heq
      | ok pr =>
        obtain ⟨st1, cv⟩ := pr
        rw [h1] at heq
        have hf := ih1 b st s cond st1 cv hwb h1
        exact frameInv_trans hf (ih9 b st1 s coll
          (if truthy cv then body else els) st2 c2 (wb_mono hwb hf) heq)
    -- with statement
    have hcWith : ∀ b st s coll ctx varName body pos st2 c2, WB b st s →
        evalWithStatement (n + 1) st s coll ctx varName body pos = .ok (st2, c2) →
        FrameInv b st st2 := by
      intro b st s coll ctx varName body pos st2 c2 hwb heq
      simp only [evalWithStatement] at heq
      cases h1 : evalExpression n st s ctx with
      | error e => rw [h1] at heq; simp at heq
      | ok pr =>
        obtain ⟨st1, context⟩ := pr
        rw [h1] at heq
        have hf := ih1 b st s ctx st1 context hwb h1
        have heq2 : collectNodeList n
            (scopeSet (newScope st1 (some s)).1 (newScope st1 (some s)).2
              varName context)
            (newScope st1 (some s)).2 coll body = .ok (st2, c2) := heq
        have fN := frameInv_newScope (b := b) (some s) (wb_mono hwb hf).2.2
        have wbN := wb_newScope (b := b) (some s) (wb_mono hwb hf).2.2
        have fS := frameInv_scopeSet wbN varName context
        have wbS := wb_scopeSet wbN (newScope st1 (some s)).2 varName context
        exact frameInv_trans hf (frameInv_trans fN (frameInv_trans fS
          (ih9 b _ _ coll body st2 c2 wbS heq2)))
    -- for statement
    have hcFor : ∀ b st s coll kv vv iter body pos st2 c2, WB b st s →
        evalForStatement (n + 1) st s coll kv vv iter body pos = .ok (st2, c2) →
        FrameInv b st st2 := by
      intro b st s coll kv vv iter body pos st2 c2 hwb heq
      simp only [evalForStatement] at heq
      cases h1 : evalExpression n st s iter with
      | error e => rw [h1] at heq; simp at heq
      | ok pr =>
        obtain ⟨st1, iv⟩ := pr
        rw [h1] at heq
        have hf := ih1 b st s iter st1 iv hwb h1
        cases iv with
        | arr elems =>
          exact frameInv_trans hf (ih14 b st1 s coll kv vv body 0 elems st2 c2
            (wb_mono hwb hf) heq)
        | obj fs =>
          exact frameInv_trans hf (ih15 b st1 s coll kv vv body fs st2 c2
            (wb_mono hwb hf) heq)
        | str v => simp at heq
        | num v => simp at heq
        | bool v => simp at heq
        | null => simp at heq
    -- array and object literals
    have hcArray : ∀ b st s body st2 v, WB b st s →
        evalArray (n + 1) st s body = .ok (st2, v) → FrameInv b st st2 := by
      intro b st s body st2 v hwb heq
      simp only [evalArray] at heq
      cases h1 : collectNodeList n st s (.arrC []) body with
      | error e => rw [h1] at heq; simp at heq
      | ok pr =>
        obtain ⟨st1, c1⟩ := pr
        rw [h1] at heq
        have hf := ih9 b st s (.arrC []) body st1 c1 hwb h1
        cases c1 <;> simp at heq <;> exact heq.1 ▸ hf
    have hcObject : ∀ b st s body st2 v, WB b st s →
        evalObject (n + 1) st s body = .ok (st2, v) → FrameInv b st st2 := by
      intro b st s body st2 v hwb heq
      simp only [evalObject] at heq
      cases h1 : evalObjectItems n st s (.objC []) body with
      | error e => rw [h1] at heq; simp at heq
      | ok pr =>
        obtain ⟨st1, c1⟩ := pr
        rw [h1] at heq
        have hf := ih7 b st s (.objC []) body st1 c1 hwb h1
        cases c1 <;> simp at heq <;> exact heq.1 ▸ hf
    -- key value
    have hcKV : ∀ b st s coll key value pos st2 c2, WB b st s →
        evalKeyValue (n + 1) st s coll key value pos = .ok (st2, c2) →
        FrameInv b st st2 := by
      intro b st s coll key value pos st2 c2 hwb heq
      simp only [evalKeyValue] at heq
      split at heq
      · cases h1 : evalValueStatement n st s value with
        | error e => rw [h1] at heq; simp at heq
        | ok pr =>
          obtain ⟨st1, val⟩ := pr
          rw [h1] at heq
          have hf := ih4 b st s value st1 val hwb h1
          rename_i docs
          replace heq : (match docs.getLast? with
            | some (Val.obj fs) =>
              Except.ok (st1, Coll.doc (docs.dropLast ++ [Val.obj (mSet fs key val)]))
            | _ => Except.ok (st1, Coll.doc (docs ++ [Val.obj (mSet [] key val)])))
              = Except.ok (st2, c2) := heq
          split at heq <;> simp at heq <;> exact heq.1 ▸ hf
      · cases h1 : evalValueStatement n st s value with
        | error e => rw [h1] at heq; simp at heq
        | ok pr =>
          obtain ⟨st1, val⟩ := pr
          rw [h1] at heq
          simp at heq
          have hf := ih4 b st s value st1 val hwb h1
          exact heq.1 ▸ hf
      · simp at heq
    -- value statement
    have hcVS : ∀ b st s node st2 v, WB b st s →
        evalValueStatement (n + 1) st s node = .ok (st2, v) → FrameInv b st st2 := by
      intro b st s node st2 v hwb heq
      simp only [evalValueStatement] at heq
      split at heq
      · rename_i cond body els pos
        cases h1 : evalIfStatement n st s (.single none) cond body els with
        | error e => rw [h1] at heq; simp at heq
        | ok pr =>
          obtain ⟨st1, c1⟩ := pr
          rw [h1] at heq
          have hf := ih10 b st s (.single none) cond body els st1 c1 hwb h1
          cases c1 with
          | single o =>
            cases o with
            | none => simp at heq
            | some vv => simp at heq; exact heq.1 ▸ hf
          | doc d => simp at heq
          | arrC e => simp at heq
          | objC f => simp at heq
      · rename_i ctx varName body pos
        cases h1 : evalWithStatement n st s (.single none) ctx varName body pos with
        | error e => rw [h1] at heq; simp at heq
        | ok pr =>
          obtain ⟨st1, c1⟩ := pr
          rw [h1] at heq
          have hf := ih11 b st s (.single none) ctx varName body pos st1 c1 hwb h1
          cases c1 with
          | single o =>
            cases o with
            | none => simp at heq
            | some vv => simp at heq; exact heq.1 ▸ hf
          | doc d => simp at heq
          | arrC e => simp at heq
          | objC f => simp at heq
      · split at heq
        · exact ih1 b st s node st2 v hwb heq
        · simp at heq
    -- spread
    have hcSpread : ∀ b st s coll operand pos st2 c2, WB b st s →
        evalSpreadStatement (n + 1) st s coll operand pos = .ok (st2, c2) →
        FrameInv b st st2 := by
      intro b st s coll operand pos st2 c2 hwb heq
      simp only [evalSpreadStatement] at heq
      cases h1 : evalValueStatement n st s operand with
      | error e => rw [h1] at heq; simp at heq
      | ok pr =>
        obtain ⟨st1, val⟩ := pr
        rw [h1] at heq
        have hf := ih4 b st s operand st1 val hwb h1
        cases coll <;> cases val <;> simp at heq <;> exact heq.1 ▸ hf
    -- member access
    have hcMember : ∀ b st s objE name pos st2 v, WB b st s →
        evalMemberExpression (n + 1) st s objE name pos = .ok (st2, v) →
        FrameInv b st st2 := by
      intro b st s objE name pos st2 v hwb heq
      simp only [evalMemberExpression] at heq
      cases h1 : evalExpression n st s objE with
      | error e => rw [h1] at heq; simp at heq
      | ok pr =>
        obtain ⟨st1, ov⟩ := pr
        rw [h1] at heq
        have hf := ih1 b st s objE st1 ov hwb h1
        cases ov with
        | null => simp at heq; exact heq.1 ▸ hf
        | obj fs =>
          simp at heq
          split at heq <;> simp at heq <;> exact heq.1 ▸ hf
        | str a => simp at heq
        | num a => simp at heq
        | bool a => simp at heq
        | arr a => simp at heq
    -- index access
    have hcIndex : ∀ b st s objE idxE pos st2 v, WB b st s →
        evalIndexExpression (n + 1) st s objE idxE pos = .ok (st2, v) →
        FrameInv b st st2 := by
      intro b st s objE idxE pos st2 v hwb heq
      simp only [evalIndexExpression] at heq
      cases h1 : evalExpression n st s objE with
      | error e => rw [h1] at heq; simp at heq
      | ok pr =>
        obtain ⟨st1, ov⟩ := pr
        rw [h1] at heq
        simp at heq
        have hf := ih1 b st s objE st1 ov hwb h1
        cases h2 : evalExpression n st1 s idxE with
        | error e => rw [h2] at heq; simp at heq
        | ok pr2 =>
          obtain ⟨stB, iv⟩ := pr2
          rw [h2] at heq
          have hg := ih1 b st1 s idxE stB iv (wb_mono hwb hf) h2
          have ff := frameInv_trans hf hg
          cases ov <;> cases iv <;> simp [toStringGo] at heq <;>
            first
            | (split at heq <;> simp at heq <;> exact heq.1 ▸ ff)
            | (exact heq.1 ▸ ff)
    -- unary
    have hcUnary : ∀ b st s op operand pos st2 v, WB b st s →
        evalUnaryOp (n + 1) st s op operand pos = .ok (st2, v) → FrameInv b st st2 := by
      intro b st s op operand pos st2 v hwb heq
      simp only [evalUnaryOp] at heq
      cases h1 : evalExpression n st s operand with
      | error e => rw [h1] at heq; simp at heq
      | ok pr =>
        obtain ⟨st1, ov⟩ := pr
        rw [h1] at heq
        have hf := ih1 b st s operand st1 ov hwb h1
        replace heq : (if op = "!" then Except.ok (st1, Val.bool (!truthy ov))
          else if op = "-" then
            match toNumberGo ov with
            | Except.error e2 =>
              Except.error (errorf pos ("cannot negate " ++ valType ov))
            | Except.ok q => Except.ok (st1, Val.num (-q))
          else Except.error (errorf pos ("unknown unary operator: " ++ op)))
            = Except.ok (st2, v) := heq
        split at heq
        · simp at heq; exact heq.1 ▸ hf
        · split at heq
          · split at heq <;> simp at heq
            exact heq.1 ▸ hf
          · simp at heq
    -- call expression
    have hcCall : ∀ b st s fn args pos st2 v, WB b st s →
        evalCallExpression (n + 1) st s fn args pos = .ok (st2, v) →
        FrameInv b st st2 := by
      intro b st s fn args pos st2 v hwb heq
      simp only [evalCallExpression] at heq
      split at heq
      · rename_i fname fpos
        cases h1 : evalExprList n st s args with
        | error e => rw [h1] at heq; simp at heq
        | ok pr =>
          obtain ⟨st1, argVals⟩ := pr
          rw [h1] at heq
          have hf := ih22 b st s args st1 argVals hwb h1
          have heq2 : callFunction st1 s pos fname argVals = .ok (st2, v) := heq
          exact (callFunction_st heq2).symm ▸ hf
      · simp at heq
    -- pipe
    have hcPipe : ∀ b st s l r pos st2 v, WB b st s →
        evalPipe (n + 1) st s l r pos = .ok (st2, v) → FrameInv b st st2 := by
      intro b st s l r pos st2 v hwb heq
      simp only [evalPipe] at heq
      cases h1 : evalExpression n st s l with
      | error e => rw [h1] at heq; simp at heq
      | ok pr =>
        obtain ⟨st1, xv⟩ := pr
        rw [h1] at heq
        simp at heq
        have hf := ih1 b st s l st1 xv hwb h1
        split at heq
        · rename_i rname rpos
          have heq2 : callFunction st1 s rpos rname [xv] = .ok (st2, v) := heq
          exact (callFunction_st heq2).symm ▸ hf
        · rename_i cfn cargs cpos
          split at heq
          · rename_i fname fpos
            cases h2 : evalExprList n st1 s cargs with
            | error e => rw [h2] at heq; simp at heq
            | ok pr2 =>
              obtain ⟨stB, argVals⟩ := pr2
              rw [h2] at heq
              have hg := ih22 b st1 s cargs stB argVals (wb_mono hwb hf) h2
              have ff := frameInv_trans hf hg
              have heq2 : callFunction stB s (PNode.identE fname fpos).getPos
                  fname (argVals ++ [xv]) = .ok (st2, v) := heq
              exact (callFunction_st heq2).symm ▸ ff
          · simp at heq
        · simp at heq
    -- binary
    have hcBinary : ∀ b st s l op r pos st2 v, WB b st s →
        evalBinaryOp (n + 1) st s l op r pos = .ok (st2, v) → FrameInv b st st2 := by
      intro b st s l op r pos st2 v hwb heq
      unfold evalBinaryOp at heq
      by_cases hop : op = "|"
      · rw [if_pos hop] at heq
        exact ih21 b st s l r pos st2 v hwb heq
      · rw [if_neg hop] at heq
        cases hl : evalExpression n st s l with
        | error e => rw [hl] at heq; exact absurd heq (by simp)
        | ok pr =>
          obtain ⟨st1, lv⟩ := pr
          rw [hl] at heq
          have hf := ih1 b st s l st1 lv hwb hl
          replace heq : (match evalExpression n st1 s r with
            | Except.error e => (Except.error e : Except EErr (EState × Val))
            | Except.ok (st3, right) =>
              if op = "+" then liftArith st3 (evalAddGo lv right)
              else if op = "-" then liftArith st3 (evalSubGo lv right)
              else if op = "*" then liftArith st3 (evalMulGo lv right)
              else if op = "/" then liftArith st3 (evalDivGo lv right)
              else if op = "==" then .ok (st3, .bool (equalGo lv right))
              else if op = "!=" then .ok (st3, .bool (!equalGo lv right))
              else if op = "<" then
                liftArith st3 (compareNum lv right (fun a b => a < b))
              else if op = "<=" then
                liftArith st3 (compareNum lv right (fun a b => a ≤ b))
              else if op = ">" then
                liftArith st3 (compareNum lv right (fun a b => b < a))
              else if op = ">=" then
                liftArith st3 (compareNum lv right (fun a b => b ≤ a))
              else if op = "&&" then .ok (st3, .bool (truthy lv && truthy right))
              else if op = "||" then .ok (st3, .bool (truthy lv || truthy right))
              else .error (errorf pos ("unknown operator: " ++ op)))
              = .ok (st2, v) := heq
          cases hr : evalExpression n st1 s r with
          | error e => rw [hr] at heq; exact absurd heq (by simp)
          | ok pr2 =>
            obtain ⟨stB, rv⟩ := pr2
            rw [hr] at heq
            have hg := ih1 b st1 s r stB rv (wb_mono hwb hf) hr
            have ff := frameInv_trans hf hg
            exact (binChain_st pos heq).symm ▸ ff
    -- include
    have hcInclude : ∀ b st s coll name ctxOpt pos st2 c2, WB b st s →
        evalIncludeStatement (n + 1) st s coll name ctxOpt pos = .ok (st2, c2) →
        FrameInv b st st2 := by
      intro b st s coll name ctxOpt pos st2 c2 hwb heq
      simp only [evalIncludeStatement] at heq
      cases ht : scopeGetTemplate st s name with
      | error msg => rw [ht] at heq; simp at heq
      | ok tmpl =>
        rw [ht] at heq
        obtain ⟨fSetup, wbTS⟩ := frameInv_includeSetup (b := b) s hwb.2.2
        cases ctxOpt with
        | none =>
          have heq2 : includeBodyLoop n
              (scopeLink (newScope st none).1 (newScope st none).2 s)
              (newScope st none).2 coll tmpl.body name pos = .ok (st2, c2) := heq
          exact frameInv_trans fSetup
            (ih26 b _ _ coll tmpl.body name pos st2 c2 wbTS heq2)
        | some ctxE =>
          have hwb3 : WB b (scopeLink (newScope st none).1 (newScope st none).2 s) s :=
            wb_mono hwb fSetup
          have heq2 : (match evalExpression n
              (scopeLink (newScope st none).1 (newScope st none).2 s) s ctxE with
            | Except.error e => (Except.error e : Except EErr (EState × Coll))
            | Except.ok (st4, val) =>
              match val with
              | Val.obj fs =>
                includeBodyLoop n
                  (List.foldl
                    (fun acc (e : String × Val) =>
                      scopeSet acc (newScope st none).2 e.1 e.2)
                    st4 fs)
                  (newScope st none).2 coll tmpl.body name pos
              | _ => Except.error (errorf ctxE.getPos
                  "template context must be an object"))
              = Except.ok (st2, c2) := heq
          cases h2 : evalExpression n
              (scopeLink (newScope st none).1 (newScope st none).2 s) s ctxE with
          | error e => rw [h2] at heq2; simp at heq2
          | ok pr =>
            obtain ⟨st4, val⟩ := pr
            rw [h2] at heq2
            have f2 := ih1 b _ s ctxE st4 val hwb3 h2
            cases val with
            | obj fs =>
              have wbTS4 : WB b st4 (newScope st none).2 := wb_mono wbTS f2
              have f3 := frameInv_ctxSeed (b := b) fs st4 (newScope st none).2 wbTS4
              have wbTS5 : WB b
                  (List.foldl
                    (fun acc (e : String × Val) =>
                      scopeSet acc (newScope st none).2 e.1 e.2)
                    st4 fs)
                  (newScope st none).2 := wb_mono wbTS4 f3
              exact frameInv_trans fSetup (frameInv_trans f2 (frameInv_trans f3
                (ih26 b _ _ coll tmpl.body name pos st2 c2 wbTS5 heq2)))
            | str a => simp at heq2
            | num a => simp at heq2
            | bool a => simp at heq2
            | null => simp at heq2
            | arr a => simp at heq2
    -- expression dispatch
    have hcExpr : ∀ b st s node st2 v, WB b st s →
        evalExpression (n + 1) st s node = .ok (st2, v) → FrameInv b st st2 := by
      intro b st s node st2 v hwb heq
      cases node with
      | stringLit a p => simp [evalExpression] at heq; exact heq.1 ▸ frameInv_refl b st
      | numberLit a p => simp [evalExpression] at heq; exact heq.1 ▸ frameInv_refl b st
      | boolLit a p => simp [evalExpression] at heq; exact heq.1 ▸ frameInv_refl b st
      | nullLit p => simp [evalExpression] at heq; exact heq.1 ▸ frameInv_refl b st
      | interpString parts pos => exact ih29 b st s parts pos st2 v hwb heq
      | identE name pos =>
        have heq2 : evalIdentifier st s name pos = .ok (st2, v) := heq
        exact (evalIdentifier_st heq2).symm ▸ frameInv_refl b st
      | binaryE l op r pos => exact ih20 b st s l op r pos st2 v hwb heq
      | unaryE op operand pos => exact ih24 b st s op operand pos st2 v hwb heq
      | callE fn args pos => exact ih23 b st s fn args pos st2 v hwb heq
      | memberE o nm pos => exact ih18 b st s o nm pos st2 v hwb heq
      | indexE o i pos => exact ih19 b st s o i pos st2 v hwb heq
      | arrayLit body p => exact ih5 b st s body st2 v hwb heq
      | objectLit body p => exact ih6 b st s body st2 v hwb heq
      | currentCtx p =>
        have heq2 : evalCurrentContext st s = .ok (st2, v) := heq
        exact (evalCurrentContext_st heq2).symm ▸ frameInv_refl b st
      | includeE name ctx pos =>
        cases hinc : evalIncludeStatement n st s (.single none) name ctx pos with
        | error e =>
          simp only [evalExpression] at heq
          rw [hinc] at heq; simp at heq
        | ok pr =>
          obtain ⟨st1, c1⟩ := pr
          have hf := ih25 b st s (.single none) name ctx pos st1 c1 hwb hinc
          simp only [evalExpression] at heq
          rw [hinc] at heq
          cases c1 with
          | single o =>
            cases o with
            | none => simp at heq
            | some vv => simp at heq; exact heq.1 ▸ hf
          | doc d => simp at heq
          | arrC e => simp at heq
          | objC f => simp at heq
      | spreadS a p => simp [evalExpression] at heq
      | ifS a bb c d => simp [evalExpression] at heq
      | forS a bb c d e => simp [evalExpression] at heq
      | withS a bb c d => simp [evalExpression] at heq
      | breakS p => simp [evalExpression] at heq
      | continueS p => simp [evalExpression] at heq
      | letS a bb c => simp [evalExpression] at heq
      | assignS a bb c => simp [evalExpression] at heq
      | keyValue a bb c => simp [evalExpression] at heq
      | nilN => simp [evalExpression] at heq
    -- statement dispatch
    have hcStmt : ∀ b st s coll node st2 c2, WB b st s →
        evalStatement (n + 1) st s coll node = .ok (st2, c2) → FrameInv b st st2 := by
      intro b st s coll node st2 c2 hwb heq
      simp only [evalStatement] at heq
      split at heq
      · rename_i name value pos
        cases h1 : evalLetStatement n st s name value pos with
        | error e => rw [h1] at heq; simp at heq
        | ok st1 =>
          rw [h1] at heq; simp at heq
          exact heq.1 ▸ ih28 b st s name value pos st1 hwb h1
      · rename_i name value pos
        cases h1 : evalAssignmentStatement n st s name value pos with
        | error e => rw [h1] at heq; simp at heq
        | ok st1 =>
          rw [h1] at heq; simp at heq
          exact heq.1 ▸ ih27 b st s name value pos st1 hwb h1
      · rename_i ctx varName body pos
        exact ih11 b st s coll ctx varName body pos st2 c2 hwb heq
      · rename_i kv vv iter body pos
        exact ih13 b st s coll kv vv iter body pos st2 c2 hwb heq
      · rename_i key value pos
        exact ih3 b st s coll key value pos st2 c2 hwb heq
      · rename_i operand pos
        exact ih12 b st s coll operand pos st2 c2 hwb heq
      · rename_i cond body els pos
        exact ih10 b st s coll cond body els st2 c2 hwb heq
      · rename_i name ctx pos
        exact ih25 b st s coll name ctx pos st2 c2 hwb heq
      · split at heq
        · cases h1 : evalExpression n st s node with
          | error e => rw [h1] at heq; simp at heq
          | ok pr =>
            obtain ⟨st1, vv⟩ := pr
            rw [h1] at heq
            have hf := ih1 b st s node st1 vv hwb h1
            cases coll <;> simp at heq <;> exact heq.1 ▸ hf
        · simp at heq
    -- collect node
    have hcCollect : ∀ b st s coll node st2 c2, WB b st s →
        collectNode (n + 1) st s coll node = .ok (st2, c2) → FrameInv b st st2 := by
      intro b st s coll node st2 c2 hwb heq
      simp only [collectNode] at heq
      split at heq
      · cases h1 : evalExpression n st s node with
        | error e => rw [h1] at heq; simp at heq
        | ok pr =>
          obtain ⟨st1, vv⟩ := pr
          rw [h1] at heq
          have hf := ih1 b st s node st1 vv hwb h1
          cases coll with
          | doc docs => simp at heq; exact heq.1 ▸ hf
          | arrC es => simp at heq; exact heq.1 ▸ hf
          | objC fs => simp at heq
          | single o =>
            cases o with
            | none => simp at heq; exact heq.1 ▸ hf
            | some _ => simp at heq
      · split at heq
        · exact ih2 b st s coll node st2 c2 hwb heq
        · simp at heq
    exact ⟨hcExpr, hcStmt, hcKV, hcVS, hcArray, hcObject, hcObjItems, hcCollect,
      hcCollectList, hcIf, hcWith, hcSpread, hcFor, hcForArr, hcForObj, hcForIter,
      hcForBody, hcMember, hcIndex, hcBinary, hcPipe, hcExprList, hcCall, hcUnary,
      hcInclude, hcIncBody, hcAssign, hcLet, hcInterp, hcInterpLoop, hcStmtList⟩


/-- Appending the default element to a list never changes a defaulted read. -/
theorem getD_append_self {α : Type} (l : List α) (d : α) (p : Nat) :
    (l ++ [d]).getD p d = l.getD p d := by
  by_cases hp : p < l.length
  · simp [List.getD_eq_getElem?_getD, List.getElem?_append, hp]
  · by_cases hp2 : p = l.length
    · subst hp2
      simp [List.getD_eq_getElem?_getD, List.getElem?_append_right, le_refl,
        List.getElem?_eq_none (by omega : l.length ≤ l.length)]
    · have h1 : l.length + 1 ≤ p := by omega
      simp [List.getD_eq_getElem?_getD,
        List.getElem?_eq_none (by simp; omega : (l ++ [d]).length ≤ p),
        List.getElem?_eq_none (by omega : l.length ≤ p)]

/-- Variable lookup only depends on the caller-visible part of the state: if
every scope cell and every variable map of the original state is preserved,
the walk is unchanged at every fuel. -/
theorem scopeGetF_congr {st st2 : EState}
    (hpar : ∀ i, i < st.scopes.length → ∀ p, (st.cell i).parent = some p → p < i)
    (hvv : ∀ i, i < st.scopes.length →
      (st.cell i).vars < st.varMaps.length ∧ (st.cell i).globals < st.varMaps.length)
    (hsc : ∀ i, i < st.scopes.length → st2.scopes[i]? = st.scopes[i]?)
    (hvm : ∀ i, i < st.varMaps.length → st2.varMaps[i]? = st.varMaps[i]?) :
    ∀ fl s nm, s < st.scopes.length →
      scopeGetF fl st2 s nm = scopeGetF fl st s nm := by
  intro fl
  induction fl with
  | zero => intro s nm _; rfl
  | succ f ihf =>
    intro s nm hs
    have hcell : st2.cell s = st.cell s := cell_congr (hsc s hs)
    have hv1 : st2.varMaps.getD (st.cell s).vars [] =
        st.varMaps.getD (st.cell s).vars [] := by
      simp [List.getD_eq_getElem?_getD, hvm _ (hvv s hs).1]
    have hg1 : st2.varMaps.getD (st.cell s).globals [] =
        st.varMaps.getD (st.cell s).globals [] := by
      simp [List.getD_eq_getElem?_getD, hvm _ (hvv s hs).2]
    simp only [scopeGetF, hcell, hv1, hg1]
    cases hm : mGet (st.varMaps.getD (st.cell s).vars []) nm with
    | some v => rfl
    | none =>
      cases hp : (st.cell s).parent with
      | some p => exact ihf p nm (lt_trans (hpar s hs p hp) hs)
      | none => rfl

/-- With a strictly decreasing parent chain the walk is insensitive to the
fuel once the fuel exceeds the start index. -/
theorem scopeGetF_fuel {st : EState}
    (hpar : ∀ i, i < st.scopes.length → ∀ p, (st.cell i).parent = some p → p < i) :
    ∀ s fl fl2 nm, s < fl → s < fl2 → s < st.scopes.length →
      scopeGetF fl st s nm = scopeGetF fl2 st s nm := by
  intro s
  induction s using Nat.strong_induction_on with
  | _ s ihs =>
    intro fl fl2 nm h1 h2 hs
    match fl, h1 with
    | f + 1, _ =>
    match fl2, h2 with
    | f2 + 1, _ =>
    simp only [scopeGetF]
    cases hm : mGet (st.varMaps.getD (st.cell s).vars []) nm with
    | some v => rfl
    | none =>
      cases hp : (st.cell s).parent with
      | some p =>
        have hps : p < s := hpar s hs p hp
        exact ihs p hps f f2 nm (by omega) (by omega) (lt_trans hps hs)
      | none => rfl

/-- The includeBodyLoop clause of the frame theorem. -/
theorem frame_includeBody (n : Nat) :
    ∀ b st ts coll body name pos st2 c2, WB b st ts →
      includeBodyLoop n st ts coll body name pos = .ok (st2, c2) →
      FrameInv b st st2 :=
  (frame_master n).2.2.2.2.2.2.2.2.2.2.2.2.2.2.2.2.2.2.2.2.2.2.2.2.2.1


/-- C8: an include evaluates the template body in a freshly allocated scope
that has no parent, whose local-variable map starts empty, and which shares
the caller\x27s function and template registries (so functions and templates
registered during the caller\x27s evaluation are visible inside the body);
and whenever an include with no context succeeds, every variable lookup in
the caller\x27s scope afterwards is exactly what it was before — in
particular a let bound inside the template is never visible to the caller. -/
theorem htkl_C8_include_scope_isolation :
    (∀ (n : Nat) (st : EState) (s : Nat) (coll : Coll) (name : String) (pos : Pos)
        (tmpl : Template),
      scopeGetTemplate st s name = .ok tmpl →
      s < st.scopes.length →
      evalIncludeStatement (n + 1) st s coll name none pos =
        includeBodyLoop n (scopeLink (newScope st none).1 (newScope st none).2 s)
          (newScope st none).2 coll tmpl.body name pos ∧
      ((scopeLink (newScope st none).1 (newScope st none).2 s).cell
          (newScope st none).2).parent = none ∧
      (scopeLink (newScope st none).1 (newScope st none).2 s).varMaps.getD
        ((scopeLink (newScope st none).1 (newScope st none).2 s).cell
          (newScope st none).2).vars [] = [] ∧
      (∀ nm, scopeGetFunction
          (scopeLink (newScope st none).1 (newScope st none).2 s)
          (newScope st none).2 nm = scopeGetFunction st s nm) ∧
      (∀ nm tv, mGet (st.tmplMaps.getD (st.cell s).templates []) nm = some tv →
        scopeGetTemplate (scopeLink (newScope st none).1 (newScope st none).2 s)
          (newScope st none).2 nm = .ok tv)) ∧
    (∀ (n : Nat) (st : EState) (s : Nat) (coll : Coll) (name : String) (pos : Pos)
        (st2 : EState) (c2 : Coll),
      s < st.scopes.length →
      (∀ i, i < st.scopes.length → ∀ p, (st.cell i).parent = some p → p < i) →
      (∀ i, i < st.scopes.length →
        (st.cell i).vars < st.varMaps.length ∧
        (st.cell i).globals < st.varMaps.length) →
      evalIncludeStatement n st s coll name none pos = .ok (st2, c2) →
      ∀ nm, scopeGet st2 s nm = scopeGet st s nm) := by
  constructor
  · intro n st s coll name pos tmpl htmpl hs
    have hcs : (newScope st none).1.cell s = st.cell s := by
      simp [newScope, EState.cell, List.getD_eq_getElem?_getD,
        List.getElem?_append, hs]
    have hlen : st.scopes.length < ((newScope st none).1).scopes.length := by
      simp [newScope]
    have hcell : (scopeLink (newScope st none).1 (newScope st none).2 s).cell
        (newScope st none).2 =
        ⟨none, st.varMaps.length, (st.cell s).globals, (st.cell s).funcs,
          (st.cell s).templates⟩ := by
      simp only [scopeLink, newScope_snd, EState.cell, List.getD_eq_getElem?_getD,
        List.getElem?_set_self hlen, Option.getD_some]
      have h1 : (newScope st none).1.scopes[st.scopes.length]? =
          some ⟨none, st.varMaps.length, st.varMaps.length + 1,
            st.funcMaps.length, st.tmplMaps.length⟩ := by
        simp [newScope, List.getElem?_append_right, le_refl]
      have h2 : (newScope st none).1.scopes[s]? = st.scopes[s]? := by
        simp [newScope, List.getElem?_append, hs]
      rw [h1, h2]
      simp [EState.cell, List.getD_eq_getElem?_getD]
    refine ⟨?_, ?_, ?_, ?_, ?_⟩
    · have e1 : evalIncludeStatement (n + 1) st s coll name none pos =
          (match scopeGetTemplate st s name with
            | Except.error msg => Except.error (errorf pos msg)
            | Except.ok tmpl2 =>
              includeBodyLoop n
                (scopeLink (newScope st none).1 (newScope st none).2 s)
                (newScope st none).2 coll tmpl2.body name pos) := rfl
      rw [e1, htmpl]
    · rw [hcell]
    · rw [hcell]
      simp [scopeLink, newScope, List.getD_eq_getElem?_getD,
        List.getElem?_append_right, le_refl]
      simp [List.getElem_append_right, le_refl]
    · intro nm
      simp only [scopeGetFunction]
      rw [hcell]
      have hfm : (scopeLink (newScope st none).1 (newScope st none).2 s).funcMaps =
          st.funcMaps ++ [[]] := by simp [scopeLink, newScope]
      rw [hfm, getD_append_self]
    · intro nm tv hmem
      have hfuel : (scopeLink (newScope st none).1
          (newScope st none).2 s).scopes.length = st.scopes.length + 1 := by
        simp [scopeLink, newScope]
      have htm : (scopeLink (newScope st none).1 (newScope st none).2 s).tmplMaps =
          st.tmplMaps ++ [[]] := by simp [scopeLink, newScope]
      simp only [scopeGetTemplate, hfuel, scopeGetTemplateF, hcell, htm,
        getD_append_self, hmem]
  · intro n st s coll name pos st2 c2 hs hpar hvv heval nm
    match n with
    | 0 => exact Except.noConfusion heval
    | m + 1 =>
      cases ht : scopeGetTemplate st s name with
      | error msg =>
        have e1 : evalIncludeStatement (m + 1) st s coll name none pos =
            (match scopeGetTemplate st s name with
              | Except.error msg2 => Except.error (errorf pos msg2)
              | Except.ok tmpl2 =>
                includeBodyLoop m
                  (scopeLink (newScope st none).1 (newScope st none).2 s)
                  (newScope st none).2 coll tmpl2.body name pos) := rfl
        rw [e1, ht] at heval
        exact absurd heval (by simp)
      | ok tmpl =>
        have e1 : evalIncludeStatement (m + 1) st s coll name none pos =
            (match scopeGetTemplate st s name with
              | Except.error msg2 => Except.error (errorf pos msg2)
              | Except.ok tmpl2 =>
                includeBodyLoop m
                  (scopeLink (newScope st none).1 (newScope st none).2 s)
                  (newScope st none).2 coll tmpl2.body name pos) := rfl
        rw [e1, ht] at heval
        obtain ⟨fSetup, wbTS⟩ :=
          frameInv_includeSetup (b := st.varMaps.length) s (le_refl _)
        have ff := frame_includeBody m st.varMaps.length _ _ coll tmpl.body
          name pos st2 c2 wbTS heval
        have fAll := frameInv_trans fSetup ff
        obtain ⟨psc, pvm, _, _, plen, pvlen, _, _⟩ := fAll
        have hcong := scopeGetF_congr hpar hvv psc pvm
        calc scopeGet st2 s nm
            = scopeGetF (st2.scopes.length + 1) st2 s nm := rfl
          _ = scopeGetF (st2.scopes.length + 1) st s nm := hcong _ s nm hs
          _ = scopeGetF (st.scopes.length + 1) st s nm :=
              scopeGetF_fuel hpar s _ _ nm (by omega) (by omega) hs
          _ = scopeGet st s nm := rfl


/-- A one-template fixture for the C8 witness: the template binds x with let
and emits one key-value document. -/
def c8body : List PNode := [.letS "x" (.boolLit true posB) posA,
  .keyValue "k" (.boolLit true posB) posA]

def stT : EState := scopeDefineTemplate st0 0 "t" ⟨"t", c8body, "t.htkl"⟩

/-- The state after including the template: the let landed in the fresh
cell 2, not in the root scope\x27s cell 0. -/
def st2C8 : EState :=
  ⟨[⟨none, 0, 1, 0, 0⟩, ⟨none, 2, 1, 0, 0⟩],
   [[], [], [("x", .bool true)], []],
   [[], []],
   [[("t", ⟨"t", c8body, "t.htkl"⟩)], []]⟩

/-- Witness for C8 on the one-template fixture. -/
theorem htkl_C8_include_scope_isolation_witness :
    ((scopeLink (newScope stT none).1 (newScope stT none).2 0).cell
        (newScope stT none).2).parent = none ∧
    evalIncludeStatement 20 stT 0 (.doc []) "t" none posA =
      .ok (st2C8, .doc [.obj [("k", .bool true)]]) ∧
    scopeGet st2C8 0 "x" = scopeGet stT 0 "x" ∧
    scopeGet stT 0 "x" = .error "undefined variable: x" :=
  ⟨(htkl_C8_include_scope_isolation.1 19 stT 0 (.doc []) "t" posA
      ⟨"t", c8body, "t.htkl"⟩ rfl (by decide)).2.1,
   rfl,
   htkl_C8_include_scope_isolation.2 20 stT 0 (.doc []) "t" posA st2C8
     (.doc [.obj [("k", .bool true)]])
     (by decide)
     (by
       intro i hi p hp
       rw [show stT.scopes.length = 1 from rfl] at hi
       have h0 : i = 0 := by omega
       subst h0
       exact Option.noConfusion hp)
     (by
       intro i hi
       rw [show stT.scopes.length = 1 from rfl] at hi
       have h0 : i = 0 := by omega
       subst h0
       exact ⟨by decide, by decide⟩)
     rfl "x",
   rfl⟩

end Htkl
